import Mathlib

/-!
# openwrt-sdk: the LuCI RPC session and the DNS reconciler

A shallow embedding of `pkg/lucirpc/lucirpc.go` and `pkg/sdk/dns.go`.

* Go `error` values are the type `Err`; a `(string, error)` result is an
  `Reply`.
* Collaborators (the HTTP stack below `call`, `encoding/json`, and the `LuciRPC`
  interface consumed by the SDK) are explicit parameters.  They are
  history-dependent oracles, and every call that reaches them is appended to a
  trace, so that "which calls were issued, in which order" is a value the
  theorems can talk about.
* Mutable state (the session token, the pending slice of the reconciler) is
  passed explicitly.
-/

namespace OpenWrt

/-! ## Errors -/

/-- Go `error` values.  The four package-level sentinels of `lucirpc.go` are
compared by identity in `rpcWithAuth`, so each is a constructor of its own.
`message` is an error created inside this repository by `errors.New` or
`fmt.Errorf` (a fresh value, never identical to a sentinel); `external` is an
error value handed back by a library (`net/http`, `io`, `encoding/json`). -/
inductive Err where
  | ErrRpcLoginFail
  | ErrHttpUnauthenticated
  | ErrHttpUnauthorized
  | ErrHttpForbidden
  | message (text : String)
  | external (text : String)
deriving DecidableEq, Repr

/-- The text of `err.Error()`. -/
def Err.Error : Err → String
  | .ErrRpcLoginFail => "rpc: login fail"
  | .ErrHttpUnauthenticated => "http: Unauthenticated"
  | .ErrHttpUnauthorized => "http: Unauthorized"
  | .ErrHttpForbidden => "http: Forbidden"
  | .message text => text
  | .external text => text

/-- A Go `(string, error)` result; derived equality makes traces comparable. -/
inductive Reply where
  | ok (result : String)
  | error (err : Err)
deriving DecidableEq, Repr

/-! ## pkg/lucirpc -/

def rpcPath : String := "/cgi-bin/luci/rpc/"
def authPath : String := rpcPath ++ "auth"
def uciPath : String := rpcPath ++ "uci"
def methodLogin : String := "login"

/-- A decoded JSON value held in a Go `any` that is not `nil`: either a Go
`string`, or any other decoded value, represented by the text `json.Marshal`
renders it to.  The Go `nil` is `none` of `Option JVal`. -/
inductive JVal where
  | str (s : String)
  | other (marshalled : String)
deriving DecidableEq, Repr

/-- The JSON-RPC request payload (`type Payload`). -/
structure Payload where
  ID : Int
  Method : String
  Params : List String
deriving DecidableEq, Repr

/-- The JSON-RPC response envelope (`type Response`). -/
structure Response where
  ID : Int
  Result : Option JVal
  Error : Option JVal
deriving DecidableEq, Repr

/-- The fields of `type LuciRPC` that the session logic reads or writes. -/
structure LuciRPC where
  addr : String
  username : String
  password : String
  rpcID : Int
  token : String
deriving DecidableEq, Repr

/-- One invocation of `c.call(ctx, url, data)`, `data` being the marshalled
payload. -/
structure HttpCall where
  url : String
  payload : Payload
deriving DecidableEq, Repr

/-- What the HTTP stack does with one invocation of `call`:
`failure` when `http.NewRequestWithContext` or `httpClient.Do` returns an error;
otherwise the status code of the response together with what `io.ReadAll`
returned (the bytes read and its error, if any). -/
inductive HttpReply where
  | failure (text : String)
  | response (StatusCode : Int) (respBody : String) (readErr : Option String)
deriving DecidableEq, Repr

/-- An invocation of `call` together with what came back. -/
structure HttpEvent where
  call : HttpCall
  reply : HttpReply
deriving DecidableEq, Repr

/-- The collaborators of the session: the HTTP stack, which may answer
depending on everything it has seen so far, and `json.Unmarshal` into a
`Response`. -/
structure Transport where
  send : List HttpEvent → HttpCall → HttpReply
  unmarshal : String → Except String Response

/-- Source: `parseString`. -/
def parseString (obj : Option JVal) : Except Err String :=
  match obj with
  | none => .error (.message "nil object cannot be parsed")
  | some (.str s) => .ok s
  | some (.other marshalled) => .ok marshalled

/-- Source: `parseError`; the value is the `error` it returns. -/
def parseError (obj : Option JVal) : Err :=
  match parseString obj with
  | .error err => err
  | .ok result => .message result

/-- Source: `(*LuciRPC).getUri`. -/
def getUri (c : LuciRPC) (path method : String) : String :=
  let url := c.addr ++ path
  if method ≠ methodLogin ∧ c.token ≠ "" then
    url ++ "?auth=" ++ c.token
  else
    url

/-- Source: `(*LuciRPC).httpError`. -/
def httpError (code : Int) : Err :=
  if code = 401 then .ErrHttpUnauthorized
  else if code = 403 then .ErrHttpForbidden
  else .message ("http status code: " ++ toString code)

/-- Source: `(*LuciRPC).call`.  Returns the pair `(respBody, err)` and the
extended trace. -/
def call (t : Transport) (hist : List HttpEvent) (url : String) (payload : Payload) :
    (String × Option Err) × List HttpEvent :=
  let req : HttpCall := ⟨url, payload⟩
  let reply := t.send hist req
  let hist' := hist ++ [⟨req, reply⟩]
  match reply with
  | .failure text => (("", some (.external text)), hist')
  | .response StatusCode respBody readErr =>
    if StatusCode > 226 then
      ((respBody, some (httpError StatusCode)), hist')
    else
      ((respBody, readErr.map .external), hist')

/-- Source: `(*LuciRPC).rpc`.  `json.Marshal` of a `Payload` cannot fail, so the
request is kept as the payload itself. -/
def rpc (t : Transport) (c : LuciRPC) (hist : List HttpEvent) (path method : String)
    (params : List String) : Reply × List HttpEvent :=
  let payload : Payload := ⟨c.rpcID, method, params⟩
  let url := getUri c path method
  match call t hist url payload with
  | ((_, some err), hist') => (.error err, hist')
  | ((respBody, none), hist') =>
    match t.unmarshal respBody with
    | .error text => (.error (.external text), hist')
    | .ok response =>
      if response.Error ≠ none then
        (.error (parseError response.Error), hist')
      else if response.Result ≠ none then
        match parseString response.Result with
        | .ok s => (.ok s, hist')
        | .error err => (.error err, hist')
      else
        (.ok "", hist')

/-- Source: `(*LuciRPC).auth`.  Returns the error (`none` is Go's `nil`), the
session after the call and the extended trace. -/
def auth (t : Transport) (c : LuciRPC) (hist : List HttpEvent) :
    Option Err × LuciRPC × List HttpEvent :=
  match rpc t c hist authPath methodLogin [c.username, c.password] with
  | (.error err, hist') => (some err, c, hist')
  | (.ok token, hist') =>
    if token = "null" then
      (some .ErrRpcLoginFail, c, hist')
    else
      (none, { c with token := token }, hist')

/-- Source: `(*LuciRPC).rpcWithAuth`. -/
def rpcWithAuth (t : Transport) (c : LuciRPC) (hist : List HttpEvent) (path method : String)
    (params : List String) : Reply × LuciRPC × List HttpEvent :=
  match rpc t c hist path method params with
  | (.ok result, hist') => (.ok result, c, hist')
  | (.error err, hist') =>
    if err ≠ .ErrHttpUnauthorized ∧ err ≠ .ErrHttpForbidden then
      (.error err, c, hist')
    else
      match auth t c hist' with
      | (some err', c', hist'') => (.error err', c', hist'')
      | (none, c', hist'') =>
        let r := rpc t c' hist'' path method params
        (r.1, c', r.2)

/-- Source: `(*LuciRPC).Uci`. -/
def Uci (t : Transport) (c : LuciRPC) (hist : List HttpEvent) (method : String)
    (params : List String) : Reply × LuciRPC × List HttpEvent :=
  rpcWithAuth t c hist uciPath method params

/-! ## pkg/sdk -/

/-- Source: `type DNSRecord` (the field `Type` is spelled `Typ`, `Type` being
reserved). -/
structure DNSRecord where
  Typ : String
  IP : String
  Name : String
  CName : String
  Target : String
deriving DecidableEq, Repr

/-- One invocation of the `LuciRPC` interface: `Uci(ctx, method, params)`. -/
structure UciCall where
  method : String
  params : List String
deriving DecidableEq, Repr

/-- An invocation of `Uci` together with what it returned. -/
structure UciEvent where
  call : UciCall
  reply : Reply
deriving DecidableEq, Repr

/-- A Go `map[string]DNSRecord`: the value held under each key, `none` for a
key that is absent.  The order in which `range` produces the keys is not part
of the map; every loop over a map takes it as a separate argument. -/
abbrev GoMap := String → Option DNSRecord

/-- Go `m[key] = value`. -/
def GoMap.set (m : GoMap) (key : String) (value : DNSRecord) : GoMap :=
  fun k => if k = key then some value else m k

/-- Go `delete(m, key)`. -/
def GoMap.delete (m : GoMap) (key : String) : GoMap :=
  fun k => if k = key then none else m k

/-- The collaborators of the SDK: the `LuciRPC` interface, which may answer
depending on every call it has seen so far, and `json.Unmarshal` into a
`map[string]DNSRecord`. -/
structure Device where
  lucirpc : List UciEvent → UciCall → Reply
  unmarshal : String → Except String GoMap

/-- How a run of SDK code ends: a normal return, a returned `error`, or a
run-time panic. -/
inductive Outcome (α : Type) where
  | ok (value : α)
  | err (e : Err)
  | panic (text : String)
deriving DecidableEq, Repr

/-- SDK code as a function of the calls issued so far: it yields how the run
ends and the trace extended by the calls it issued. -/
def Run (α : Type) : Type := List UciEvent → Outcome α × List UciEvent

/-- Run `m` after the calls `hist`. -/
def Run.run {α : Type} (m : Run α) (hist : List UciEvent) : Outcome α × List UciEvent := m hist

/-- Normal completion. -/
def Run.ret {α : Type} (a : α) : Run α := fun hist => (.ok a, hist)

/-- Sequencing: Go's `if err != nil { return err }` after every step, and
unwinding on panic. -/
def Run.andThen {α β : Type} (m : Run α) (f : α → Run β) : Run β := fun hist =>
  match m hist with
  | (.ok a, hist') => f a hist'
  | (.err e, hist') => (.err e, hist')
  | (.panic text, hist') => (.panic text, hist')

instance : Monad Run where
  pure := Run.ret
  bind := Run.andThen

/-- Go: `return err`. -/
def fail {α : Type} (e : Err) : Run α := fun hist => (.err e, hist)

/-- A run-time panic. -/
def runtimePanic {α : Type} (text : String) : Run α := fun hist => (.panic text, hist)

/-- Go: `o.lucirpc.Uci(ctx, method, params)`. -/
def uci (d : Device) (method : String) (params : List String) : Run String := fun hist =>
  let c : UciCall := ⟨method, params⟩
  let r := d.lucirpc hist c
  match r with
  | .ok result => (.ok result, hist ++ [⟨c, r⟩])
  | .error e => (.err e, hist ++ [⟨c, r⟩])

/-- Go `strings.ToUpper`, on the letters `a`-`z`.  The only use in the source is
a comparison of the result with `"A"` and `"CNAME"`; no character outside ASCII
has one of these letters as its upper case, so the comparison is decided by the
ASCII mapping alone. -/
def ToUpper (s : String) : String := ⟨s.data.map Char.toUpper⟩

/-- Go `fmt` verb `%v` on a `DNSRecord`. -/
def fmtRecord (r : DNSRecord) : String :=
  "\x7b" ++ r.Typ ++ " " ++ r.IP ++ " " ++ r.Name ++ " " ++ r.CName ++ " " ++ r.Target ++ "\x7d"

/-- Go `fmt` verb `%v` on a `[]DNSRecord`. -/
def fmtRecords (rs : List DNSRecord) : String :=
  "[" ++ " ".intercalate (rs.map fmtRecord) ++ "]"

/-- The body of the `range` loop of `GetDNSRecords`, over the keys in the order
`range` produces them.  A key whose entry is gone when it is reached is not
produced. -/
def getLoop : List String → GoMap → GoMap
  | [], records => records
  | key :: rest, records =>
    match records key with
    | none => getLoop rest records
    | some record =>
      if record.Typ = "domain" then
        getLoop rest (records.set key { Typ := "A", IP := record.IP, Name := record.Name,
                                        CName := "", Target := "" })
      else if record.Typ = "cname" then
        getLoop rest (records.set key { Typ := "CNAME", IP := "", Name := "",
                                        CName := record.CName, Target := record.Target })
      else
        getLoop rest (records.delete key)

/-- Source: `(*OpenWRT).GetDNSRecords`; `order` is the order in which `range`
produces the keys of the decoded map. -/
def GetDNSRecords (d : Device) (order : List String) : Run GoMap := do
  let result ← uci d "get_all" ["dhcp"]
  match d.unmarshal result with
  | .error text => fail (.external text)
  | .ok records => pure (getLoop order records)

/-- Source: `(*OpenWRT).addA`. -/
def addA (d : Device) (record : DNSRecord) : Run Unit :=
  if record.Typ ≠ "a" ∧ record.Typ ≠ "A" then
    fail (.message ("invalid record type: " ++ record.Typ))
  else if record.Name = "" then
    fail (.message "name is required")
  else if record.IP = "" then
    fail (.message "ip is required")
  else do
    let cfg ← uci d "add" ["dhcp", "domain"]
    let _ ← uci d "set" ["dhcp", cfg, "name", record.Name]
    let _ ← uci d "set" ["dhcp", cfg, "ip", record.IP]
    pure ()

/-- Source: `(*OpenWRT).addCName`. -/
def addCName (d : Device) (record : DNSRecord) : Run Unit :=
  if record.Typ ≠ "cname" ∧ record.Typ ≠ "CNAME" then
    fail (.message ("invalid record type: " ++ record.Typ))
  else if record.CName = "" then
    fail (.message "cname is required")
  else if record.Target = "" then
    fail (.message "target is required")
  else do
    let cfg ← uci d "add" ["dhcp", "cname"]
    let _ ← uci d "set" ["dhcp", cfg, "cname", record.CName]
    let _ ← uci d "set" ["dhcp", cfg, "target", record.Target]
    pure ()

/-- The `range` loop of `SetDNSRecords`. -/
def setLoop (d : Device) : List DNSRecord → Run Unit
  | [] => pure ()
  | record :: rest => do
    (if ToUpper record.Typ = "A" then
      addA d record
    else if ToUpper record.Typ = "CNAME" then
      addCName d record
    else
      fail (.message ("invalid record type: " ++ record.Typ)))
    setLoop d rest

/-- Source: `(*OpenWRT).SetDNSRecords`. -/
def SetDNSRecords (d : Device) (records : List DNSRecord) : Run Unit := do
  setLoop d records
  let _ ← uci d "commit" ["dhcp"]
  pure ()

/-- A Go slice of records that starts at the beginning of its backing array:
`arr` is the backing array up to the capacity, `len` the length of the slice.
The elements of the slice are `arr.take len`. -/
structure Slice where
  arr : List DNSRecord
  len : Nat
deriving DecidableEq, Repr

/-- The elements of a slice. -/
def Slice.elems (s : Slice) : List DNSRecord := s.arr.take s.len

/-- Go `append(s[:index], s[index+1:]...)`.  `s[:index]` faults when `index`
exceeds the capacity and `s[index+1:]` faults when `index+1` exceeds the length
(`none`).  Otherwise the destination `s[:index]` has room for the `len-index-1`
remaining elements, so `append` moves them one place down inside the same
backing array, and the cells from `len-1` on keep what they held. -/
def removeAt (s : Slice) (index : Nat) : Option Slice :=
  if index > s.arr.length then none
  else if index + 1 > s.len then none
  else some ⟨s.arr.take index ++ (s.arr.drop (index + 1)).take (s.len - (index + 1))
               ++ s.arr.drop (s.len - 1), s.len - 1⟩

/-- The statement `rs = append(rs[:index], rs[index+1:]...)` inside a run. -/
def remove (s : Slice) (index : Nat) : Run Slice :=
  match removeAt s index with
  | none => runtimePanic "slice bounds out of range"
  | some s' => pure s'

/-- The inner `range` loop of `UpdateDNSRecords` for one current entry.  The
range expression is evaluated once, so the indexes run over the length the
slice had when the loop started, while each element is read from the backing
array as it is when the index is reached. -/
def updateInner (d : Device) (cfg : String) (currentRecord : DNSRecord) :
    List Nat → Slice → Run Slice
  | [], updateRecords => pure updateRecords
  | index :: rest, updateRecords =>
    match updateRecords.arr[index]? with
    | none => runtimePanic "index out of range"
    | some updateRecord => do
      let updateRecords ←
        (if updateRecord.Typ = "A" ∧ updateRecord.Name = currentRecord.Name then do
          let _ ← uci d "delete" ["dhcp", cfg]
          addA d updateRecord
          remove updateRecords index
        else pure updateRecords)
      let updateRecords ←
        (if updateRecord.Typ = "CNAME" ∧ updateRecord.CName = currentRecord.CName then do
          let _ ← uci d "delete" ["dhcp", cfg]
          addCName d updateRecord
          remove updateRecords index
        else pure updateRecords)
      updateInner d cfg currentRecord rest updateRecords

/-- The outer `range` loop of `UpdateDNSRecords` over the current entries, in the
order `order` in which `range` produces their keys. -/
def updateOuter (d : Device) (currentRecords : GoMap) : List String → Slice → Run Slice
  | [], updateRecords => pure updateRecords
  | cfg :: rest, updateRecords =>
    match currentRecords cfg with
    | none => updateOuter d currentRecords rest updateRecords
    | some currentRecord => do
      let updateRecords ←
        updateInner d cfg currentRecord (List.range updateRecords.len) updateRecords
      updateOuter d currentRecords rest updateRecords

/-- Source: `(*OpenWRT).UpdateDNSRecords`.  `order` is the key order of the
`range` inside `GetDNSRecords`, `order'` the key order of the `range` over
`currentRecords`. -/
def UpdateDNSRecords (d : Device) (order order' : List String)
    (updateRecords : List DNSRecord) : Run Unit := do
  let currentRecords ← GetDNSRecords d order
  let updateRecords ← updateOuter d currentRecords order' ⟨updateRecords, updateRecords.length⟩
  if updateRecords.len > 0 then
    fail (.message ("records not found: " ++ fmtRecords updateRecords.elems))
  else do
    let _ ← uci d "commit" ["dhcp"]
    pure ()

/-- The inner `range` loop of `DeleteDNSRecords` for one current entry. -/
def deleteInner (d : Device) (cfg : String) (currentRecord : DNSRecord) :
    List Nat → Slice → Run Slice
  | [], deleteRecords => pure deleteRecords
  | index :: rest, deleteRecords =>
    match deleteRecords.arr[index]? with
    | none => runtimePanic "index out of range"
    | some deleteRecord => do
      let deleteRecords ←
        (if (deleteRecord.Typ = "A" ∧ deleteRecord.Name = currentRecord.Name) ∨
            (deleteRecord.Typ = "CNAME" ∧ deleteRecord.CName = currentRecord.CName) then do
          let _ ← uci d "delete" ["dhcp", cfg]
          remove deleteRecords index
        else pure deleteRecords)
      deleteInner d cfg currentRecord rest deleteRecords

/-- The outer `range` loop of `DeleteDNSRecords`. -/
def deleteOuter (d : Device) (currentRecords : GoMap) : List String → Slice → Run Slice
  | [], deleteRecords => pure deleteRecords
  | cfg :: rest, deleteRecords =>
    match currentRecords cfg with
    | none => deleteOuter d currentRecords rest deleteRecords
    | some currentRecord => do
      let deleteRecords ←
        deleteInner d cfg currentRecord (List.range deleteRecords.len) deleteRecords
      deleteOuter d currentRecords rest deleteRecords

/-- Source: `(*OpenWRT).DeleteDNSRecords`; `order` and `order'` as for
`UpdateDNSRecords`. -/
def DeleteDNSRecords (d : Device) (order order' : List String)
    (deleteRecords : List DNSRecord) : Run Unit := do
  let currentRecords ← GetDNSRecords d order
  let deleteRecords ← deleteOuter d currentRecords order' ⟨deleteRecords, deleteRecords.length⟩
  if deleteRecords.len > 0 then
    fail (.message ("records not found: " ++ fmtRecords deleteRecords.elems))
  else do
    let _ ← uci d "commit" ["dhcp"]
    pure ()

/-! # Definitions used by the statements: sample inputs and specification-side functions -/

/-! ## Auxiliary definitions for the session theorems -/

/-- The request `rpc` hands to `call`. -/
def requestOf (c : LuciRPC) (path method : String) (params : List String) : HttpCall :=
  ⟨getUri c path method, ⟨c.rpcID, method, params⟩⟩

/-- The login request `auth` hands to `call`. -/
def loginRequest (c : LuciRPC) : HttpCall :=
  ⟨c.addr ++ authPath, ⟨c.rpcID, methodLogin, [c.username, c.password]⟩⟩


/-- The server of the test "uci / should get": the auth endpoint hands out the
token `foobar`; the UCI endpoint answers 401 to the first request it sees and
`helloworld` afterwards. -/
def sampleTransport : Transport where
  send := fun hist req =>
    if req.url = "http://router" ++ authPath then
      .response 200 "\x7b\"result\":\"foobar\"\x7d" none
    else if hist = [] then
      .response 401 "" none
    else
      .response 200 "\x7b\"result\":\"helloworld\"\x7d" none
  unmarshal := fun body =>
    if body = "\x7b\"result\":\"foobar\"\x7d" then .ok ⟨0, some (.str "foobar"), none⟩
    else if body = "\x7b\"result\":\"helloworld\"\x7d" then .ok ⟨0, some (.str "helloworld"), none⟩
    else if body = "\x7b\"id\":1,\"result\":null,\"error\":null\x7d" then .ok ⟨1, none, none⟩
    else .error "unexpected end of JSON input"

/-- The client of the tests, before any login. -/
def sampleClient : LuciRPC := ⟨"http://router", "admin", "password", 1, ""⟩


/-- A device that rejects the credentials the way OpenWRT does: the auth
endpoint answers 200 with a `null` result. -/
def rejectingTransport : Transport where
  send := fun _ _ => .response 200 "\x7b\"id\":1,\"result\":null,\"error\":null\x7d" none
  unmarshal := sampleTransport.unmarshal

/-- A client that holds a token from an earlier login. -/
def staleClient : LuciRPC := ⟨"http://router", "admin", "wrong", 1, "stale"⟩

/-! ## Auxiliary definitions for the reconciler theorems -/

/-- What the `switch` of `GetDNSRecords` leaves under a key that held `record`. -/
def normalize (record : DNSRecord) : Option DNSRecord :=
  if record.Typ = "domain" then
    some { Typ := "A", IP := record.IP, Name := record.Name, CName := "", Target := "" }
  else if record.Typ = "cname" then
    some { Typ := "CNAME", IP := "", Name := "", CName := record.CName, Target := record.Target }
  else none

/-- The snapshot of the test "Get DNS / get all records". -/
def sampleSnapshot : GoMap := fun k =>
  if k = "x" then some ⟨"domain", "1.1.1.1", "foobar", "", ""⟩
  else if k = "y" then some ⟨"cname", "", "", "foobar", "bar.foo.com"⟩
  else if k = "z" then some ⟨"whatever", "", "", "", ""⟩
  else none

/-- A device on which every call succeeds: `add` returns a fresh handle, every
other call the empty string, and `get_all` decodes to `snapshot`. -/
def sampleDevice (snapshot : GoMap) : Device where
  lucirpc := fun hist c => if c.method = "add" then .ok ("cfg" ++ toString hist.length) else .ok ""
  unmarshal := fun _ => .ok snapshot

/-- The error with which `SetDNSRecords` turns a record away before it issues
any call for it: the `default` branch of the `switch`, or one of the checks at
the head of `addA` and `addCName`.  `none` when the record passes them. -/
def rejection (record : DNSRecord) : Option Err :=
  if ToUpper record.Typ = "A" then
    if record.Typ ≠ "a" ∧ record.Typ ≠ "A" then
      some (.message ("invalid record type: " ++ record.Typ))
    else if record.Name = "" then some (.message "name is required")
    else if record.IP = "" then some (.message "ip is required")
    else none
  else if ToUpper record.Typ = "CNAME" then
    if record.Typ ≠ "cname" ∧ record.Typ ≠ "CNAME" then
      some (.message ("invalid record type: " ++ record.Typ))
    else if record.CName = "" then some (.message "cname is required")
    else if record.Target = "" then some (.message "target is required")
    else none
  else some (.message ("invalid record type: " ++ record.Typ))

/-- A record as the claims call it valid: type A with a name and an ip, or
type CNAME with a cname and a target. -/
def ValidRecord (r : DNSRecord) : Prop :=
  (r.Typ = "A" ∧ r.Name ≠ "" ∧ r.IP ≠ "") ∨ (r.Typ = "CNAME" ∧ r.CName ≠ "" ∧ r.Target ≠ "")

instance (r : DNSRecord) : Decidable (ValidRecord r) := by
  unfold ValidRecord; infer_instance

/-- One call of the sequence the specification prescribes for a batch. -/
inductive Step where
  | add (kind : String)
  | set (option value : String)
  | commit
deriving DecidableEq, Repr

/-- The call a step stands for, `h` being the handle returned by the latest
`add`. -/
def Step.call (h : String) : Step → UciCall
  | .add kind => ⟨"add", ["dhcp", kind]⟩
  | .set option value => ⟨"set", ["dhcp", h, option, value]⟩
  | .commit => ⟨"commit", ["dhcp"]⟩

/-- The handle in force after a step that returned `s`: the one returned by the
latest `add`. -/
def Step.handle (s h : String) : Step → String
  | .add _ => s
  | _ => h

/-- The three steps the specification prescribes for one record. -/
def planRecord (r : DNSRecord) : List Step :=
  if r.Typ = "A" then [.add "domain", .set "name" r.Name, .set "ip" r.IP]
  else [.add "cname", .set "cname" r.CName, .set "target" r.Target]

/-- The sequence the specification prescribes for a batch: the steps of each
record in input order, followed by a single commit. -/
def plan : List DNSRecord → List Step
  | [] => [.commit]
  | r :: rest => planRecord r ++ plan rest

/-- Issue the steps in order, cutting at and including the first call that
fails; the result is that call's error, or `none` when no call fails. -/
def replay (d : Device) : List Step → String → List UciEvent → Option Err × List UciEvent
  | [], _, hist => (none, hist)
  | step :: rest, h, hist =>
    match d.lucirpc hist (step.call h) with
    | .error e => (some e, hist ++ [⟨step.call h, .error e⟩])
    | .ok s =>
      replay d rest (step.handle s h) (hist ++ [⟨step.call h, .ok s⟩])

/-- A Go `error` result as the outcome of a run. -/
def outcomeOf : Option Err → Outcome Unit
  | none => .ok ()
  | some e => .err e

/-- The shape of the calls `evs` issued by a batch with result `res`: there is
at least one call; every call but the last one succeeded and is not a commit;
if the last call is a commit then `m` calls were issued in all; a successful
batch ends with a successful commit; a failed batch ends with the failed call,
whose error is the result. -/
def PlanTrace (m : Nat) (res : Option Err) (evs : List UciEvent) : Prop :=
  evs ≠ [] ∧
  (∀ ev ∈ evs.dropLast, ev.call.method ≠ "commit" ∧ ∃ s, ev.reply = .ok s) ∧
  (∀ ev, evs.getLast? = some ev → ev.call.method = "commit" → evs.length = m) ∧
  (res = none →
    ∃ ev, evs.getLast? = some ev ∧ ev.call.method = "commit" ∧ ∃ s, ev.reply = .ok s) ∧
  (∀ e, res = some e → ∃ c, evs.getLast? = some ⟨c, .error e⟩)

/-- The matching rule of `UpdateDNSRecords` and `DeleteDNSRecords`: the wanted
record `r` is of type A and has the name of the current entry, or is of type
CNAME and has its cname. -/
def Matches (r currentRecord : DNSRecord) : Prop :=
  (r.Typ = "A" ∧ r.Name = currentRecord.Name) ∨
    (r.Typ = "CNAME" ∧ r.CName = currentRecord.CName)

instance (r currentRecord : DNSRecord) : Decidable (Matches r currentRecord) := by
  unfold Matches; infer_instance

/-- A slice is well formed when its length does not exceed its capacity. -/
def Slice.WF (s : Slice) : Prop := s.len ≤ s.arr.length

/-- First-match reconciliation as the specification words it: for each current
entry (in the order `range` produces the handles), scan the pending list for a
match; on a match run `act` on the entry's handle and the matched record and
remove that record, the first one that matches, from the pending list.  The
result is the list of records left pending. -/
def specOuter (act : String → DNSRecord → Run Unit) (currentRecords : GoMap) :
    List String → List DNSRecord → Run (List DNSRecord)
  | [], pending => pure pending
  | cfg :: rest, pending =>
    match currentRecords cfg with
    | none => specOuter act currentRecords rest pending
    | some currentRecord =>
      match pending.find? (fun r => decide (Matches r currentRecord)) with
      | none => specOuter act currentRecords rest pending
      | some r =>
        act cfg r >>= fun _ =>
          specOuter act currentRecords rest
            (pending.eraseP (fun r => decide (Matches r currentRecord)))

/-- What `UpdateDNSRecords` does with a matched entry: delete it by handle and
re-create it with the wanted values. -/
def updateAct (d : Device) (cfg : String) (r : DNSRecord) : Run Unit :=
  uci d "delete" ["dhcp", cfg] >>= fun _ => if r.Typ = "A" then addA d r else addCName d r

/-- What `DeleteDNSRecords` does with a matched entry: delete it by handle. -/
def deleteAct (d : Device) (cfg : String) (_ : DNSRecord) : Run Unit :=
  uci d "delete" ["dhcp", cfg] >>= fun _ => pure ()

/-- Whether the record `r` matches one of the current entries whose handles are
listed in `order`. -/
def matchedBy (currentRecords : GoMap) (order : List String) (r : DNSRecord) : Bool :=
  order.any fun cfg =>
    match currentRecords cfg with
    | none => false
    | some currentRecord => decide (Matches r currentRecord)

/-- No current entry is matched by more than one pending record. -/
def SingleMatch (currentRecords : GoMap) (order : List String) (pending : List DNSRecord) :
    Prop :=
  ∀ cfg ∈ order, ∀ c, currentRecords cfg = some c →
    (pending.filter (fun r => decide (Matches r c))).length ≤ 1

/-- The runs of the loop in the code and of the first-match specification agree:
same trace, same error or panic, and on normal completion the slice holds the
pending list of the specification. -/
def Agree (code : Outcome Slice × List UciEvent)
    (spec : Outcome (List DNSRecord) × List UciEvent) : Prop :=
  code.2 = spec.2 ∧
    match code.1, spec.1 with
    | .ok s, .ok pending => s.WF ∧ s.elems = pending
    | .err e, .err e' => e = e'
    | .panic t, .panic t' => t = t'
    | _, _ => False

/-- The calls the reconciliation loops issue: `delete`, `add` or `set`. -/
def LoopCall (ev : UciEvent) : Prop :=
  ev.call.method = "delete" ∨ ev.call.method = "add" ∨ ev.call.method = "set"

/-- What a run that issued the calls `evs` may end with: on normal completion
every call succeeded; an error is the error of one of the calls, unless the
record at hand is not `good`; there is no panic. -/
def Settled {α : Type} (good : Prop) (out : Outcome α) (evs : List UciEvent) : Prop :=
  match out with
  | .ok _ => ∀ ev ∈ evs, ∃ s, ev.reply = .ok s
  | .err e => (∃ c, (⟨c, .error e⟩ : UciEvent) ∈ evs) ∨ ¬ good
  | .panic _ => False

/-- The behaviour the loops need of the action run on a match. -/
def ActSpec (act : String → DNSRecord → Run Unit) (good : DNSRecord → Prop) : Prop :=
  ∀ cfg r hist, ∃ evs, ((act cfg r).run hist).2 = hist ++ evs ∧ (∀ ev ∈ evs, LoopCall ev) ∧
    Settled (good r) ((act cfg r).run hist).1 evs

/-- The common tail of `UpdateDNSRecords` and `DeleteDNSRecords`: report what
is left pending, or commit. -/
def finish (d : Device) (pending : Slice) : Run Unit :=
  if pending.len > 0 then
    fail (.message ("records not found: " ++ fmtRecords pending.elems))
  else do
    let _ ← uci d "commit" ["dhcp"]
    pure ()

/-- The current records `GetDNSRecords` returns for `sampleSnapshot`. -/
def sampleCurrent : GoMap := getLoop ["x", "y", "z"] sampleSnapshot

/-- The identity key of a record: the name for type A, the cname otherwise. -/
def identityKey (r : DNSRecord) : String :=
  if r.Typ = "A" then r.Name else r.CName

/-- One re-created entry in a successful run of `UpdateDNSRecords`: the handle
`cfg` of the current entry that was deleted, the wanted record written in its
place, the handle `add` returned, and what the other three calls returned. -/
structure Block where
  cfg : String
  record : DNSRecord
  handle : String
  deleted : String
  set₁ : String
  set₂ : String

/-- The four calls of a block: `delete` on the current handle, `add`, and the two
`set` calls on the handle `add` returned, carrying the wanted values. -/
def Block.events (b : Block) : List UciEvent :=
  if b.record.Typ = "A" then
    [⟨⟨"delete", ["dhcp", b.cfg]⟩, .ok b.deleted⟩,
     ⟨⟨"add", ["dhcp", "domain"]⟩, .ok b.handle⟩,
     ⟨⟨"set", ["dhcp", b.handle, "name", b.record.Name]⟩, .ok b.set₁⟩,
     ⟨⟨"set", ["dhcp", b.handle, "ip", b.record.IP]⟩, .ok b.set₂⟩]
  else
    [⟨⟨"delete", ["dhcp", b.cfg]⟩, .ok b.deleted⟩,
     ⟨⟨"add", ["dhcp", "cname"]⟩, .ok b.handle⟩,
     ⟨⟨"set", ["dhcp", b.handle, "cname", b.record.CName]⟩, .ok b.set₁⟩,
     ⟨⟨"set", ["dhcp", b.handle, "target", b.record.Target]⟩, .ok b.set₂⟩]

/-- The calls of a sequence of blocks. -/
def traceOf : List Block → List UciEvent
  | [] => []
  | b :: rest => b.events ++ traceOf rest

/-- A server that answers every request with the status `code` and a body that
carries the result `foobar`. -/
def statusTransport (code : Int) : Transport where
  send := fun _ _ => .response code "\x7b\"result\":\"foobar\"\x7d" none
  unmarshal := sampleTransport.unmarshal

/-- A current entry is the entry of a wanted record when it has the record's
type and the record's identity key (the name for type A, the cname for type
CNAME). -/
def SameEntry (r currentRecord : DNSRecord) : Prop :=
  currentRecord.Typ = r.Typ ∧ identityKey currentRecord = identityKey r

instance (r currentRecord : DNSRecord) : Decidable (SameEntry r currentRecord) := by
  unfold SameEntry; infer_instance

/-- Whether one of the current entries whose handles are listed in `order` is
the entry of the wanted record `r`. -/
def hasEntry (currentRecords : GoMap) (order : List String) (r : DNSRecord) : Bool :=
  order.any fun cfg =>
    match currentRecords cfg with
    | none => false
    | some currentRecord => decide (SameEntry r currentRecord)

/-! # Theorems -/

/-! ## The session: login and single retry -/

theorem call_trace (t : Transport) (hist : List HttpEvent) (url : String) (payload : Payload) :
    (call t hist url payload).2 = hist ++ [⟨⟨url, payload⟩, t.send hist ⟨url, payload⟩⟩] := by
  unfold call
  simp only []
  cases t.send hist ⟨url, payload⟩ with
  | failure text => rfl
  | response code body rerr => simp only []; split <;> rfl

theorem rpc_trace (t : Transport) (c : LuciRPC) (hist : List HttpEvent) (path method : String)
    (params : List String) :
    (rpc t c hist path method params).2 =
      hist ++ [⟨requestOf c path method params, t.send hist (requestOf c path method params)⟩] := by
  have h := call_trace t hist (getUri c path method) ⟨c.rpcID, method, params⟩
  unfold rpc requestOf
  simp only []
  rcases hc : call t hist (getUri c path method) ⟨c.rpcID, method, params⟩ with ⟨⟨body, err⟩, hist'⟩
  rw [hc] at h
  simp only [] at h
  subst h
  cases err with
  | some e => rfl
  | none =>
    simp only []
    cases t.unmarshal body with
    | error text => rfl
    | ok response =>
      simp only []
      split
      · rfl
      · split
        · split <;> rfl
        · rfl

theorem getUri_login (c : LuciRPC) (path : String) : getUri c path methodLogin = c.addr ++ path := by
  simp [getUri]

theorem auth_trace (t : Transport) (c : LuciRPC) (hist : List HttpEvent) :
    (auth t c hist).2.2 = hist ++ [⟨loginRequest c, t.send hist (loginRequest c)⟩] := by
  have h := rpc_trace t c hist authPath methodLogin [c.username, c.password]
  simp only [requestOf, getUri_login] at h
  unfold auth
  rcases hr : rpc t c hist authPath methodLogin [c.username, c.password] with ⟨r, hist'⟩
  rw [hr] at h
  simp only [] at h
  subst h
  cases r with
  | error e => rfl
  | ok token => simp only []; split <;> rfl

/-- The two sentinels that make `rpcWithAuth` log in come from the status codes
401 and 403 and from nothing else. -/
theorem rpc_unauthorized_iff (t : Transport) (c : LuciRPC) (hist : List HttpEvent)
    (path method : String) (params : List String) :
    ((rpc t c hist path method params).1 = .error .ErrHttpUnauthorized ↔
      ∃ body rerr, t.send hist (requestOf c path method params) = .response 401 body rerr) ∧
    ((rpc t c hist path method params).1 = .error .ErrHttpForbidden ↔
      ∃ body rerr, t.send hist (requestOf c path method params) = .response 403 body rerr) := by
  unfold rpc call requestOf parseError parseString httpError
  simp only []
  cases t.send hist ⟨getUri c path method, ⟨c.rpcID, method, params⟩⟩ with
  | failure text => simp
  | response code body rerr =>
    simp only []
    by_cases hcode : code > 226
    · simp only [hcode, if_true]
      by_cases h1 : code = 401
      · subst h1; simp
      · by_cases h3 : code = 403
        · subst h3; simp
        · simp [h1, h3]
    · simp only [hcode, if_false]
      have h401 : code ≠ 401 := by omega
      have h403 : code ≠ 403 := by omega
      cases rerr with
      | some e => simp [h401, h403]
      | none =>
        simp only [Option.map_none']
        cases t.unmarshal body with
        | error text => simp [h401, h403]
        | ok response =>
          simp only []
          rcases response with ⟨id, res, er⟩
          cases er with
          | some v => cases v <;> simp [h401, h403]
          | none =>
            cases res with
            | some v => cases v <;> simp [h401, h403]
            | none => simp [h401, h403]

/-- C1. `rpcWithAuth` (and so every `Uci` call) sends the original request once.
If that first exchange is classified 401 or 403, exactly one login request goes
to the auth endpoint next; if the login fails its error is returned and nothing
else is sent; if it succeeds the original request (same payload, URL rebuilt
with the new token) is sent exactly once more and whatever that retry yields,
result or error, is returned as it is.  If the first exchange fails in any other
way that error is returned and the trace holds the one exchange only; if it
succeeds its result is returned and the trace holds the one exchange only. -/
theorem rpcWithAuth_login_and_single_retry (t : Transport) (c : LuciRPC) (hist : List HttpEvent)
    (path method : String) (params : List String) :
    let req := requestOf c path method params
    let ev : HttpEvent := ⟨req, t.send hist req⟩
    let first := rpc t c hist path method params
    let out := rpcWithAuth t c hist path method params
    let evLogin : HttpEvent := ⟨loginRequest c, t.send (hist ++ [ev]) (loginRequest c)⟩
    let login := auth t c (hist ++ [ev])
    first.2 = hist ++ [ev] ∧
    ((first.1 = .error .ErrHttpUnauthorized ∨ first.1 = .error .ErrHttpForbidden) →
      login.2.2 = hist ++ [ev, evLogin] ∧
      (∀ e, login.1 = some e → out = (.error e, c, hist ++ [ev, evLogin])) ∧
      (login.1 = none →
        let c' := login.2.1
        let req' := requestOf c' path method params
        let ev' : HttpEvent := ⟨req', t.send (hist ++ [ev, evLogin]) req'⟩
        let retry := rpc t c' (hist ++ [ev, evLogin]) path method params
        req'.payload = req.payload ∧ req'.url = getUri c' path method ∧
        retry.2 = hist ++ [ev, evLogin, ev'] ∧
        out = (retry.1, c', hist ++ [ev, evLogin, ev']))) ∧
    (∀ e, first.1 = .error e → e ≠ .ErrHttpUnauthorized → e ≠ .ErrHttpForbidden →
      out = (.error e, c, hist ++ [ev])) ∧
    (∀ s, first.1 = .ok s → out = (.ok s, c, hist ++ [ev])) := by
  intro req ev first out evLogin login
  have hfirst : first.2 = hist ++ [ev] := rpc_trace t c hist path method params
  have hlogin : login.2.2 = hist ++ [ev, evLogin] := by
    have := auth_trace t c (hist ++ [ev])
    simpa using this
  refine ⟨hfirst, ?_, ?_, ?_⟩
  · intro h401
    refine ⟨hlogin, ?_, ?_⟩
    · intro e he
      show rpcWithAuth t c hist path method params = _
      unfold rpcWithAuth
      rcases hr : rpc t c hist path method params with ⟨r, h'⟩
      have h1 : r = first.1 := by simp [first, hr]
      have h2 : h' = hist ++ [ev] := by rw [← hfirst]; simp [first, hr]
      subst h2
      rcases h401 with h | h
      · rw [← h1] at h; subst h
        simp only [ne_eq, not_true_eq_false, false_and, if_false]
        rcases ha : auth t c (hist ++ [ev]) with ⟨oe, c', h''⟩
        have e1 : oe = login.1 := by simp [login, ha]
        have e2 : h'' = hist ++ [ev, evLogin] := by rw [← hlogin]; simp [login, ha]
        rw [he] at e1
        subst e1 e2
        have e3 : c' = c := by
          unfold auth at ha
          split at ha
          · simp at ha; exact ha.2.1.symm
          · split at ha <;> simp at ha
            exact ha.2.1.symm
        subst e3; rfl
      · rw [← h1] at h; subst h
        simp only [ne_eq, not_true_eq_false, and_false, if_false]
        rcases ha : auth t c (hist ++ [ev]) with ⟨oe, c', h''⟩
        have e1 : oe = login.1 := by simp [login, ha]
        have e2 : h'' = hist ++ [ev, evLogin] := by rw [← hlogin]; simp [login, ha]
        rw [he] at e1
        subst e1 e2
        have e3 : c' = c := by
          unfold auth at ha
          split at ha
          · simp at ha; exact ha.2.1.symm
          · split at ha <;> simp at ha
            exact ha.2.1.symm
        subst e3; rfl
    · intro hnone c' req' ev' retry
      have hretry : retry.2 = hist ++ [ev, evLogin, ev'] := by
        have := rpc_trace t c' (hist ++ [ev, evLogin]) path method params
        simpa using this
      have hid : c'.rpcID = c.rpcID := by
        show (auth t c (hist ++ [ev])).2.1.rpcID = c.rpcID
        unfold auth
        split
        · rfl
        · split <;> rfl
      refine ⟨?_, rfl, hretry, ?_⟩
      · simp [req', req, requestOf, hid]
      · show rpcWithAuth t c hist path method params = _
        unfold rpcWithAuth
        rcases hr : rpc t c hist path method params with ⟨r, h'⟩
        have h1 : r = first.1 := by simp [first, hr]
        have h2 : h' = hist ++ [ev] := by rw [← hfirst]; simp [first, hr]
        subst h2
        have hr' : r = .error .ErrHttpUnauthorized ∨ r = .error .ErrHttpForbidden := by
          rw [h1]; exact h401
        rcases ha : auth t c (hist ++ [ev]) with ⟨oe, c'', h''⟩
        have e1 : oe = login.1 := by simp [login, ha]
        have e2 : h'' = hist ++ [ev, evLogin] := by rw [← hlogin]; simp [login, ha]
        have e3 : c'' = c' := by simp [c', login, ha]
        rw [hnone] at e1
        subst e1 e2 e3
        rcases hr' with h | h <;> subst h <;> simp [ha, ← hretry, retry]
  · intro e he hne1 hne2
    show rpcWithAuth t c hist path method params = _
    unfold rpcWithAuth
    rcases hr : rpc t c hist path method params with ⟨r, h'⟩
    have h1 : r = first.1 := by simp [first, hr]
    have h2 : h' = hist ++ [ev] := by rw [← hfirst]; simp [first, hr]
    rw [he] at h1
    subst h1 h2
    simp [hne1, hne2]
  · intro s hs
    show rpcWithAuth t c hist path method params = _
    unfold rpcWithAuth
    rcases hr : rpc t c hist path method params with ⟨r, h'⟩
    have h1 : r = first.1 := by simp [first, hr]
    have h2 : h' = hist ++ [ev] := by rw [← hfirst]; simp [first, hr]
    rw [hs] at h1
    subst h1 h2
    rfl

theorem rpcWithAuth_login_and_single_retry_witness :
    (rpc sampleTransport sampleClient [] uciPath "get" ["network.lan.ipaddr"]).1
        = .error .ErrHttpUnauthorized ∧
    (auth sampleTransport sampleClient
        [⟨⟨"http://router/cgi-bin/luci/rpc/uci", ⟨1, "get", ["network.lan.ipaddr"]⟩⟩,
          .response 401 "" none⟩]).1 = none ∧
    rpcWithAuth sampleTransport sampleClient [] uciPath "get" ["network.lan.ipaddr"] =
      (.ok "helloworld", { sampleClient with token := "foobar" },
        [⟨⟨"http://router/cgi-bin/luci/rpc/uci", ⟨1, "get", ["network.lan.ipaddr"]⟩⟩,
            .response 401 "" none⟩,
         ⟨⟨"http://router/cgi-bin/luci/rpc/auth", ⟨1, "login", ["admin", "password"]⟩⟩,
            .response 200 "\x7b\"result\":\"foobar\"\x7d" none⟩,
         ⟨⟨"http://router/cgi-bin/luci/rpc/uci?auth=foobar", ⟨1, "get", ["network.lan.ipaddr"]⟩⟩,
            .response 200 "\x7b\"result\":\"helloworld\"\x7d" none⟩]) :=
  ⟨by decide, by decide,
    (((rpcWithAuth_login_and_single_retry sampleTransport sampleClient [] uciPath "get"
      ["network.lan.ipaddr"]).2.1 (Or.inl (by decide))).2.2 (by decide)).2.2.2⟩

/-! ## Login with a `null` result -/

/-- C2 (the code at the failing input). The login exchange succeeds at the
transport level and the envelope is `{"id":1,"result":null,"error":null}`:
`rpc` turns the `nil` result into the empty string, which is not the text
`null` that `auth` tests for, so `auth` returns no error and overwrites the
held token `stale` with the empty string. -/
theorem auth_null_result_is_accepted :
    auth rejectingTransport staleClient [] =
      (none, { staleClient with token := "" },
        [⟨⟨"http://router/cgi-bin/luci/rpc/auth", ⟨1, "login", ["admin", "wrong"]⟩⟩,
          .response 200 "\x7b\"id\":1,\"result\":null,\"error\":null\x7d" none⟩]) := by
  decide

/-- Whatever the session holds, a login whose envelope decodes to a `nil`
result and a `nil` error is taken as a success and stores the empty token. -/
theorem auth_nil_result (t : Transport) (c : LuciRPC) (hist : List HttpEvent) (code id : Int)
    (body : String) (hcode : code ≤ 226)
    (hsend : t.send hist (loginRequest c) = .response code body none)
    (hdec : t.unmarshal body = .ok ⟨id, none, none⟩) :
    (auth t c hist).1 = none ∧ (auth t c hist).2.1 = { c with token := "" } := by
  have hnot : ¬ code > 226 := by omega
  unfold auth rpc call
  simp only [getUri_login]
  have hs : t.send hist ⟨c.addr ++ authPath, ⟨c.rpcID, methodLogin, [c.username, c.password]⟩⟩
      = .response code body none := hsend
  simp [hs, hnot, hdec]

/-! ## Running SDK code -/

@[simp] theorem run_pure {α : Type} (a : α) (hist : List UciEvent) :
    (pure a : Run α).run hist = (.ok a, hist) := rfl

@[simp] theorem run_fail {α : Type} (e : Err) (hist : List UciEvent) :
    (fail e : Run α).run hist = (.err e, hist) := rfl

@[simp] theorem run_runtimePanic {α : Type} (text : String) (hist : List UciEvent) :
    (runtimePanic text : Run α).run hist = (.panic text, hist) := rfl

theorem run_bind {α β : Type} (m : Run α) (f : α → Run β) (hist : List UciEvent) :
    (m >>= f).run hist =
      match m.run hist with
      | (.ok a, hist') => (f a).run hist'
      | (.err e, hist') => (.err e, hist')
      | (.panic text, hist') => (.panic text, hist') := rfl

theorem run_bind_ok {α β : Type} {m : Run α} {f : α → Run β} {hist hist' : List UciEvent} {a : α}
    (h : m.run hist = (.ok a, hist')) : (m >>= f).run hist = (f a).run hist' := by
  rw [run_bind, h]

theorem run_bind_err {α β : Type} {m : Run α} {f : α → Run β} {hist hist' : List UciEvent} {e : Err}
    (h : m.run hist = (.err e, hist')) : (m >>= f).run hist = (.err e, hist') := by
  rw [run_bind, h]

theorem run_bind_panic {α β : Type} {m : Run α} {f : α → Run β} {hist hist' : List UciEvent}
    {text : String} (h : m.run hist = (.panic text, hist')) :
    (m >>= f).run hist = (.panic text, hist') := by
  rw [run_bind, h]

theorem run_uci (d : Device) (method : String) (params : List String) (hist : List UciEvent) :
    (uci d method params).run hist =
      (match d.lucirpc hist ⟨method, params⟩ with
        | .ok result => .ok result
        | .error e => .err e,
       hist ++ [⟨⟨method, params⟩, d.lucirpc hist ⟨method, params⟩⟩]) := by
  unfold uci Run.run
  simp only []
  cases d.lucirpc hist ⟨method, params⟩ <;> rfl

theorem run_uci_ok {d : Device} {method : String} {params : List String} {hist : List UciEvent}
    {s : String} (h : d.lucirpc hist ⟨method, params⟩ = .ok s) :
    (uci d method params).run hist = (.ok s, hist ++ [⟨⟨method, params⟩, .ok s⟩]) := by
  rw [run_uci, h]

theorem run_uci_error {d : Device} {method : String} {params : List String}
    {hist : List UciEvent} {e : Err} (h : d.lucirpc hist ⟨method, params⟩ = .error e) :
    (uci d method params).run hist = (.err e, hist ++ [⟨⟨method, params⟩, .error e⟩]) := by
  rw [run_uci, h]

/-! ## GetDNSRecords -/

theorem getLoop_apply (order : List String) (hnodup : order.Nodup) (records : GoMap) (k : String) :
    getLoop order records k = if k ∈ order then (records k).bind normalize else records k := by
  induction order generalizing records with
  | nil => simp [getLoop]
  | cons key rest ih =>
    have hrest : rest.Nodup := (List.nodup_cons.mp hnodup).2
    have hkey : key ∉ rest := (List.nodup_cons.mp hnodup).1
    unfold getLoop
    cases hrec : records key with
    | none =>
      simp only []
      rw [ih hrest]
      by_cases hk : k = key
      · subst hk; simp [hrec]
      · simp [hk]
    | some record =>
      simp only []
      by_cases hk : k = key
      · subst hk
        split
        · rename_i h1; rw [ih hrest]; simp [hkey, GoMap.set, hrec, normalize, h1]
        · split
          · rename_i h1 h2; rw [ih hrest]; simp [hkey, GoMap.set, hrec, normalize, h1, h2]
          · rename_i h1 h2; rw [ih hrest]; simp [hkey, GoMap.delete, hrec, normalize, h1, h2]
      · split
        · rw [ih hrest]; simp [GoMap.set, hk]
        · split
          · rw [ih hrest]; simp [GoMap.set, hk]
          · rw [ih hrest]; simp [GoMap.delete, hk]

theorem run_GetDNSRecords {d : Device} {hist : List UciEvent} {s : String} {records : GoMap}
    (order : List String)
    (hreply : d.lucirpc hist ⟨"get_all", ["dhcp"]⟩ = .ok s) (hdec : d.unmarshal s = .ok records) :
    (GetDNSRecords d order).run hist =
      (.ok (getLoop order records), hist ++ [⟨⟨"get_all", ["dhcp"]⟩, .ok s⟩]) := by
  unfold GetDNSRecords
  rw [run_bind_ok (run_uci_ok hreply), hdec]
  rfl

/-- C3. When `get_all dhcp` returns a text that decodes to the snapshot `records`,
`GetDNSRecords` returns without error a map whose keys are exactly the handles
of `records` whose type is "domain" or "cname"; a "domain" entry becomes an "A"
record with its name and ip and empty cname and target, a "cname" entry a
"CNAME" record with its cname and target and empty name and ip, and an entry of
any other type is absent from the result. -/
theorem GetDNSRecords_keeps_domain_and_cname (d : Device) (hist : List UciEvent)
    (order : List String) (s : String) (records : GoMap)
    (hreply : d.lucirpc hist ⟨"get_all", ["dhcp"]⟩ = .ok s)
    (hdec : d.unmarshal s = .ok records)
    (hnodup : order.Nodup) (hkeys : ∀ k, k ∈ order ↔ (records k).isSome) :
    ∃ result : GoMap,
      (GetDNSRecords d order).run hist
        = (.ok result, hist ++ [⟨⟨"get_all", ["dhcp"]⟩, .ok s⟩]) ∧
      (∀ k, (result k).isSome ↔
        ∃ r, records k = some r ∧ (r.Typ = "domain" ∨ r.Typ = "cname")) ∧
      (∀ k r, records k = some r → r.Typ = "domain" →
        result k = some ⟨"A", r.IP, r.Name, "", ""⟩) ∧
      (∀ k r, records k = some r → r.Typ = "cname" →
        result k = some ⟨"CNAME", "", "", r.CName, r.Target⟩) ∧
      (∀ k r, records k = some r → r.Typ ≠ "domain" → r.Typ ≠ "cname" → result k = none) := by
  refine ⟨getLoop order records, run_GetDNSRecords order hreply hdec, ?_, ?_, ?_, ?_⟩
  · intro k
    rw [getLoop_apply order hnodup]
    cases hrec : records k with
    | none =>
      have : k ∉ order := by rw [hkeys, hrec]; simp
      simp [this, hrec]
    | some r =>
      have : k ∈ order := by rw [hkeys, hrec]; simp
      simp only [this, if_true, Option.some_bind, Option.some.injEq, exists_eq_left']
      unfold normalize
      by_cases h1 : r.Typ = "domain"
      · simp [h1]
      · by_cases h2 : r.Typ = "cname" <;> simp [h1, h2]
  · intro k r hrec h1
    have : k ∈ order := by rw [hkeys, hrec]; simp
    rw [getLoop_apply order hnodup]
    simp [this, hrec, normalize, h1]
  · intro k r hrec h1
    have : k ∈ order := by rw [hkeys, hrec]; simp
    have h0 : r.Typ ≠ "domain" := by rw [h1]; decide
    rw [getLoop_apply order hnodup]
    simp [this, hrec, normalize, h1, h0]
  · intro k r hrec h1 h2
    have : k ∈ order := by rw [hkeys, hrec]; simp
    rw [getLoop_apply order hnodup]
    simp [this, hrec, normalize, h1, h2]

theorem sampleSnapshot_keys (k : String) :
    k ∈ ["x", "y", "z"] ↔ (sampleSnapshot k).isSome := by
  unfold sampleSnapshot
  by_cases hx : k = "x"
  · simp [hx]
  · by_cases hy : k = "y"
    · simp [hy]
    · by_cases hz : k = "z"
      · simp [hz]
      · simp [hx, hy, hz]

theorem GetDNSRecords_keeps_domain_and_cname_witness :
    ∃ result : GoMap,
      (GetDNSRecords (sampleDevice sampleSnapshot) ["x", "y", "z"]).run []
        = (.ok result, [] ++ [⟨⟨"get_all", ["dhcp"]⟩, .ok ""⟩]) ∧
      (∀ k, (result k).isSome ↔
        ∃ r, sampleSnapshot k = some r ∧ (r.Typ = "domain" ∨ r.Typ = "cname")) ∧
      (∀ k r, sampleSnapshot k = some r → r.Typ = "domain" →
        result k = some ⟨"A", r.IP, r.Name, "", ""⟩) ∧
      (∀ k r, sampleSnapshot k = some r → r.Typ = "cname" →
        result k = some ⟨"CNAME", "", "", r.CName, r.Target⟩) ∧
      (∀ k r, sampleSnapshot k = some r → r.Typ ≠ "domain" → r.Typ ≠ "cname" →
        result k = none) :=
  GetDNSRecords_keeps_domain_and_cname (sampleDevice sampleSnapshot) [] ["x", "y", "z"] ""
    sampleSnapshot rfl rfl (by decide) sampleSnapshot_keys

/-! ## SetDNSRecords -/

theorem run_addA (d : Device) (r : DNSRecord) (h : String) (hist : List UciEvent)
    (htyp : r.Typ = "a" ∨ r.Typ = "A") (hname : r.Name ≠ "") (hip : r.IP ≠ "") :
    (addA d r).run hist =
      (outcomeOf (replay d [.add "domain", .set "name" r.Name, .set "ip" r.IP] h hist).1,
       (replay d [.add "domain", .set "name" r.Name, .set "ip" r.IP] h hist).2) := by
  have h0 : ¬ (r.Typ ≠ "a" ∧ r.Typ ≠ "A") := by
    rcases htyp with h | h <;> simp [h]
  unfold addA
  rw [if_neg h0, if_neg hname, if_neg hip]
  simp only [replay, Step.call, Step.handle]
  cases h1 : d.lucirpc hist ⟨"add", ["dhcp", "domain"]⟩ with
  | error e => rw [run_bind_err (run_uci_error h1)]; rfl
  | ok cfg =>
    rw [run_bind_ok (run_uci_ok h1)]
    simp only []
    cases h2 : d.lucirpc (hist ++ [⟨⟨"add", ["dhcp", "domain"]⟩, .ok cfg⟩])
        ⟨"set", ["dhcp", cfg, "name", r.Name]⟩ with
    | error e => rw [run_bind_err (run_uci_error h2)]; rfl
    | ok s2 =>
      rw [run_bind_ok (run_uci_ok h2)]
      simp only []
      cases h3 : d.lucirpc (hist ++ [⟨⟨"add", ["dhcp", "domain"]⟩, .ok cfg⟩] ++
          [⟨⟨"set", ["dhcp", cfg, "name", r.Name]⟩, .ok s2⟩])
          ⟨"set", ["dhcp", cfg, "ip", r.IP]⟩ with
      | error e => rw [run_bind_err (run_uci_error h3)]; rfl
      | ok s3 => rw [run_bind_ok (run_uci_ok h3)]; rfl

theorem run_addCName (d : Device) (r : DNSRecord) (h : String) (hist : List UciEvent)
    (htyp : r.Typ = "cname" ∨ r.Typ = "CNAME") (hcname : r.CName ≠ "") (htarget : r.Target ≠ "") :
    (addCName d r).run hist =
      (outcomeOf (replay d [.add "cname", .set "cname" r.CName, .set "target" r.Target] h hist).1,
       (replay d [.add "cname", .set "cname" r.CName, .set "target" r.Target] h hist).2) := by
  have h0 : ¬ (r.Typ ≠ "cname" ∧ r.Typ ≠ "CNAME") := by
    rcases htyp with h | h <;> simp [h]
  unfold addCName
  rw [if_neg h0, if_neg hcname, if_neg htarget]
  simp only [replay, Step.call, Step.handle]
  cases h1 : d.lucirpc hist ⟨"add", ["dhcp", "cname"]⟩ with
  | error e => rw [run_bind_err (run_uci_error h1)]; rfl
  | ok cfg =>
    rw [run_bind_ok (run_uci_ok h1)]
    simp only []
    cases h2 : d.lucirpc (hist ++ [⟨⟨"add", ["dhcp", "cname"]⟩, .ok cfg⟩])
        ⟨"set", ["dhcp", cfg, "cname", r.CName]⟩ with
    | error e => rw [run_bind_err (run_uci_error h2)]; rfl
    | ok s2 =>
      rw [run_bind_ok (run_uci_ok h2)]
      simp only []
      cases h3 : d.lucirpc (hist ++ [⟨⟨"add", ["dhcp", "cname"]⟩, .ok cfg⟩] ++
          [⟨⟨"set", ["dhcp", cfg, "cname", r.CName]⟩, .ok s2⟩])
          ⟨"set", ["dhcp", cfg, "target", r.Target]⟩ with
      | error e => rw [run_bind_err (run_uci_error h3)]; rfl
      | ok s3 => rw [run_bind_ok (run_uci_ok h3)]; rfl

theorem replay_events (d : Device) (steps : List Step) (h : String) (hist : List UciEvent) :
    ∃ evs, (replay d steps h hist).2 = hist ++ evs ∧ evs.length ≤ steps.length ∧
      ((replay d steps h hist).1 = none → evs.length = steps.length) ∧
      (∀ ev ∈ evs, ∃ step ∈ steps, ∃ h', ev.call = step.call h') := by
  induction steps generalizing h hist with
  | nil => exact ⟨[], by simp [replay]⟩
  | cons step rest ih =>
    unfold replay
    cases hr : d.lucirpc hist (step.call h) with
    | error e =>
      exact ⟨[⟨step.call h, .error e⟩], by simp, by simp, by simp, by
        intro ev hev
        simp only [List.mem_singleton] at hev
        subst hev
        exact ⟨step, by simp, h, rfl⟩⟩
    | ok s =>
      simp only []
      obtain ⟨evs, h1, h2, h3, h4⟩ :=
        ih (step.handle s h) (hist ++ [⟨step.call h, .ok s⟩])
      refine ⟨⟨step.call h, .ok s⟩ :: evs, by simp [h1], by simp [h2], ?_, ?_⟩
      · intro hn; simp [h3 hn]
      · intro ev hev
        rcases List.mem_cons.mp hev with hev | hev
        · subst hev; exact ⟨step, by simp, h, rfl⟩
        · obtain ⟨st, hst, h', hc⟩ := h4 ev hev
          exact ⟨st, by simp [hst], h', hc⟩

theorem run_setLoop_cons (d : Device) (r : DNSRecord) (rest : List DNSRecord)
    (hist : List UciEvent) :
    (setLoop d (r :: rest)).run hist =
      match (if ToUpper r.Typ = "A" then addA d r
             else if ToUpper r.Typ = "CNAME" then addCName d r
             else fail (.message ("invalid record type: " ++ r.Typ)) : Run Unit).run hist with
      | (.ok _, hist') => (setLoop d rest).run hist'
      | (.err e, hist') => (.err e, hist')
      | (.panic text, hist') => (.panic text, hist') := by
  conv_lhs => rw [setLoop]
  rw [run_bind]
  split <;> simp_all

theorem setLoop_cons_rejected (d : Device) (r : DNSRecord) (rest : List DNSRecord) (e : Err)
    (hist : List UciEvent) (hrej : rejection r = some e) :
    (setLoop d (r :: rest)).run hist = (.err e, hist) := by
  rw [run_setLoop_cons]
  unfold rejection at hrej
  by_cases hA : ToUpper r.Typ = "A"
  · rw [if_pos hA] at hrej ⊢
    unfold addA
    by_cases h1 : r.Typ ≠ "a" ∧ r.Typ ≠ "A"
    · rw [if_pos h1] at hrej ⊢; cases hrej; rfl
    · rw [if_neg h1] at hrej ⊢
      by_cases h2 : r.Name = ""
      · rw [if_pos h2] at hrej ⊢; cases hrej; rfl
      · rw [if_neg h2] at hrej ⊢
        by_cases h3 : r.IP = ""
        · rw [if_pos h3] at hrej ⊢; cases hrej; rfl
        · rw [if_neg h3] at hrej; cases hrej
  · rw [if_neg hA] at hrej ⊢
    by_cases hC : ToUpper r.Typ = "CNAME"
    · rw [if_pos hC] at hrej ⊢
      unfold addCName
      by_cases h1 : r.Typ ≠ "cname" ∧ r.Typ ≠ "CNAME"
      · rw [if_pos h1] at hrej ⊢; cases hrej; rfl
      · rw [if_neg h1] at hrej ⊢
        by_cases h2 : r.CName = ""
        · rw [if_pos h2] at hrej ⊢; cases hrej; rfl
        · rw [if_neg h2] at hrej ⊢
          by_cases h3 : r.Target = ""
          · rw [if_pos h3] at hrej ⊢; cases hrej; rfl
          · rw [if_neg h3] at hrej; cases hrej
    · rw [if_neg hC] at hrej ⊢; cases hrej; rfl

/-- The steps `SetDNSRecords` issues for a record it does not turn away. -/
theorem setLoop_cons_accepted (d : Device) (r : DNSRecord) (rest : List DNSRecord)
    (hacc : rejection r = none) :
    ∃ s1 s2 s3 : Step,
      (∀ h, Step.call h s1 = ⟨"add", ["dhcp", "domain"]⟩ ∨ Step.call h s1 = ⟨"add", ["dhcp", "cname"]⟩) ∧
      (∀ h, (Step.call h s2).method = "set") ∧ (∀ h, (Step.call h s3).method = "set") ∧
      ∀ (h : String) (hist : List UciEvent),
        (setLoop d (r :: rest)).run hist =
          match replay d [s1, s2, s3] h hist with
          | (none, hist') => (setLoop d rest).run hist'
          | (some e, hist') => (.err e, hist') := by
  unfold rejection at hacc
  by_cases hA : ToUpper r.Typ = "A"
  · rw [if_pos hA] at hacc
    by_cases h1 : r.Typ ≠ "a" ∧ r.Typ ≠ "A"
    · rw [if_pos h1] at hacc; cases hacc
    rw [if_neg h1] at hacc
    by_cases h2 : r.Name = ""
    · rw [if_pos h2] at hacc; cases hacc
    rw [if_neg h2] at hacc
    by_cases h3 : r.IP = ""
    · rw [if_pos h3] at hacc; cases hacc
    have htyp : r.Typ = "a" ∨ r.Typ = "A" := by
      by_contra hc; exact h1 ⟨fun h => hc (Or.inl h), fun h => hc (Or.inr h)⟩
    refine ⟨.add "domain", .set "name" r.Name, .set "ip" r.IP, fun _ => Or.inl rfl,
      fun _ => rfl, fun _ => rfl, ?_⟩
    intro h hist
    rw [run_setLoop_cons, if_pos hA, run_addA d r h hist htyp h2 h3]
    rcases replay d [.add "domain", .set "name" r.Name, .set "ip" r.IP] h hist with ⟨res, hist'⟩
    cases res <;> rfl
  · rw [if_neg hA] at hacc
    by_cases hC : ToUpper r.Typ = "CNAME"
    · rw [if_pos hC] at hacc
      by_cases h1 : r.Typ ≠ "cname" ∧ r.Typ ≠ "CNAME"
      · rw [if_pos h1] at hacc; cases hacc
      rw [if_neg h1] at hacc
      by_cases h2 : r.CName = ""
      · rw [if_pos h2] at hacc; cases hacc
      rw [if_neg h2] at hacc
      by_cases h3 : r.Target = ""
      · rw [if_pos h3] at hacc; cases hacc
      have htyp : r.Typ = "cname" ∨ r.Typ = "CNAME" := by
        by_contra hc; exact h1 ⟨fun h => hc (Or.inl h), fun h => hc (Or.inr h)⟩
      refine ⟨.add "cname", .set "cname" r.CName, .set "target" r.Target, fun _ => Or.inr rfl,
        fun _ => rfl, fun _ => rfl, ?_⟩
      intro h hist
      rw [run_setLoop_cons, if_neg hA, if_pos hC, run_addCName d r h hist htyp h2 h3]
      rcases replay d [.add "cname", .set "cname" r.CName, .set "target" r.Target] h hist
        with ⟨res, hist'⟩
      cases res <;> rfl
    · rw [if_neg hC] at hacc; cases hacc

theorem setLoop_append (d : Device) (pre post : List DNSRecord) (hist : List UciEvent) :
    (setLoop d (pre ++ post)).run hist =
      match (setLoop d pre).run hist with
      | (.ok _, hist') => (setLoop d post).run hist'
      | (.err e, hist') => (.err e, hist')
      | (.panic text, hist') => (.panic text, hist') := by
  induction pre generalizing hist with
  | nil => simp [setLoop]
  | cons r rest ih =>
    simp only [List.cons_append]
    rw [run_setLoop_cons, run_setLoop_cons]
    split
    · rw [ih]
    · rfl
    · rfl

/-- The calls of a completed `range` loop of `SetDNSRecords`: three per record,
each an `add` or a `set`. -/
theorem setLoop_ok_events (d : Device) (pre : List DNSRecord) (hist hist' : List UciEvent)
    (hrun : (setLoop d pre).run hist = (.ok (), hist')) :
    ∃ evs, hist' = hist ++ evs ∧ evs.length = 3 * pre.length ∧
      ∀ ev ∈ evs, ev.call.method = "add" ∨ ev.call.method = "set" := by
  induction pre generalizing hist with
  | nil =>
    simp only [setLoop, run_pure, Prod.mk.injEq, true_and] at hrun
    exact ⟨[], by simp [hrun]⟩
  | cons r rest ih =>
    cases hrej : rejection r with
    | some e => rw [setLoop_cons_rejected d r rest e hist hrej] at hrun; cases hrun
    | none =>
      obtain ⟨s1, s2, s3, c1, c2, c3, hstep⟩ := setLoop_cons_accepted d r rest hrej
      rw [hstep "" hist] at hrun
      obtain ⟨evs, e1, e2, e3, e4⟩ := replay_events d [s1, s2, s3] "" hist
      rcases hrep : replay d [s1, s2, s3] "" hist with ⟨res, hist₁⟩
      rw [hrep] at hrun e1 e3
      cases res with
      | some e => cases hrun
      | none =>
        simp only [] at hrun e1 e3
        obtain ⟨evs', f1, f2, f3⟩ := ih hist₁ hrun
        refine ⟨evs ++ evs', by rw [f1, e1, List.append_assoc], ?_, ?_⟩
        · rw [List.length_append, f2, e3 trivial]; simp; omega
        · intro ev hev
          rcases List.mem_append.mp hev with hev | hev
          · obtain ⟨st, hst, h', hc⟩ := e4 ev hev
            simp only [List.mem_cons, List.mem_singleton, List.not_mem_nil, or_false] at hst
            rcases hst with hst | hst | hst
            · subst hst; left; rw [hc]; rcases c1 h' with h | h <;> rw [h]
            · subst hst; right; rw [hc]; exact c2 h'
            · subst hst; right; rw [hc]; exact c3 h'
          · exact f3 ev hev

theorem run_SetDNSRecords (d : Device) (records : List DNSRecord) (hist : List UciEvent) :
    (SetDNSRecords d records).run hist =
      match (setLoop d records).run hist with
      | (.ok _, hist') =>
        (match d.lucirpc hist' ⟨"commit", ["dhcp"]⟩ with
          | .ok _ => .ok ()
          | .error e => .err e,
         hist' ++ [⟨⟨"commit", ["dhcp"]⟩, d.lucirpc hist' ⟨"commit", ["dhcp"]⟩⟩])
      | (.err e, hist') => (.err e, hist')
      | (.panic text, hist') => (.panic text, hist') := by
  unfold SetDNSRecords
  rw [run_bind]
  split
  · rename_i a hist' heq
    rw [heq]
    simp only []
    rw [run_bind, run_uci]
    cases d.lucirpc hist' ⟨"commit", ["dhcp"]⟩ <;> rfl
  · rename_i e hist' heq; rw [heq]
  · rename_i e hist' heq; rw [heq]

/-- C4 (as amended). A record that `SetDNSRecords` turns away with a
field-required or invalid-record-type error causes no call of its own and
nothing is issued after it: when the records before it were applied, the call
fails with that error and the collaborator has seen exactly their calls, three
per record, each an `add` or a `set`, and no commit.  When the record turned
away is the first of the batch the collaborator has seen no call at all. -/
theorem SetDNSRecords_rejected_record_issues_no_call (d : Device) (pre : List DNSRecord)
    (r : DNSRecord) (post : List DNSRecord) (e : Err) (hist hist' : List UciEvent)
    (hrej : rejection r = some e)
    (hpre : (setLoop d pre).run hist = (.ok (), hist')) :
    (SetDNSRecords d (pre ++ r :: post)).run hist = (.err e, hist') ∧
    (∃ evs, hist' = hist ++ evs ∧ evs.length = 3 * pre.length ∧
      ∀ ev ∈ evs, ev.call.method = "add" ∨ ev.call.method = "set") ∧
    (pre = [] → hist' = hist) ∧
    (e = .message "name is required" ∨ e = .message "ip is required" ∨
      e = .message "cname is required" ∨ e = .message "target is required" ∨
      e = .message ("invalid record type: " ++ r.Typ)) := by
  refine ⟨?_, setLoop_ok_events d pre hist hist' hpre, ?_, ?_⟩
  · rw [run_SetDNSRecords, setLoop_append, hpre]
    simp only []
    rw [setLoop_cons_rejected d r post e hist' hrej]
  · intro hnil
    subst hnil
    simp only [setLoop, run_pure, Prod.mk.injEq, true_and] at hpre
    exact hpre.symm
  · unfold rejection at hrej
    repeat' split at hrej
    all_goals (cases hrej <;> simp)

theorem SetDNSRecords_rejected_record_issues_no_call_witness :
    (SetDNSRecords (sampleDevice sampleSnapshot)
        ([⟨"A", "1.1.1.1", "foo.bar.com", "", ""⟩] ++ ⟨"A", "", "foobar", "", ""⟩ :: [])).run []
      = (.err (.message "ip is required"),
          [⟨⟨"add", ["dhcp", "domain"]⟩, .ok "cfg0"⟩,
           ⟨⟨"set", ["dhcp", "cfg0", "name", "foo.bar.com"]⟩, .ok ""⟩,
           ⟨⟨"set", ["dhcp", "cfg0", "ip", "1.1.1.1"]⟩, .ok ""⟩]) :=
  (SetDNSRecords_rejected_record_issues_no_call (sampleDevice sampleSnapshot)
    [⟨"A", "1.1.1.1", "foo.bar.com", "", ""⟩] ⟨"A", "", "foobar", "", ""⟩ []
    (.message "ip is required") [] _ (by decide) (by decide)).1

/-- C4 (counterexample to the claim as stated). The second record of the batch
lacks its ip: the call fails with "ip is required" after the collaborator has
already seen the three calls of the first record. -/
theorem SetDNSRecords_field_required_after_calls :
    ((SetDNSRecords (sampleDevice sampleSnapshot)
        [⟨"A", "1.1.1.1", "foo.bar.com", "", ""⟩, ⟨"A", "", "foobar", "", ""⟩]).run []).1
      = .err (.message "ip is required") ∧
    ((SetDNSRecords (sampleDevice sampleSnapshot)
        [⟨"A", "1.1.1.1", "foo.bar.com", "", ""⟩, ⟨"A", "", "foobar", "", ""⟩]).run []).2
      = [⟨⟨"add", ["dhcp", "domain"]⟩, .ok "cfg0"⟩,
         ⟨⟨"set", ["dhcp", "cfg0", "name", "foo.bar.com"]⟩, .ok ""⟩,
         ⟨⟨"set", ["dhcp", "cfg0", "ip", "1.1.1.1"]⟩, .ok ""⟩] := by
  decide

/-! ## SetDNSRecords on valid batches -/

theorem setLoop_cons_valid (d : Device) (r : DNSRecord) (rest : List DNSRecord)
    (hvalid : ValidRecord r) (h : String) (hist : List UciEvent) :
    (setLoop d (r :: rest)).run hist =
      match replay d (planRecord r) h hist with
      | (none, hist') => (setLoop d rest).run hist'
      | (some e, hist') => (.err e, hist') := by
  rcases hvalid with ⟨ht, hn, hi⟩ | ⟨ht, hn, hi⟩
  · have hA : ToUpper r.Typ = "A" := by rw [ht]; decide
    rw [run_setLoop_cons, if_pos hA, run_addA d r h hist (Or.inr ht) hn hi]
    simp only [planRecord, ht, if_true]
    rcases replay d [.add "domain", .set "name" r.Name, .set "ip" r.IP] h hist with ⟨res, hist'⟩
    cases res <;> rfl
  · have hA : ¬ ToUpper r.Typ = "A" := by rw [ht]; decide
    have hC : ToUpper r.Typ = "CNAME" := by rw [ht]; decide
    have hne : ¬ r.Typ = "A" := by rw [ht]; decide
    rw [run_setLoop_cons, if_neg hA, if_pos hC, run_addCName d r h hist (Or.inr ht) hn hi]
    simp only [planRecord, hne, if_false]
    rcases replay d [.add "cname", .set "cname" r.CName, .set "target" r.Target] h hist
      with ⟨res, hist'⟩
    cases res <;> rfl

theorem replay_append (d : Device) (a b : List Step) (h : String) (hist : List UciEvent) :
    ∃ h', replay d (a ++ b) h hist =
      match replay d a h hist with
      | (none, hist') => replay d b h' hist'
      | (some e, hist') => (some e, hist') := by
  induction a generalizing h hist with
  | nil => exact ⟨h, rfl⟩
  | cons step rest ih =>
    simp only [List.cons_append, replay]
    cases d.lucirpc hist (step.call h) with
    | error e => exact ⟨h, rfl⟩
    | ok s => exact ih _ _

theorem planRecord_head (r : DNSRecord) :
    ∃ kind o1 v1 o2 v2, planRecord r = [.add kind, .set o1 v1, .set o2 v2] := by
  unfold planRecord
  split
  · exact ⟨_, _, _, _, _, rfl⟩
  · exact ⟨_, _, _, _, _, rfl⟩

/-- The handle in force when a step list starts with an `add` does not matter. -/
theorem replay_add_handle (d : Device) (kind : String) (rest : List Step) (h h' : String)
    (hist : List UciEvent) :
    replay d (.add kind :: rest) h hist = replay d (.add kind :: rest) h' hist := by
  simp [replay, Step.call, Step.handle]

theorem plan_head (records : List DNSRecord) :
    plan records = [.commit] ∨ ∃ kind rest, plan records = .add kind :: rest := by
  cases records with
  | nil => left; rfl
  | cons r rest =>
    right
    obtain ⟨kind, o1, v1, o2, v2, hp⟩ := planRecord_head r
    exact ⟨kind, .set o1 v1 :: .set o2 v2 :: plan rest, by simp [plan, hp]⟩

theorem replay_plan_handle (d : Device) (records : List DNSRecord) (h h' : String)
    (hist : List UciEvent) :
    replay d (plan records) h hist = replay d (plan records) h' hist := by
  rcases plan_head records with hp | ⟨kind, rest, hp⟩
  · rw [hp]; simp [replay, Step.call, Step.handle]
  · rw [hp]; exact replay_add_handle d kind rest h h' hist

theorem SetDNSRecords_eq_replay (d : Device) (records : List DNSRecord)
    (hvalid : ∀ r ∈ records, ValidRecord r) (h : String) (hist : List UciEvent) :
    (SetDNSRecords d records).run hist =
      (outcomeOf (replay d (plan records) h hist).1, (replay d (plan records) h hist).2) := by
  induction records generalizing h hist with
  | nil =>
    rw [run_SetDNSRecords]
    simp only [setLoop, run_pure, plan, replay, Step.call]
    cases d.lucirpc hist ⟨"commit", ["dhcp"]⟩ <;> rfl
  | cons r rest ih =>
    have hr : ValidRecord r := hvalid r (by simp)
    have hrest : ∀ x ∈ rest, ValidRecord x := fun x hx => hvalid x (by simp [hx])
    rw [run_SetDNSRecords, setLoop_cons_valid d r rest hr h hist]
    obtain ⟨h', happ⟩ := replay_append d (planRecord r) (plan rest) h hist
    simp only [plan]
    rw [happ]
    rcases replay d (planRecord r) h hist with ⟨res, hist'⟩
    cases res with
    | some e => rfl
    | none =>
      simp only []
      rw [← ih hrest h' hist', run_SetDNSRecords]

theorem planTrace_cons {m : Nat} {res : Option Err} {evs : List UciEvent} (ev : UciEvent)
    (h : PlanTrace m res evs) (hm : ev.call.method ≠ "commit") (hok : ∃ s, ev.reply = .ok s) :
    PlanTrace (m + 1) res (ev :: evs) := by
  obtain ⟨h0, h1, h2, h3, h4⟩ := h
  obtain ⟨b, l, hbl⟩ := List.exists_cons_of_ne_nil h0
  subst hbl
  refine ⟨by simp, ?_, ?_, ?_, ?_⟩
  · intro x hx
    rw [List.dropLast_cons_of_ne_nil h0] at hx
    rcases List.mem_cons.mp hx with hx | hx
    · subst hx; exact ⟨hm, hok⟩
    · exact h1 x hx
  · intro x hx hc
    rw [List.getLast?_cons_cons] at hx
    rw [List.length_cons, h2 x hx hc]
  · intro hres
    rw [List.getLast?_cons_cons]
    exact h3 hres
  · intro e hres
    rw [List.getLast?_cons_cons]
    exact h4 e hres

theorem planTrace_failed (m : Nat) (c : UciCall) (e : Err) (hm : c.method ≠ "commit") :
    PlanTrace m (some e) [⟨c, .error e⟩] := by
  refine ⟨by simp, by simp, ?_, by simp, ?_⟩
  · intro ev hev hc
    simp only [List.getLast?_singleton, Option.some.injEq] at hev
    subst hev
    exact absurd hc hm
  · intro e' he'
    simp only [Option.some.injEq] at he'
    subst he'
    exact ⟨c, by simp⟩

theorem replay_plan_trace (d : Device) (records : List DNSRecord) (h : String)
    (hist : List UciEvent) :
    ∃ evs, (replay d (plan records) h hist).2 = hist ++ evs ∧
      PlanTrace (3 * records.length + 1) (replay d (plan records) h hist).1 evs := by
  induction records generalizing h hist with
  | nil =>
    simp only [plan, replay, Step.call]
    cases d.lucirpc hist ⟨"commit", ["dhcp"]⟩ with
    | error e =>
      refine ⟨[⟨⟨"commit", ["dhcp"]⟩, .error e⟩], rfl, by simp, by simp, by simp, by simp, ?_⟩
      intro e' he'
      simp only [Option.some.injEq] at he'
      subst he'
      exact ⟨⟨"commit", ["dhcp"]⟩, by simp⟩
    | ok s =>
      refine ⟨[⟨⟨"commit", ["dhcp"]⟩, .ok s⟩], rfl, by simp, by simp, by simp, ?_, by simp⟩
      intro _
      exact ⟨⟨⟨"commit", ["dhcp"]⟩, .ok s⟩, by simp, rfl, s, rfl⟩
  | cons r rest ih =>
    obtain ⟨kind, o1, v1, o2, v2, hp⟩ := planRecord_head r
    have hadd : ("add" : String) ≠ "commit" := by decide
    have hset : ("set" : String) ≠ "commit" := by decide
    have hlen : 3 * (r :: rest).length + 1 = 3 * rest.length + 1 + 1 + 1 + 1 := by
      simp only [List.length_cons]; omega
    rw [hlen]
    simp only [plan, hp, List.cons_append, List.nil_append, replay, Step.call, Step.handle]
    cases d.lucirpc hist ⟨"add", ["dhcp", kind]⟩ with
    | error e => exact ⟨[⟨⟨"add", ["dhcp", kind]⟩, .error e⟩], rfl, planTrace_failed _ _ e hadd⟩
    | ok cfg =>
      simp only []
      cases d.lucirpc (hist ++ [⟨⟨"add", ["dhcp", kind]⟩, .ok cfg⟩])
          ⟨"set", ["dhcp", cfg, o1, v1]⟩ with
      | error e =>
        refine ⟨[⟨⟨"add", ["dhcp", kind]⟩, .ok cfg⟩, ⟨⟨"set", ["dhcp", cfg, o1, v1]⟩, .error e⟩],
          by simp, ?_⟩
        exact planTrace_cons ⟨⟨"add", ["dhcp", kind]⟩, .ok cfg⟩
          (planTrace_failed (3 * rest.length + 1 + 1 + 1) ⟨"set", ["dhcp", cfg, o1, v1]⟩ e hset)
          hadd ⟨cfg, rfl⟩
      | ok s2 =>
        simp only []
        cases d.lucirpc (hist ++ [⟨⟨"add", ["dhcp", kind]⟩, .ok cfg⟩] ++
            [⟨⟨"set", ["dhcp", cfg, o1, v1]⟩, .ok s2⟩]) ⟨"set", ["dhcp", cfg, o2, v2]⟩ with
        | error e =>
          refine ⟨[⟨⟨"add", ["dhcp", kind]⟩, .ok cfg⟩, ⟨⟨"set", ["dhcp", cfg, o1, v1]⟩, .ok s2⟩,
            ⟨⟨"set", ["dhcp", cfg, o2, v2]⟩, .error e⟩], by simp, ?_⟩
          exact planTrace_cons ⟨⟨"add", ["dhcp", kind]⟩, .ok cfg⟩
            (planTrace_cons ⟨⟨"set", ["dhcp", cfg, o1, v1]⟩, .ok s2⟩
              (planTrace_failed (3 * rest.length + 1 + 1) ⟨"set", ["dhcp", cfg, o2, v2]⟩ e hset)
              hset ⟨s2, rfl⟩)
            hadd ⟨cfg, rfl⟩
        | ok s3 =>
          simp only []
          obtain ⟨evs, he, ht⟩ := ih cfg (hist ++ [⟨⟨"add", ["dhcp", kind]⟩, .ok cfg⟩] ++
            [⟨⟨"set", ["dhcp", cfg, o1, v1]⟩, .ok s2⟩] ++ [⟨⟨"set", ["dhcp", cfg, o2, v2]⟩, .ok s3⟩])
          refine ⟨⟨⟨"add", ["dhcp", kind]⟩, .ok cfg⟩ :: ⟨⟨"set", ["dhcp", cfg, o1, v1]⟩, .ok s2⟩ ::
            ⟨⟨"set", ["dhcp", cfg, o2, v2]⟩, .ok s3⟩ :: evs, by simpa using he, ?_⟩
          exact planTrace_cons ⟨⟨"add", ["dhcp", kind]⟩, .ok cfg⟩
            (planTrace_cons ⟨⟨"set", ["dhcp", cfg, o1, v1]⟩, .ok s2⟩
              (planTrace_cons ⟨⟨"set", ["dhcp", cfg, o2, v2]⟩, .ok s3⟩ ht
                hset ⟨s3, rfl⟩)
              hset ⟨s2, rfl⟩)
            hadd ⟨cfg, rfl⟩

/-- C5. For every batch of valid records and every behaviour of the collaborator,
`SetDNSRecords` issues the planned sequence (per record, in input order, `add`
returning a handle, then the two `set` calls on that handle; after all records
one `commit`) cut at and including the first failing call, and returns that
call's error, or success when no call fails.  Hence every call but the last
succeeded and is not a commit; a commit, if issued, is the last call and comes
after all `3 * n` add and set calls; a successful run ends with the commit. -/
theorem SetDNSRecords_follows_plan (d : Device) (records : List DNSRecord)
    (hvalid : ∀ r ∈ records, ValidRecord r) (h : String) (hist : List UciEvent) :
    (SetDNSRecords d records).run hist =
      (outcomeOf (replay d (plan records) h hist).1, (replay d (plan records) h hist).2) ∧
    ∃ evs, ((SetDNSRecords d records).run hist).2 = hist ++ evs ∧ evs ≠ [] ∧
      (∀ ev ∈ evs.dropLast, ev.call.method ≠ "commit" ∧ ∃ s, ev.reply = .ok s) ∧
      (∀ ev, evs.getLast? = some ev → ev.call.method = "commit" →
        evs.length = 3 * records.length + 1) ∧
      (((SetDNSRecords d records).run hist).1 = .ok () →
        ∃ ev, evs.getLast? = some ev ∧ ev.call.method = "commit" ∧ ∃ s, ev.reply = .ok s) ∧
      (∀ e, ((SetDNSRecords d records).run hist).1 = .err e →
        ∃ c, evs.getLast? = some ⟨c, .error e⟩) ∧
      (∀ text, ((SetDNSRecords d records).run hist).1 ≠ .panic text) := by
  have heq := SetDNSRecords_eq_replay d records hvalid h hist
  refine ⟨heq, ?_⟩
  obtain ⟨evs, he, h0, h1, h2, h3, h4⟩ := replay_plan_trace d records h hist
  rw [heq]
  refine ⟨evs, he, h0, h1, h2, ?_, ?_, ?_⟩
  · intro hok
    apply h3
    cases hres : (replay d (plan records) h hist).1 with
    | none => rfl
    | some e => rw [hres] at hok; cases hok
  · intro e herr
    apply h4
    cases hres : (replay d (plan records) h hist).1 with
    | none => rw [hres] at herr; cases herr
    | some e' => rw [hres] at herr; cases herr; rfl
  · intro text hp
    cases hres : (replay d (plan records) h hist).1 with
    | none => rw [hres] at hp; cases hp
    | some e' => rw [hres] at hp; cases hp

theorem SetDNSRecords_follows_plan_witness :
    (SetDNSRecords (sampleDevice sampleSnapshot)
        [⟨"A", "1.1.1.1", "foo.bar.com", "", ""⟩, ⟨"CNAME", "", "", "foo.bar.com", "bar.foo.com"⟩]).run []
      = (.ok (),
          [⟨⟨"add", ["dhcp", "domain"]⟩, .ok "cfg0"⟩,
           ⟨⟨"set", ["dhcp", "cfg0", "name", "foo.bar.com"]⟩, .ok ""⟩,
           ⟨⟨"set", ["dhcp", "cfg0", "ip", "1.1.1.1"]⟩, .ok ""⟩,
           ⟨⟨"add", ["dhcp", "cname"]⟩, .ok "cfg3"⟩,
           ⟨⟨"set", ["dhcp", "cfg3", "cname", "foo.bar.com"]⟩, .ok ""⟩,
           ⟨⟨"set", ["dhcp", "cfg3", "target", "bar.foo.com"]⟩, .ok ""⟩,
           ⟨⟨"commit", ["dhcp"]⟩, .ok ""⟩]) :=
  (SetDNSRecords_follows_plan (sampleDevice sampleSnapshot)
    [⟨"A", "1.1.1.1", "foo.bar.com", "", ""⟩, ⟨"CNAME", "", "", "foo.bar.com", "bar.foo.com"⟩]
    (by decide) "" []).1

/-! ## Slices and the in-loop removal -/

theorem removeAt_spec (s : Slice) (i : Nat) (hwf : s.WF) (hi : i < s.len) :
    ∃ s', removeAt s i = some s' ∧ s'.WF ∧ s'.len = s.len - 1 ∧
      s'.elems = s.elems.eraseIdx i ∧
      ∀ j, i < j → j < s.len → ∃ k, i < k ∧ k < s.len ∧ s'.arr[j]? = s.arr[k]? := by
  unfold Slice.WF at hwf
  have h1 : ¬ i > s.arr.length := by omega
  have h2 : ¬ i + 1 > s.len := by omega
  refine ⟨⟨s.arr.take i ++ (s.arr.drop (i + 1)).take (s.len - (i + 1)) ++ s.arr.drop (s.len - 1),
    s.len - 1⟩, by simp only [removeAt, if_neg h1, if_neg h2], ?_, rfl, ?_, ?_⟩
  · simp only [Slice.WF, List.length_append, List.length_take, List.length_drop]
    omega
  · simp only [Slice.elems]
    rw [List.eraseIdx_eq_take_drop_succ, List.take_take, List.drop_take]
    have e1 : min i s.len = i := by omega
    rw [e1]
    have hl : (s.arr.take i ++ (s.arr.drop (i + 1)).take (s.len - (i + 1))).length = s.len - 1 := by
      simp only [List.length_append, List.length_take, List.length_drop]; omega
    rw [List.take_append_of_le_length (by omega), List.take_of_length_le (by omega)]
  · intro j hij hj
    have hl1 : (s.arr.take i ++ (s.arr.drop (i + 1)).take (s.len - (i + 1))).length = s.len - 1 := by
      simp only [List.length_append, List.length_take, List.length_drop]; omega
    have hl0 : (s.arr.take i).length = i := by
      simp only [List.length_take]; omega
    by_cases hlast : j < s.len - 1
    · refine ⟨j + 1, by omega, by omega, ?_⟩
      show (s.arr.take i ++ (s.arr.drop (i + 1)).take (s.len - (i + 1)) ++ s.arr.drop (s.len - 1))[j]? = _
      rw [List.getElem?_append_left (by omega), List.getElem?_append_right (by omega), hl0,
        List.getElem?_take, if_pos (by omega), List.getElem?_drop]
      congr 1; omega
    · refine ⟨j, hij, hj, ?_⟩
      show (s.arr.take i ++ (s.arr.drop (i + 1)).take (s.len - (i + 1)) ++ s.arr.drop (s.len - 1))[j]? = _
      rw [List.getElem?_append_right (by omega), hl1, List.getElem?_drop]
      congr 1; omega

theorem Slice.length_elems (s : Slice) (hwf : s.WF) : s.elems.length = s.len := by
  unfold Slice.WF at hwf
  simp only [Slice.elems, List.length_take]
  omega

theorem Slice.getElem?_arr (s : Slice) (j : Nat) (hj : j < s.len) : s.arr[j]? = s.elems[j]? := by
  simp only [Slice.elems, List.getElem?_take, if_pos hj]

theorem run_remove (s s' : Slice) (i : Nat) (h : removeAt s i = some s') (hist : List UciEvent) :
    (remove s i).run hist = (.ok s', hist) := by
  unfold remove
  rw [h]
  rfl

/-- The state of the pending slice around the single element that matches a
current entry: the element sits at index `pre.length`, removing it succeeds, and
every cell the loop still reads afterwards holds an element of `post`. -/
theorem slice_split (s : Slice) (pre post : List DNSRecord) (r : DNSRecord) (hwf : s.WF)
    (hel : s.elems = pre ++ r :: post) :
    s.len = pre.length + (1 + post.length) ∧
    (∀ j ∈ List.range pre.length, ∃ x, s.arr[j]? = some x ∧ x ∈ pre) ∧
    s.arr[pre.length]? = some r ∧
    ∃ s', removeAt s pre.length = some s' ∧ s'.WF ∧ s'.elems = pre ++ post ∧
      ∀ j ∈ List.range' (pre.length + 1) post.length, ∃ x, s'.arr[j]? = some x ∧ x ∈ post := by
  have hlen : s.len = pre.length + (1 + post.length) := by
    rw [← Slice.length_elems s hwf, hel]
    simp only [List.length_append, List.length_cons]
    omega
  have hget : ∀ j, j < s.len → s.arr[j]? = (pre ++ r :: post)[j]? := by
    intro j hj
    rw [Slice.getElem?_arr s j hj, hel]
  obtain ⟨s', h1, h2, _, h4, h5⟩ := removeAt_spec s pre.length hwf (by omega)
  refine ⟨hlen, ?_, ?_, s', h1, h2, ?_, ?_⟩
  · intro j hj
    have hj' : j < pre.length := List.mem_range.mp hj
    rw [hget j (by omega), List.getElem?_append_left hj']
    exact ⟨pre[j], List.getElem?_eq_getElem hj', List.getElem_mem _⟩
  · rw [hget _ (by omega), List.getElem?_append_right (le_refl _)]
    simp
  · rw [h4, hel, List.eraseIdx_append_of_length_le (le_refl _)]
    simp
  · intro j hj
    have hj' := List.mem_range'_1.mp hj
    obtain ⟨k, hk1, hk2, hk3⟩ := h5 j (by omega) (by omega)
    rw [hk3, hget k hk2, List.getElem?_append_right (by omega)]
    have hk4 : k - pre.length = (k - pre.length - 1) + 1 := by omega
    rw [hk4, List.getElem?_cons_succ]
    have hk5 : k - pre.length - 1 < post.length := by omega
    exact ⟨post[k - pre.length - 1], List.getElem?_eq_getElem hk5, List.getElem_mem _⟩

theorem range_split (a b : Nat) :
    List.range (a + (1 + b)) = List.range a ++ a :: List.range' (a + 1) b := by
  rw [List.range_eq_range', List.range_eq_range']
  have := List.range'_append_1 0 a (1 + b)
  simp only [Nat.zero_add] at this
  rw [Nat.add_comm a (1 + b), ← this, Nat.add_comm 1 b, List.range'_succ]

/-! ## The inner loop of DeleteDNSRecords -/

theorem run_deleteInner_cons (d : Device) (cfg : String) (c : DNSRecord) (i : Nat)
    (rest : List Nat) (s : Slice) (r : DNSRecord) (hr : s.arr[i]? = some r)
    (hist : List UciEvent) :
    (deleteInner d cfg c (i :: rest) s).run hist =
      ((if Matches r c then uci d "delete" ["dhcp", cfg] >>= fun _ => remove s i else pure s)
        >>= fun s' => deleteInner d cfg c rest s').run hist := by
  conv_lhs => rw [deleteInner]
  rw [hr]
  rfl

theorem run_deleteInner_panic (d : Device) (cfg : String) (c : DNSRecord) (i : Nat)
    (rest : List Nat) (s : Slice) (hr : s.arr[i]? = none) (hist : List UciEvent) :
    (deleteInner d cfg c (i :: rest) s).run hist = (.panic "index out of range", hist) := by
  conv_lhs => rw [deleteInner]
  rw [hr]
  rfl

theorem deleteInner_nomatch (d : Device) (cfg : String) (c : DNSRecord) (idxs : List Nat)
    (s : Slice) (h : ∀ j ∈ idxs, ∃ x, s.arr[j]? = some x ∧ ¬ Matches x c) (hist : List UciEvent) :
    (deleteInner d cfg c idxs s).run hist = (.ok s, hist) := by
  induction idxs with
  | nil => rfl
  | cons i rest ih =>
    obtain ⟨x, hx, hm⟩ := h i (by simp)
    rw [run_deleteInner_cons d cfg c i rest s x hx, if_neg hm, run_bind_ok (run_pure s hist)]
    exact ih (fun j hj => h j (by simp [hj]))

theorem deleteInner_append (d : Device) (cfg : String) (c : DNSRecord) (a b : List Nat)
    (s : Slice) (hist : List UciEvent) :
    (deleteInner d cfg c (a ++ b) s).run hist =
      (deleteInner d cfg c a s >>= fun s' => deleteInner d cfg c b s').run hist := by
  induction a generalizing s hist with
  | nil => rfl
  | cons i rest ih =>
    cases hr : s.arr[i]? with
    | none =>
      rw [List.cons_append, run_deleteInner_panic d cfg c i _ s hr,
        run_bind_panic (run_deleteInner_panic d cfg c i _ s hr hist)]
    | some r =>
      rw [List.cons_append, run_deleteInner_cons d cfg c i _ s r hr, run_bind, run_bind,
        run_deleteInner_cons d cfg c i _ s r hr, run_bind]
      rcases ((if Matches r c then uci d "delete" ["dhcp", cfg] >>= fun _ => remove s i
          else pure s : Run Slice).run hist) with ⟨out, hist'⟩
      cases out with
      | ok s' => simp only []; rw [ih, run_bind]
      | err e => rfl
      | panic t => rfl

/-- The inner loop of `DeleteDNSRecords` when exactly one pending record matches
the current entry: one `delete` call, and the record is gone from the slice. -/
theorem deleteInner_single (d : Device) (cfg : String) (c : DNSRecord) (s : Slice)
    (pre post : List DNSRecord) (r : DNSRecord) (hwf : s.WF) (hel : s.elems = pre ++ r :: post)
    (hm : Matches r c) (hpre : ∀ x ∈ pre, ¬ Matches x c) (hpost : ∀ x ∈ post, ¬ Matches x c) :
    ∃ s', s'.WF ∧ s'.elems = pre ++ post ∧ ∀ hist,
      (deleteInner d cfg c (List.range s.len) s).run hist =
        (uci d "delete" ["dhcp", cfg] >>= fun _ => (pure s' : Run Slice)).run hist := by
  obtain ⟨hlen, h1, h2, s', h3, h4, h5, h6⟩ := slice_split s pre post r hwf hel
  refine ⟨s', h4, h5, ?_⟩
  intro hist
  rw [hlen, range_split, deleteInner_append, run_bind,
    deleteInner_nomatch d cfg c _ s
      (fun j hj => by obtain ⟨x, hx, hxp⟩ := h1 j hj; exact ⟨x, hx, hpre x hxp⟩)]
  simp only []
  rw [run_deleteInner_cons d cfg c _ _ s r h2, if_pos hm, run_bind, run_bind, run_bind]
  rcases (uci d "delete" ["dhcp", cfg]).run hist with ⟨out, hist'⟩
  cases out with
  | err e => rfl
  | panic t => rfl
  | ok x =>
    simp only []
    rw [run_remove s s' _ h3]
    simp only []
    rw [deleteInner_nomatch d cfg c _ s'
      (fun j hj => by obtain ⟨x, hx, hxp⟩ := h6 j hj; exact ⟨x, hx, hpost x hxp⟩)]
    rfl

/-- The inner loop of `DeleteDNSRecords` when no pending record matches the
current entry: no call, no change. -/
theorem deleteInner_none (d : Device) (cfg : String) (c : DNSRecord) (s : Slice)
    (hwf : s.WF) (hno : ∀ x ∈ s.elems, ¬ Matches x c) (hist : List UciEvent) :
    (deleteInner d cfg c (List.range s.len) s).run hist = (.ok s, hist) := by
  apply deleteInner_nomatch
  intro j hj
  have hj' : j < s.len := List.mem_range.mp hj
  have hj'' : j < s.elems.length := by rw [Slice.length_elems s hwf]; exact hj'
  rw [Slice.getElem?_arr s j hj']
  exact ⟨s.elems[j], List.getElem?_eq_getElem hj'', hno _ (List.getElem_mem _)⟩

/-! ## The inner loop of UpdateDNSRecords -/

theorem run_updateInner_cons (d : Device) (cfg : String) (c : DNSRecord) (i : Nat)
    (rest : List Nat) (s : Slice) (r : DNSRecord) (hr : s.arr[i]? = some r)
    (hist : List UciEvent) :
    (updateInner d cfg c (i :: rest) s).run hist =
      ((if r.Typ = "A" ∧ r.Name = c.Name then
          uci d "delete" ["dhcp", cfg] >>= fun _ => addA d r >>= fun _ => remove s i
        else pure s) >>= fun s₁ =>
       (if r.Typ = "CNAME" ∧ r.CName = c.CName then
          uci d "delete" ["dhcp", cfg] >>= fun _ => addCName d r >>= fun _ => remove s₁ i
        else pure s₁) >>= fun s₂ => updateInner d cfg c rest s₂).run hist := by
  conv_lhs => rw [updateInner]
  rw [hr]

theorem run_updateInner_panic (d : Device) (cfg : String) (c : DNSRecord) (i : Nat)
    (rest : List Nat) (s : Slice) (hr : s.arr[i]? = none) (hist : List UciEvent) :
    (updateInner d cfg c (i :: rest) s).run hist = (.panic "index out of range", hist) := by
  conv_lhs => rw [updateInner]
  rw [hr]
  rfl

theorem updateInner_nomatch (d : Device) (cfg : String) (c : DNSRecord) (idxs : List Nat)
    (s : Slice) (h : ∀ j ∈ idxs, ∃ x, s.arr[j]? = some x ∧ ¬ Matches x c) (hist : List UciEvent) :
    (updateInner d cfg c idxs s).run hist = (.ok s, hist) := by
  induction idxs with
  | nil => rfl
  | cons i rest ih =>
    obtain ⟨x, hx, hm⟩ := h i (by simp)
    have h1 : ¬ (x.Typ = "A" ∧ x.Name = c.Name) := fun hh => hm (Or.inl hh)
    have h2 : ¬ (x.Typ = "CNAME" ∧ x.CName = c.CName) := fun hh => hm (Or.inr hh)
    rw [run_updateInner_cons d cfg c i rest s x hx, if_neg h1, run_bind_ok (run_pure s hist),
      if_neg h2, run_bind_ok (run_pure s hist)]
    exact ih (fun j hj => h j (by simp [hj]))

theorem updateInner_append (d : Device) (cfg : String) (c : DNSRecord) (a b : List Nat)
    (s : Slice) (hist : List UciEvent) :
    (updateInner d cfg c (a ++ b) s).run hist =
      (updateInner d cfg c a s >>= fun s' => updateInner d cfg c b s').run hist := by
  induction a generalizing s hist with
  | nil => rfl
  | cons i rest ih =>
    cases hr : s.arr[i]? with
    | none =>
      rw [List.cons_append, run_updateInner_panic d cfg c i _ s hr,
        run_bind_panic (run_updateInner_panic d cfg c i _ s hr hist)]
    | some r =>
      rw [List.cons_append, run_updateInner_cons d cfg c i _ s r hr, run_bind, run_bind,
        run_updateInner_cons d cfg c i _ s r hr, run_bind]
      rcases ((if r.Typ = "A" ∧ r.Name = c.Name then
          uci d "delete" ["dhcp", cfg] >>= fun _ => addA d r >>= fun _ => remove s i
          else pure s : Run Slice).run hist) with ⟨out, hist'⟩
      cases out with
      | err e => rfl
      | panic t => rfl
      | ok s₁ =>
        simp only []
        rw [run_bind, run_bind]
        rcases ((if r.Typ = "CNAME" ∧ r.CName = c.CName then
            uci d "delete" ["dhcp", cfg] >>= fun _ => addCName d r >>= fun _ => remove s₁ i
            else pure s₁ : Run Slice).run hist') with ⟨out', hist''⟩
        cases out' with
        | err e => rfl
        | panic t => rfl
        | ok s₂ => simp only []; rw [ih, run_bind]

/-- The inner loop of `UpdateDNSRecords` when exactly one pending record matches
the current entry: the entry is deleted, the record is re-created by `addA` or
`addCName`, and the record is gone from the slice. -/
theorem updateInner_single (d : Device) (cfg : String) (c : DNSRecord) (s : Slice)
    (pre post : List DNSRecord) (r : DNSRecord) (hwf : s.WF) (hel : s.elems = pre ++ r :: post)
    (hm : Matches r c) (hpre : ∀ x ∈ pre, ¬ Matches x c) (hpost : ∀ x ∈ post, ¬ Matches x c) :
    ∃ s', s'.WF ∧ s'.elems = pre ++ post ∧ ∀ hist,
      (updateInner d cfg c (List.range s.len) s).run hist =
        (uci d "delete" ["dhcp", cfg] >>= fun _ =>
          (if r.Typ = "A" then addA d r else addCName d r) >>= fun _ =>
            (pure s' : Run Slice)).run hist := by
  obtain ⟨hlen, h1, h2, s', h3, h4, h5, h6⟩ := slice_split s pre post r hwf hel
  refine ⟨s', h4, h5, ?_⟩
  intro hist
  have hrest : ∀ hist', (updateInner d cfg c (List.range' (pre.length + 1) post.length) s').run hist'
      = (.ok s', hist') := fun hist' =>
    updateInner_nomatch d cfg c _ s'
      (fun j hj => by obtain ⟨x, hx, hxp⟩ := h6 j hj; exact ⟨x, hx, hpost x hxp⟩) hist'
  rw [hlen, range_split, updateInner_append, run_bind,
    updateInner_nomatch d cfg c _ s
      (fun j hj => by obtain ⟨x, hx, hxp⟩ := h1 j hj; exact ⟨x, hx, hpre x hxp⟩)]
  simp only []
  rw [run_updateInner_cons d cfg c _ _ s r h2]
  rcases hm with ⟨ht, hn⟩ | ⟨ht, hn⟩
  · have hC : ¬ (r.Typ = "CNAME" ∧ r.CName = c.CName) := by rw [ht]; simp
    have hA : r.Typ = "A" ∧ r.Name = c.Name := ⟨ht, hn⟩
    simp only [eq_true hA, eq_false hC, if_true, if_false]
    simp only [eq_true ht, if_true]
    simp only [run_bind]
    rcases (uci d "delete" ["dhcp", cfg]).run hist with ⟨out, hist'⟩
    cases out with
    | err e => rfl
    | panic t => rfl
    | ok x =>
      simp only []
      rcases (addA d r).run hist' with ⟨out', hist''⟩
      cases out' with
      | err e => rfl
      | panic t => rfl
      | ok y =>
        simp only []
        rw [run_remove s s' _ h3]
        simp only [run_pure]
        rw [hrest]
  · have hA : ¬ (r.Typ = "A" ∧ r.Name = c.Name) := by rw [ht]; simp
    have hA' : ¬ r.Typ = "A" := by rw [ht]; decide
    have hC : r.Typ = "CNAME" ∧ r.CName = c.CName := ⟨ht, hn⟩
    simp only [eq_false hA, eq_true hC, if_true, if_false]
    simp only [eq_false hA', if_false]
    simp only [run_bind, run_pure]
    rcases (uci d "delete" ["dhcp", cfg]).run hist with ⟨out, hist'⟩
    cases out with
    | err e => rfl
    | panic t => rfl
    | ok x =>
      simp only []
      rcases (addCName d r).run hist' with ⟨out', hist''⟩
      cases out' with
      | err e => rfl
      | panic t => rfl
      | ok y =>
        simp only []
        rw [run_remove s s' _ h3]
        simp only []
        rw [hrest]

/-- The inner loop of `UpdateDNSRecords` when no pending record matches the
current entry: no call, no change. -/
theorem updateInner_none (d : Device) (cfg : String) (c : DNSRecord) (s : Slice)
    (hwf : s.WF) (hno : ∀ x ∈ s.elems, ¬ Matches x c) (hist : List UciEvent) :
    (updateInner d cfg c (List.range s.len) s).run hist = (.ok s, hist) := by
  apply updateInner_nomatch
  intro j hj
  have hj' : j < s.len := List.mem_range.mp hj
  have hj'' : j < s.elems.length := by rw [Slice.length_elems s hwf]; exact hj'
  rw [Slice.getElem?_arr s j hj']
  exact ⟨s.elems[j], List.getElem?_eq_getElem hj'', hno _ (List.getElem_mem _)⟩

/-! ## The loops refine first-match reconciliation -/

theorem filter_le_one_split (p : DNSRecord → Bool) (xs : List DNSRecord)
    (h : (xs.filter p).length ≤ 1) :
    (∀ x ∈ xs, p x = false) ∨
      ∃ pre r post, xs = pre ++ r :: post ∧ p r = true ∧ (∀ x ∈ pre, p x = false) ∧
        (∀ x ∈ post, p x = false) := by
  induction xs with
  | nil => left; simp
  | cons x rest ih =>
    cases hx : p x with
    | true =>
      right
      rw [List.filter_cons_of_pos hx, List.length_cons] at h
      have hrest : rest.filter p = [] := List.length_eq_zero.mp (by omega)
      refine ⟨[], x, rest, rfl, hx, by simp, ?_⟩
      intro y hy
      cases hy' : p y with
      | false => rfl
      | true =>
        have : y ∈ rest.filter p := List.mem_filter.mpr ⟨hy, hy'⟩
        rw [hrest] at this
        cases this
    | false =>
      have hx' : ¬ p x = true := by rw [hx]; simp
      rw [List.filter_cons_of_neg hx'] at h
      rcases ih h with hnone | ⟨pre, r, post, e, hr, hpre, hpost⟩
      · left
        intro y hy
        rcases List.mem_cons.mp hy with hy | hy
        · rw [hy]; exact hx
        · exact hnone y hy
      · right
        refine ⟨x :: pre, r, post, by rw [e]; rfl, hr, ?_, hpost⟩
        intro y hy
        rcases List.mem_cons.mp hy with hy | hy
        · rw [hy]; exact hx
        · exact hpre y hy

theorem find?_of_split (p : DNSRecord → Bool) (pre post : List DNSRecord) (r : DNSRecord)
    (hr : p r = true) (hpre : ∀ x ∈ pre, p x = false) :
    (pre ++ r :: post).find? p = some r ∧ (pre ++ r :: post).eraseP p = pre ++ post := by
  induction pre with
  | nil => simp [List.find?_cons, List.eraseP_cons, hr]
  | cons x rest ih =>
    have hx : p x = false := hpre x (by simp)
    have := ih (fun y hy => hpre y (by simp [hy]))
    simp [List.find?_cons, List.eraseP_cons, hx, this.1, this.2]

theorem eraseP_eq_filter (p : DNSRecord → Bool) (xs : List DNSRecord)
    (h : (xs.filter p).length ≤ 1) : xs.eraseP p = xs.filter (fun x => !p x) := by
  rcases filter_le_one_split p xs h with hnone | ⟨pre, r, post, e, hr, hpre, hpost⟩
  · rw [List.eraseP_of_forall_not (fun x hx => by rw [hnone x hx]; simp)]
    symm
    apply List.filter_eq_self.mpr
    intro x hx
    rw [hnone x hx]; rfl
  · rw [e, (find?_of_split p pre post r hr hpre).2, List.filter_append, List.filter_cons]
    have h1 : pre.filter (fun x => !p x) = pre :=
      List.filter_eq_self.mpr (fun x hx => by rw [hpre x hx]; rfl)
    have h2 : post.filter (fun x => !p x) = post :=
      List.filter_eq_self.mpr (fun x hx => by rw [hpost x hx]; rfl)
    rw [h1, h2, hr]
    rfl

theorem SingleMatch.tail {cur : GoMap} {cfg : String} {rest : List String}
    {pending : List DNSRecord} (h : SingleMatch cur (cfg :: rest) pending) :
    SingleMatch cur rest pending :=
  fun k hk c hc => h k (by simp [hk]) c hc

theorem SingleMatch.sublist {cur : GoMap} {order : List String} {pending pending' : List DNSRecord}
    (h : SingleMatch cur order pending) (hsub : pending'.Sublist pending) :
    SingleMatch cur order pending' :=
  fun k hk c hc => le_trans (hsub.filter _).length_le (h k hk c hc)

theorem run_bind_assoc {α β γ : Type} (m : Run α) (f : α → Run β) (g : β → Run γ)
    (hist : List UciEvent) :
    ((m >>= f) >>= g).run hist = (m >>= fun a => f a >>= g).run hist := by
  simp only [run_bind]
  rcases m.run hist with ⟨out, hist'⟩
  cases out <;> rfl

theorem run_updateOuter_cons (d : Device) (cur : GoMap) (cfg : String) (rest : List String)
    (s : Slice) (hist : List UciEvent) :
    (updateOuter d cur (cfg :: rest) s).run hist =
      match cur cfg with
      | none => (updateOuter d cur rest s).run hist
      | some c =>
        (updateInner d cfg c (List.range s.len) s >>= fun s' => updateOuter d cur rest s').run hist := by
  conv_lhs => rw [updateOuter]
  cases cur cfg <;> rfl

theorem run_deleteOuter_cons (d : Device) (cur : GoMap) (cfg : String) (rest : List String)
    (s : Slice) (hist : List UciEvent) :
    (deleteOuter d cur (cfg :: rest) s).run hist =
      match cur cfg with
      | none => (deleteOuter d cur rest s).run hist
      | some c =>
        (deleteInner d cfg c (List.range s.len) s >>= fun s' => deleteOuter d cur rest s').run hist := by
  conv_lhs => rw [deleteOuter]
  cases cur cfg <;> rfl

theorem run_specOuter_cons (act : String → DNSRecord → Run Unit) (cur : GoMap) (cfg : String)
    (rest : List String) (pending : List DNSRecord) (hist : List UciEvent) :
    (specOuter act cur (cfg :: rest) pending).run hist =
      match cur cfg with
      | none => (specOuter act cur rest pending).run hist
      | some c =>
        match pending.find? (fun r => decide (Matches r c)) with
        | none => (specOuter act cur rest pending).run hist
        | some r =>
          (act cfg r >>= fun _ =>
            specOuter act cur rest (pending.eraseP (fun r => decide (Matches r c)))).run hist := by
  conv_lhs => rw [specOuter]
  cases cur cfg with
  | none => rfl
  | some c =>
    simp only []
    cases pending.find? (fun r => decide (Matches r c)) <;> rfl

/-- Stage one for `UpdateDNSRecords`: when no current entry is matched by more
than one pending record, the two nested `range` loops with their in-place
removal behave as first-match reconciliation. -/
theorem updateOuter_refines (d : Device) (cur : GoMap) (order : List String) (s : Slice)
    (hwf : s.WF) (hone : SingleMatch cur order s.elems) (hist : List UciEvent) :
    Agree ((updateOuter d cur order s).run hist)
      ((specOuter (updateAct d) cur order s.elems).run hist) := by
  induction order generalizing s hist with
  | nil => exact ⟨rfl, hwf, rfl⟩
  | cons cfg rest ih =>
    rw [run_updateOuter_cons, run_specOuter_cons]
    cases hc : cur cfg with
    | none => exact ih s hwf hone.tail hist
    | some c =>
      simp only []
      have h1 := hone cfg (by simp) c hc
      rcases filter_le_one_split _ _ h1 with hnone | ⟨pre, r, post, e, hr, hpre, hpost⟩
      · have hfind : s.elems.find? (fun r => decide (Matches r c)) = none :=
          List.find?_eq_none.mpr (fun x hx => by rw [hnone x hx]; simp)
        rw [hfind]
        simp only []
        rw [run_bind_ok (updateInner_none d cfg c s hwf
          (fun x hx => by simpa using hnone x hx) hist)]
        exact ih s hwf hone.tail hist
      · obtain ⟨s', hwf', hel', hrun⟩ := updateInner_single d cfg c s pre post r hwf e
          (by simpa using hr) (fun x hx => by simpa using hpre x hx)
          (fun x hx => by simpa using hpost x hx)
        obtain ⟨hfind, herase⟩ := find?_of_split _ pre post r hr hpre
        rw [e, hfind, herase]
        simp only []
        have hsub : SingleMatch cur rest (pre ++ post) := by
          refine SingleMatch.sublist hone.tail ?_
          rw [e]
          exact List.Sublist.append_left (List.sublist_cons_self r post) pre
        have hrun' : ∀ hist, (updateInner d cfg c (List.range s.len) s).run hist =
            (updateAct d cfg r >>= fun _ => (pure s' : Run Slice)).run hist := fun hist => by
          rw [hrun]; exact (run_bind_assoc _ _ _ hist).symm
        rw [run_bind, hrun']
        generalize updateAct d cfg r = A
        simp only [run_bind]
        rcases A.run hist with ⟨out, hist'⟩
        cases out with
        | ok u =>
          simp only [run_pure]
          rw [← hel']
          exact ih s' hwf' (by rw [hel']; exact hsub) hist'
        | err e => exact ⟨rfl, rfl⟩
        | panic t => exact ⟨rfl, rfl⟩

/-- Stage one for `DeleteDNSRecords`. -/
theorem deleteOuter_refines (d : Device) (cur : GoMap) (order : List String) (s : Slice)
    (hwf : s.WF) (hone : SingleMatch cur order s.elems) (hist : List UciEvent) :
    Agree ((deleteOuter d cur order s).run hist)
      ((specOuter (deleteAct d) cur order s.elems).run hist) := by
  induction order generalizing s hist with
  | nil => exact ⟨rfl, hwf, rfl⟩
  | cons cfg rest ih =>
    rw [run_deleteOuter_cons, run_specOuter_cons]
    cases hc : cur cfg with
    | none => exact ih s hwf hone.tail hist
    | some c =>
      simp only []
      have h1 := hone cfg (by simp) c hc
      rcases filter_le_one_split _ _ h1 with hnone | ⟨pre, r, post, e, hr, hpre, hpost⟩
      · have hfind : s.elems.find? (fun r => decide (Matches r c)) = none :=
          List.find?_eq_none.mpr (fun x hx => by rw [hnone x hx]; simp)
        rw [hfind]
        simp only []
        rw [run_bind_ok (deleteInner_none d cfg c s hwf
          (fun x hx => by simpa using hnone x hx) hist)]
        exact ih s hwf hone.tail hist
      · obtain ⟨s', hwf', hel', hrun⟩ := deleteInner_single d cfg c s pre post r hwf e
          (by simpa using hr) (fun x hx => by simpa using hpre x hx)
          (fun x hx => by simpa using hpost x hx)
        obtain ⟨hfind, herase⟩ := find?_of_split _ pre post r hr hpre
        rw [e, hfind, herase]
        simp only []
        have hsub : SingleMatch cur rest (pre ++ post) := by
          refine SingleMatch.sublist hone.tail ?_
          rw [e]
          exact List.Sublist.append_left (List.sublist_cons_self r post) pre
        have hrun' : ∀ hist, (deleteInner d cfg c (List.range s.len) s).run hist =
            (deleteAct d cfg r >>= fun _ => (pure s' : Run Slice)).run hist := fun hist => by
          rw [hrun]
          show _ = ((uci d "delete" ["dhcp", cfg] >>= fun _ => (pure () : Run Unit)) >>= fun _ =>
            (pure s' : Run Slice)).run hist
          rw [run_bind_assoc]
          rfl
        rw [run_bind, hrun']
        generalize deleteAct d cfg r = A
        simp only [run_bind]
        rcases A.run hist with ⟨out, hist'⟩
        cases out with
        | ok u =>
          simp only [run_pure]
          rw [← hel']
          exact ih s' hwf' (by rw [hel']; exact hsub) hist'
        | err e => exact ⟨rfl, rfl⟩
        | panic t => exact ⟨rfl, rfl⟩

/-! ## First-match reconciliation: what is left pending, and how it can fail -/

theorem replay_outcome (d : Device) (steps : List Step) (h : String) (hist : List UciEvent) :
    ∃ evs, (replay d steps h hist).2 = hist ++ evs ∧
      (∀ ev ∈ evs, ∃ step ∈ steps, ∃ h', ev.call = step.call h') ∧
      ((replay d steps h hist).1 = none → ∀ ev ∈ evs, ∃ s, ev.reply = .ok s) ∧
      (∀ e, (replay d steps h hist).1 = some e → ∃ c, (⟨c, .error e⟩ : UciEvent) ∈ evs) := by
  induction steps generalizing h hist with
  | nil => exact ⟨[], by simp [replay]⟩
  | cons step rest ih =>
    unfold replay
    cases hr : d.lucirpc hist (step.call h) with
    | error e =>
      refine ⟨[⟨step.call h, .error e⟩], by simp, ?_, by simp, ?_⟩
      · intro ev hev
        simp only [List.mem_singleton] at hev
        subst hev
        exact ⟨step, by simp, h, rfl⟩
      · intro e' he'
        simp only [Option.some.injEq] at he'
        subst he'
        exact ⟨step.call h, by simp⟩
    | ok s =>
      simp only []
      obtain ⟨evs, h1, h2, h3, h4⟩ := ih (step.handle s h) (hist ++ [⟨step.call h, .ok s⟩])
      refine ⟨⟨step.call h, .ok s⟩ :: evs, by simp [h1], ?_, ?_, ?_⟩
      · intro ev hev
        rcases List.mem_cons.mp hev with hev | hev
        · subst hev; exact ⟨step, by simp, h, rfl⟩
        · obtain ⟨st, hst, h', hc⟩ := h2 ev hev
          exact ⟨st, by simp [hst], h', hc⟩
      · intro hn ev hev
        rcases List.mem_cons.mp hev with hev | hev
        · subst hev; exact ⟨s, rfl⟩
        · exact h3 hn ev hev
      · intro e he
        obtain ⟨c, hc⟩ := h4 e he
        exact ⟨c, by simp [hc]⟩

/-- A validated record: the three calls of `addA` / `addCName`, settled. -/
theorem replay_three_settled (d : Device) (kind o1 v1 o2 v2 h : String) (good : Prop)
    (hist : List UciEvent) :
    ∃ evs, (replay d [.add kind, .set o1 v1, .set o2 v2] h hist).2 = hist ++ evs ∧
      (∀ ev ∈ evs, LoopCall ev) ∧
      Settled good (outcomeOf (replay d [.add kind, .set o1 v1, .set o2 v2] h hist).1) evs := by
  obtain ⟨evs, h1, h2, h3, h4⟩ := replay_outcome d [.add kind, .set o1 v1, .set o2 v2] h hist
  refine ⟨evs, h1, ?_, ?_⟩
  · intro ev hev
    obtain ⟨st, hst, h', hc⟩ := h2 ev hev
    simp only [List.mem_cons, List.mem_singleton, List.not_mem_nil, or_false] at hst
    rcases hst with hst | hst | hst <;> subst hst
    · right; left; rw [hc]; rfl
    · right; right; rw [hc]; rfl
    · right; right; rw [hc]; rfl
  · cases hres : (replay d [.add kind, .set o1 v1, .set o2 v2] h hist).1 with
    | none => exact h3 hres
    | some e => exact Or.inl (h4 e hres)

theorem addA_settled (d : Device) (r : DNSRecord) (ht : r.Typ = "A") (hist : List UciEvent) :
    ∃ evs, ((addA d r).run hist).2 = hist ++ evs ∧ (∀ ev ∈ evs, LoopCall ev) ∧
      Settled (ValidRecord r) ((addA d r).run hist).1 evs := by
  by_cases hn : r.Name = ""
  · refine ⟨[], ?_, by simp, ?_⟩
    · simp [addA, ht, hn]
    · have : ((addA d r).run hist).1 = .err (.message "name is required") := by
        simp [addA, ht, hn]
      rw [this]
      right
      rintro (⟨_, h, _⟩ | ⟨h, _, _⟩)
      · exact h hn
      · rw [ht] at h; exact absurd h (by decide)
  · by_cases hi : r.IP = ""
    · refine ⟨[], ?_, by simp, ?_⟩
      · simp [addA, ht, hn, hi]
      · have : ((addA d r).run hist).1 = .err (.message "ip is required") := by
          simp [addA, ht, hn, hi]
        rw [this]
        right
        rintro (⟨_, _, h⟩ | ⟨h, _, _⟩)
        · exact h hi
        · rw [ht] at h; exact absurd h (by decide)
    · rw [run_addA d r "" hist (Or.inr ht) hn hi]
      exact replay_three_settled d _ _ _ _ _ _ _ hist

theorem addCName_settled (d : Device) (r : DNSRecord) (ht : r.Typ ≠ "A") (hist : List UciEvent) :
    ∃ evs, ((addCName d r).run hist).2 = hist ++ evs ∧ (∀ ev ∈ evs, LoopCall ev) ∧
      Settled (ValidRecord r) ((addCName d r).run hist).1 evs := by
  by_cases h0 : r.Typ ≠ "cname" ∧ r.Typ ≠ "CNAME"
  · refine ⟨[], ?_, by simp, ?_⟩
    · simp [addCName, h0]
    · have : ((addCName d r).run hist).1 = .err (.message ("invalid record type: " ++ r.Typ)) := by
        simp [addCName, h0]
      rw [this]
      right
      rintro (⟨h, _, _⟩ | ⟨h, _, _⟩)
      · exact ht h
      · exact h0.2 h
  · have htyp : r.Typ = "cname" ∨ r.Typ = "CNAME" := by
      by_contra hc; exact h0 ⟨fun h => hc (Or.inl h), fun h => hc (Or.inr h)⟩
    by_cases hn : r.CName = ""
    · refine ⟨[], ?_, by simp, ?_⟩
      · simp [addCName, h0, hn]
      · have : ((addCName d r).run hist).1 = .err (.message "cname is required") := by
          simp [addCName, h0, hn]
        rw [this]
        right
        rintro (⟨h, _, _⟩ | ⟨_, h, _⟩)
        · exact ht h
        · exact h hn
    · by_cases hi : r.Target = ""
      · refine ⟨[], ?_, by simp, ?_⟩
        · simp [addCName, h0, hn, hi]
        · have : ((addCName d r).run hist).1 = .err (.message "target is required") := by
            simp [addCName, h0, hn, hi]
          rw [this]
          right
          rintro (⟨h, _, _⟩ | ⟨_, _, h⟩)
          · exact ht h
          · exact h hi
      · rw [run_addCName d r "" hist htyp hn hi]
        exact replay_three_settled d _ _ _ _ _ _ _ hist

theorem uci_delete_settled (d : Device) (cfg : String) (good : Prop) (hist : List UciEvent) :
    ∃ evs, ((uci d "delete" ["dhcp", cfg]).run hist).2 = hist ++ evs ∧
      (∀ ev ∈ evs, LoopCall ev) ∧ evs ≠ [] ∧
      Settled good ((uci d "delete" ["dhcp", cfg]).run hist).1 evs := by
  rw [run_uci]
  refine ⟨[⟨⟨"delete", ["dhcp", cfg]⟩, d.lucirpc hist ⟨"delete", ["dhcp", cfg]⟩⟩], rfl, ?_, by simp, ?_⟩
  · intro ev hev
    simp only [List.mem_singleton] at hev
    subst hev
    left; rfl
  · cases hr : d.lucirpc hist ⟨"delete", ["dhcp", cfg]⟩ with
    | ok s => intro ev hev; simp only [List.mem_singleton] at hev; subst hev; exact ⟨s, rfl⟩
    | error e => exact Or.inl ⟨⟨"delete", ["dhcp", cfg]⟩, by simp⟩

/-- Sequencing two settled runs gives a settled run. -/
theorem settled_bind {α β : Type} (good : Prop) (m : Run α) (f : α → Run β)
    (hist : List UciEvent)
    (hm : ∃ evs, (m.run hist).2 = hist ++ evs ∧ (∀ ev ∈ evs, LoopCall ev) ∧
      Settled good (m.run hist).1 evs)
    (hf : ∀ a hist', ∃ evs, ((f a).run hist').2 = hist' ++ evs ∧ (∀ ev ∈ evs, LoopCall ev) ∧
      Settled good ((f a).run hist').1 evs) :
    ∃ evs, ((m >>= f).run hist).2 = hist ++ evs ∧ (∀ ev ∈ evs, LoopCall ev) ∧
      Settled good ((m >>= f).run hist).1 evs := by
  obtain ⟨evs, h1, h2, h3⟩ := hm
  rw [run_bind]
  rcases hrun : m.run hist with ⟨out, hist'⟩
  rw [hrun] at h1 h3
  simp only [] at h1 h3
  subst h1
  cases out with
  | err e => exact ⟨evs, rfl, h2, h3⟩
  | panic t => exact absurd h3 (by simp [Settled])
  | ok a =>
    simp only []
    obtain ⟨evs', g1, g2, g3⟩ := hf a (hist ++ evs)
    refine ⟨evs ++ evs', by rw [g1, List.append_assoc], ?_, ?_⟩
    · intro ev hev
      rcases List.mem_append.mp hev with hev | hev
      · exact h2 ev hev
      · exact g2 ev hev
    · cases hout : ((f a).run (hist ++ evs)).1 with
      | ok b =>
        rw [hout] at g3
        intro ev hev
        rcases List.mem_append.mp hev with hev | hev
        · exact h3 ev hev
        · exact g3 ev hev
      | err e =>
        rw [hout] at g3
        rcases g3 with ⟨c, hc⟩ | hg
        · exact Or.inl ⟨c, List.mem_append_right _ hc⟩
        · exact Or.inr hg
      | panic t => rw [hout] at g3; exact absurd g3 (by simp [Settled])

theorem updateAct_spec (d : Device) : ActSpec (updateAct d) ValidRecord := by
  intro cfg r hist
  unfold updateAct
  apply settled_bind
  · obtain ⟨evs, h1, h2, _, h4⟩ := uci_delete_settled d cfg (ValidRecord r) hist
    exact ⟨evs, h1, h2, h4⟩
  · intro _ hist'
    by_cases ht : r.Typ = "A"
    · rw [if_pos ht]; exact addA_settled d r ht hist'
    · rw [if_neg ht]; exact addCName_settled d r ht hist'

theorem deleteAct_spec (d : Device) : ActSpec (deleteAct d) (fun _ => True) := by
  intro cfg r hist
  unfold deleteAct
  apply settled_bind
  · obtain ⟨evs, h1, h2, _, h4⟩ := uci_delete_settled d cfg True hist
    exact ⟨evs, h1, h2, h4⟩
  · intro _ hist'
    exact ⟨[], by simp, by simp, by simp [Settled]⟩

theorem matchedBy_cons (cur : GoMap) (cfg : String) (rest : List String) (r : DNSRecord) :
    matchedBy cur (cfg :: rest) r =
      ((match cur cfg with
        | none => false
        | some c => decide (Matches r c)) || matchedBy cur rest r) := by
  simp [matchedBy]

theorem matchedBy_iff (cur : GoMap) (order : List String) (r : DNSRecord) :
    matchedBy cur order r = true ↔ ∃ cfg ∈ order, ∃ c, cur cfg = some c ∧ Matches r c := by
  unfold matchedBy
  rw [List.any_eq_true]
  constructor
  · rintro ⟨cfg, hcfg, h⟩
    cases hc : cur cfg with
    | none => rw [hc] at h; cases h
    | some c => rw [hc] at h; exact ⟨cfg, hcfg, c, hc, by simpa using h⟩
  · rintro ⟨cfg, hcfg, c, hc, hm⟩
    exact ⟨cfg, hcfg, by rw [hc]; simpa using hm⟩

/-- Stage two: what first-match reconciliation leaves pending.  The calls are
`delete`, `add` and `set` only; on normal completion every call succeeded and
the pending list is the input without the records that match a current entry;
an error is the error of a failed call or comes from a matched record that is
not `good`; there is no panic. -/
theorem specOuter_settled (act : String → DNSRecord → Run Unit) (good : DNSRecord → Prop)
    (hact : ActSpec act good) (cur : GoMap) (order : List String) (pending : List DNSRecord)
    (hone : SingleMatch cur order pending) (hist : List UciEvent) :
    ∃ evs, ((specOuter act cur order pending).run hist).2 = hist ++ evs ∧
      (∀ ev ∈ evs, LoopCall ev) ∧
      match ((specOuter act cur order pending).run hist).1 with
      | .ok left =>
        left = pending.filter (fun r => !matchedBy cur order r) ∧
          ∀ ev ∈ evs, ∃ s, ev.reply = .ok s
      | .err e =>
        (∃ c, (⟨c, .error e⟩ : UciEvent) ∈ evs) ∨
          ∃ r ∈ pending, matchedBy cur order r = true ∧ ¬ good r
      | .panic _ => False := by
  induction order generalizing pending hist with
  | nil =>
    refine ⟨[], by simp [specOuter], by simp, ?_⟩
    simp [specOuter, matchedBy]
  | cons cfg rest ih =>
    rw [run_specOuter_cons]
    cases hc : cur cfg with
    | none =>
      simp only []
      obtain ⟨evs, h1, h2, h3⟩ := ih pending hone.tail hist
      refine ⟨evs, h1, h2, ?_⟩
      have hmb : ∀ r, matchedBy cur (cfg :: rest) r = matchedBy cur rest r := by
        intro r; rw [matchedBy_cons, hc]; rfl
      simp only [hmb]
      exact h3
    | some c =>
      simp only []
      have hmb : ∀ r, matchedBy cur (cfg :: rest) r
          = (decide (Matches r c) || matchedBy cur rest r) := by
        intro r; rw [matchedBy_cons, hc]
      cases hfind : pending.find? (fun r => decide (Matches r c)) with
      | none =>
        simp only []
        obtain ⟨evs, h1, h2, h3⟩ := ih pending hone.tail hist
        refine ⟨evs, h1, h2, ?_⟩
        have hno : ∀ r ∈ pending, decide (Matches r c) = false := by
          intro r hr
          have := List.find?_eq_none.mp hfind r hr
          simpa using this
        cases hout : ((specOuter act cur rest pending).run hist).1 with
        | ok left =>
          rw [hout] at h3
          refine ⟨?_, h3.2⟩
          rw [h3.1]
          apply List.filter_congr
          intro r hr
          rw [hmb, hno r hr]; rfl
        | err e =>
          rw [hout] at h3
          rcases h3 with h3 | ⟨r, hr, hm, hg⟩
          · exact Or.inl h3
          · exact Or.inr ⟨r, hr, by rw [hmb, hm]; simp, hg⟩
        | panic t => rw [hout] at h3; exact h3
      | some r =>
        simp only []
        have hrmem : r ∈ pending := List.mem_of_find?_eq_some hfind
        have hrm : decide (Matches r c) = true := by
          have := List.find?_some hfind
          simpa using this
        have herase := eraseP_eq_filter (fun r => decide (Matches r c)) pending
          (hone cfg (by simp) c hc)
        have hsub : SingleMatch cur rest (pending.eraseP (fun r => decide (Matches r c))) :=
          SingleMatch.sublist hone.tail (List.eraseP_sublist _)
        obtain ⟨evs, a1, a2, a3⟩ := hact cfg r hist
        rw [run_bind]
        rcases hrun : (act cfg r).run hist with ⟨out, hist'⟩
        rw [hrun] at a1 a3
        simp only [] at a1 a3
        subst a1
        cases out with
        | panic t => exact absurd a3 (by simp [Settled])
        | err e =>
          refine ⟨evs, rfl, a2, ?_⟩
          rcases a3 with a3 | a3
          · exact Or.inl a3
          · exact Or.inr ⟨r, hrmem, by rw [hmb, hrm]; rfl, a3⟩
        | ok u =>
          simp only []
          obtain ⟨evs', h1, h2, h3⟩ :=
            ih (pending.eraseP (fun r => decide (Matches r c))) hsub (hist ++ evs)
          refine ⟨evs ++ evs', by rw [h1, List.append_assoc], ?_, ?_⟩
          · intro ev hev
            rcases List.mem_append.mp hev with hev | hev
            · exact a2 ev hev
            · exact h2 ev hev
          · cases hout : ((specOuter act cur rest
                (pending.eraseP (fun r => decide (Matches r c)))).run (hist ++ evs)).1 with
            | ok left =>
              rw [hout] at h3
              refine ⟨?_, ?_⟩
              · rw [h3.1, herase, List.filter_filter]
                apply List.filter_congr
                intro x _
                rw [hmb]
                beta_reduce
                cases decide (Matches x c) <;> cases matchedBy cur rest x <;> rfl
              · intro ev hev
                rcases List.mem_append.mp hev with hev | hev
                · exact a3 ev hev
                · exact h3.2 ev hev
            | err e =>
              rw [hout] at h3
              rcases h3 with ⟨c', hc'⟩ | ⟨x, hx, hm, hg⟩
              · exact Or.inl ⟨c', List.mem_append_right _ hc'⟩
              · exact Or.inr ⟨x, (List.eraseP_sublist _).subset hx, by rw [hmb, hm]; simp, hg⟩
            | panic t => rw [hout] at h3; exact h3

/-! ## UpdateDNSRecords and DeleteDNSRecords: records that are not found -/

theorem UpdateDNSRecords_eq (d : Device) (order order' : List String) (xs : List DNSRecord) :
    UpdateDNSRecords d order order' xs =
      (GetDNSRecords d order >>= fun cur =>
        updateOuter d cur order' ⟨xs, xs.length⟩ >>= finish d) := rfl

theorem DeleteDNSRecords_eq (d : Device) (order order' : List String) (xs : List DNSRecord) :
    DeleteDNSRecords d order order' xs =
      (GetDNSRecords d order >>= fun cur =>
        deleteOuter d cur order' ⟨xs, xs.length⟩ >>= finish d) := rfl

theorem initial_slice (xs : List DNSRecord) :
    (⟨xs, xs.length⟩ : Slice).WF ∧ (⟨xs, xs.length⟩ : Slice).elems = xs :=
  ⟨le_refl _, List.take_length xs⟩

/-- The loop, then the common tail, when some pending record matches no
current entry and no call fails: the not-found error, and no commit. -/
theorem finish_not_found (d : Device) (act : String → DNSRecord → Run Unit)
    (good : DNSRecord → Prop) (hact : ActSpec act good) (cur : GoMap) (order : List String)
    (xs : List DNSRecord) (loop : Run Slice) (hist : List UciEvent)
    (hagree : Agree (loop.run hist) ((specOuter act cur order xs).run hist))
    (hone : SingleMatch cur order xs)
    (hgood : ∀ r ∈ xs, matchedBy cur order r = true → good r)
    (hsome : ∃ r ∈ xs, matchedBy cur order r = false)
    (hnofail : ∀ ev ∈ ((loop >>= finish d).run hist).2, ∃ t, ev.reply = .ok t) :
    ((loop >>= finish d).run hist).1 =
        .err (.message ("records not found: " ++
          fmtRecords (xs.filter (fun r => !matchedBy cur order r)))) ∧
      ∃ evs, ((loop >>= finish d).run hist).2 = hist ++ evs ∧ ∀ ev ∈ evs, LoopCall ev := by
  obtain ⟨evs, h1, h2, h3⟩ := specOuter_settled act good hact cur order xs hone hist
  obtain ⟨a1, a2⟩ := hagree
  rw [run_bind] at hnofail ⊢
  rcases hloop : loop.run hist with ⟨out, hist'⟩
  rcases hspec : (specOuter act cur order xs).run hist with ⟨out', hist''⟩
  rw [hloop, hspec] at a1 a2
  rw [hspec] at h1 h3
  rw [hloop] at hnofail
  simp only [] at a1 a2 h1 h3 hnofail ⊢
  subst a1
  subst h1
  cases out' with
  | panic t => exact absurd h3 (by simp)
  | err e =>
    cases out with
    | ok s' => exact absurd a2 (by simp)
    | panic t => exact absurd a2 (by simp)
    | err e' =>
      simp only [] at a2 hnofail
      subst a2
      exfalso
      rcases h3 with ⟨c, hc⟩ | ⟨r, hr, hm, hg⟩
      · obtain ⟨t, ht⟩ := hnofail _ (List.mem_append_right _ hc)
        cases ht
      · exact hg (hgood r hr hm)
  | ok left =>
    cases out with
    | err e => exact absurd a2 (by simp)
    | panic t => exact absurd a2 (by simp)
    | ok s' =>
      simp only [] at a2 h3 ⊢
      obtain ⟨hwf, hel⟩ := a2
      obtain ⟨r, hr, hm⟩ := hsome
      have hmem : r ∈ s'.elems := by
        rw [hel, h3.1]
        exact List.mem_filter.mpr ⟨hr, by rw [hm]; rfl⟩
      have hlen : s'.len > 0 := by
        rw [← Slice.length_elems s' hwf]
        exact List.length_pos_of_mem hmem
      unfold finish
      rw [if_pos hlen, hel, h3.1]
      exact ⟨rfl, evs, rfl, h2⟩

theorem GetDNSRecords_trace (d : Device) (order : List String) (hist hist₁ : List UciEvent)
    (cur : GoMap) (hget : (GetDNSRecords d order).run hist = (.ok cur, hist₁)) :
    ∃ t, hist₁ = hist ++ [⟨⟨"get_all", ["dhcp"]⟩, .ok t⟩] := by
  unfold GetDNSRecords at hget
  rw [run_bind, run_uci] at hget
  cases hr : d.lucirpc hist ⟨"get_all", ["dhcp"]⟩ with
  | error e => rw [hr] at hget; cases hget
  | ok t =>
    rw [hr] at hget
    simp only [] at hget
    refine ⟨t, ?_⟩
    cases hu : d.unmarshal t with
    | error text => rw [hu] at hget; cases hget
    | ok records =>
      rw [hu] at hget
      simp only [run_pure, Prod.mk.injEq] at hget
      exact hget.2.symm

theorem singleMatch_of (cur : GoMap) (order : List String) (xs : List DNSRecord)
    (hone : ∀ cfg c, cur cfg = some c → (xs.filter (fun r => decide (Matches r c))).length ≤ 1) :
    SingleMatch cur order xs :=
  fun cfg _ c hc => hone cfg c hc

theorem matchedBy_iff_entry (cur : GoMap) (order : List String)
    (horder : ∀ k, k ∈ order ↔ (cur k).isSome) (r : DNSRecord) :
    matchedBy cur order r = true ↔ ∃ cfg c, cur cfg = some c ∧ Matches r c := by
  rw [matchedBy_iff]
  constructor
  · rintro ⟨cfg, _, c, hc, hm⟩; exact ⟨cfg, c, hc, hm⟩
  · rintro ⟨cfg, c, hc, hm⟩
    exact ⟨cfg, (horder cfg).mpr (by rw [hc]; rfl), c, hc, hm⟩

theorem matchedBy_false_iff_entry (cur : GoMap) (order : List String)
    (horder : ∀ k, k ∈ order ↔ (cur k).isSome) (r : DNSRecord) :
    matchedBy cur order r = false ↔ ∀ cfg c, cur cfg = some c → ¬ Matches r c := by
  rw [← Bool.not_eq_true, matchedBy_iff_entry cur order horder]
  constructor
  · intro h cfg c hc hm; exact h ⟨cfg, c, hc, hm⟩
  · rintro h ⟨cfg, c, hc, hm⟩; exact h cfg c hc hm

/-- The not-found outcome, stated with the matching rule the loops apply
(`Matches`, which looks at the wanted record's type and key only).  Let `cur` be
the current records returned by `GetDNSRecords`, visited in any order, and let
no current entry satisfy the rule with more than one wanted record.  If some
wanted record satisfies the rule with no current entry and no call fails, then
`DeleteDNSRecords` fails with "records not found: <list>", the list being those
wanted records in input order, and issues no commit; the same holds for
`UpdateDNSRecords` provided every wanted record that satisfies the rule with a
current entry is valid. -/
theorem reconcile_not_found_by_rule (d : Device) (order order' : List String)
    (xs : List DNSRecord) (cur : GoMap) (hist₁ : List UciEvent)
    (hget : (GetDNSRecords d order).run [] = (.ok cur, hist₁))
    (horder' : ∀ k, k ∈ order' ↔ (cur k).isSome)
    (hone : ∀ cfg c, cur cfg = some c → (xs.filter (fun r => decide (Matches r c))).length ≤ 1)
    (hsome : ∃ r ∈ xs, ∀ cfg c, cur cfg = some c → ¬ Matches r c) :
    (∀ r, r ∈ xs.filter (fun r => !matchedBy cur order' r) ↔
      r ∈ xs ∧ ∀ cfg c, cur cfg = some c → ¬ Matches r c) ∧
    ((∀ ev ∈ ((DeleteDNSRecords d order order' xs).run []).2, ∃ t, ev.reply = .ok t) →
      ((DeleteDNSRecords d order order' xs).run []).1 =
          .err (.message ("records not found: " ++
            fmtRecords (xs.filter (fun r => !matchedBy cur order' r)))) ∧
        ∀ ev ∈ ((DeleteDNSRecords d order order' xs).run []).2, ev.call.method ≠ "commit") ∧
    ((∀ r ∈ xs, (∃ cfg c, cur cfg = some c ∧ Matches r c) → ValidRecord r) →
      (∀ ev ∈ ((UpdateDNSRecords d order order' xs).run []).2, ∃ t, ev.reply = .ok t) →
      ((UpdateDNSRecords d order order' xs).run []).1 =
          .err (.message ("records not found: " ++
            fmtRecords (xs.filter (fun r => !matchedBy cur order' r)))) ∧
        ∀ ev ∈ ((UpdateDNSRecords d order order' xs).run []).2, ev.call.method ≠ "commit") := by
  obtain ⟨t, ht⟩ := GetDNSRecords_trace d order [] hist₁ cur hget
  have hsm : SingleMatch cur order' xs := singleMatch_of cur order' xs hone
  have hsome' : ∃ r ∈ xs, matchedBy cur order' r = false := by
    obtain ⟨r, hr, h⟩ := hsome
    exact ⟨r, hr, (matchedBy_false_iff_entry cur order' horder' r).mpr h⟩
  have hnc : ∀ evs : List UciEvent, (∀ ev ∈ evs, LoopCall ev) →
      ∀ ev ∈ hist₁ ++ evs, ev.call.method ≠ "commit" := by
    intro evs hevs ev hev
    rcases List.mem_append.mp hev with hev | hev
    · rw [ht] at hev
      simp only [List.nil_append, List.mem_singleton] at hev
      subst hev
      show ("get_all" : String) ≠ "commit"
      decide
    · rcases hevs ev hev with h | h | h <;> rw [h] <;> decide
  obtain ⟨hwf, hel⟩ := initial_slice xs
  refine ⟨?_, ?_, ?_⟩
  · intro r
    rw [List.mem_filter, Bool.not_eq_true', matchedBy_false_iff_entry cur order' horder']
  · intro hnofail
    rw [DeleteDNSRecords_eq, run_bind_ok hget] at hnofail ⊢
    have hagree := deleteOuter_refines d cur order' ⟨xs, xs.length⟩ hwf (by rw [hel]; exact hsm) hist₁
    rw [hel] at hagree
    obtain ⟨h1, evs, h2, h3⟩ := finish_not_found d (deleteAct d) (fun _ => True)
      (deleteAct_spec d) cur order' xs _ hist₁ hagree hsm (fun _ _ _ => trivial) hsome' hnofail
    refine ⟨h1, ?_⟩
    rw [h2]
    exact hnc evs h3
  · intro hvalid hnofail
    rw [UpdateDNSRecords_eq, run_bind_ok hget] at hnofail ⊢
    have hagree := updateOuter_refines d cur order' ⟨xs, xs.length⟩ hwf (by rw [hel]; exact hsm) hist₁
    rw [hel] at hagree
    obtain ⟨h1, evs, h2, h3⟩ := finish_not_found d (updateAct d) ValidRecord
      (updateAct_spec d) cur order' xs _ hist₁ hagree hsm
      (fun r hr hm => hvalid r hr ((matchedBy_iff_entry cur order' horder' r).mp hm))
      hsome' hnofail
    refine ⟨h1, ?_⟩
    rw [h2]
    exact hnc evs h3

theorem sampleCurrent_apply (k : String) :
    sampleCurrent k =
      if k = "x" then some ⟨"A", "1.1.1.1", "foobar", "", ""⟩
      else if k = "y" then some ⟨"CNAME", "", "", "foobar", "bar.foo.com"⟩
      else none := by
  unfold sampleCurrent
  rw [getLoop_apply _ (by decide)]
  unfold sampleSnapshot
  by_cases hx : k = "x"
  · subst hx; decide
  · by_cases hy : k = "y"
    · subst hy; decide
    · by_cases hz : k = "z"
      · subst hz; decide
      · simp [hx, hy, hz]

theorem sampleCurrent_keys (k : String) : k ∈ ["x", "y"] ↔ (sampleCurrent k).isSome := by
  rw [sampleCurrent_apply]
  by_cases hx : k = "x"
  · simp [hx]
  · by_cases hy : k = "y"
    · simp [hy]
    · simp [hx, hy]

theorem sampleCurrent_entry (cfg : String) (c : DNSRecord) (h : sampleCurrent cfg = some c) :
    c = ⟨"A", "1.1.1.1", "foobar", "", ""⟩ ∨ c = ⟨"CNAME", "", "", "foobar", "bar.foo.com"⟩ := by
  rw [sampleCurrent_apply] at h
  by_cases hx : cfg = "x"
  · rw [if_pos hx] at h; left; exact (Option.some.inj h).symm
  · rw [if_neg hx] at h
    by_cases hy : cfg = "y"
    · rw [if_pos hy] at h; right; exact (Option.some.inj h).symm
    · rw [if_neg hy] at h; cases h

/-- C7 (counterexample to the claim as stated). The second wanted record has no
current entry of its type and identity key and every call succeeds, but the
first one is the A record of the entry `x` and lacks its ip: `UpdateDNSRecords` deletes `x` and then fails with
"ip is required", not with "records not found". -/
theorem UpdateDNSRecords_unmatched_without_not_found :
    (UpdateDNSRecords (sampleDevice sampleSnapshot) ["x", "y", "z"] ["x", "y"]
        [⟨"A", "", "foobar", "", ""⟩, ⟨"A", "3.3.3.3", "whatever", "", ""⟩]).run []
      = (.err (.message "ip is required"),
          [⟨⟨"get_all", ["dhcp"]⟩, .ok ""⟩, ⟨⟨"delete", ["dhcp", "x"]⟩, .ok ""⟩]) ∧
    hasEntry sampleCurrent ["x", "y"] ⟨"A", "3.3.3.3", "whatever", "", ""⟩ = false := by
  decide

/-! ## DeleteDNSRecords with nothing to delete -/

theorem deleteOuter_empty (d : Device) (cur : GoMap) (order : List String)
    (hist : List UciEvent) :
    (deleteOuter d cur order ⟨[], 0⟩).run hist = (.ok ⟨[], 0⟩, hist) := by
  induction order with
  | nil => rfl
  | cons cfg rest ih =>
    rw [run_deleteOuter_cons]
    cases cur cfg with
    | none => exact ih
    | some c =>
      simp only []
      rw [run_bind]
      show (match (deleteInner d cfg c [] ⟨[], 0⟩).run hist with
        | (.ok a, hist') => (deleteOuter d cur rest a).run hist'
        | (.err e, hist') => (.err e, hist')
        | (.panic text, hist') => (.panic text, hist')) = _
      exact ih

/-- C10. Whatever the current snapshot and whatever the order in which the
entries are visited, `DeleteDNSRecords` with an empty list issues `get_all dhcp`
and then one `commit dhcp` and nothing else, in particular no delete; its
result is the result of the commit, so it succeeds whenever both calls
succeed. -/
theorem DeleteDNSRecords_empty_commits (d : Device) (order order' : List String) (s : String)
    (records : GoMap)
    (hreply : d.lucirpc [] ⟨"get_all", ["dhcp"]⟩ = .ok s)
    (hdec : d.unmarshal s = .ok records) :
    ((DeleteDNSRecords d order order' []).run []).2 =
        [⟨⟨"get_all", ["dhcp"]⟩, .ok s⟩,
         ⟨⟨"commit", ["dhcp"]⟩,
           d.lucirpc [⟨⟨"get_all", ["dhcp"]⟩, .ok s⟩] ⟨"commit", ["dhcp"]⟩⟩] ∧
    (∀ e, d.lucirpc [⟨⟨"get_all", ["dhcp"]⟩, .ok s⟩] ⟨"commit", ["dhcp"]⟩ = .error e →
      ((DeleteDNSRecords d order order' []).run []).1 = .err e) ∧
    (∀ t, d.lucirpc [⟨⟨"get_all", ["dhcp"]⟩, .ok s⟩] ⟨"commit", ["dhcp"]⟩ = .ok t →
      ((DeleteDNSRecords d order order' []).run []).1 = .ok ()) := by
  have hget := run_GetDNSRecords order hreply hdec
  have hrun : (DeleteDNSRecords d order order' []).run [] =
      (uci d "commit" ["dhcp"] >>= fun _ => (pure () : Run Unit)).run
        [⟨⟨"get_all", ["dhcp"]⟩, .ok s⟩] := by
    rw [DeleteDNSRecords_eq, run_bind_ok hget]
    show (deleteOuter d (getLoop order records) order' ⟨[], 0⟩ >>= finish d).run _ = _
    rw [run_bind_ok (deleteOuter_empty d _ order' _)]
    rfl
  rw [hrun, run_bind, run_uci]
  cases d.lucirpc [⟨⟨"get_all", ["dhcp"]⟩, .ok s⟩] ⟨"commit", ["dhcp"]⟩ with
  | ok t =>
    refine ⟨rfl, ?_, ?_⟩
    · intro e he; cases he
    · intro _ _; rfl
  | error e =>
    refine ⟨rfl, ?_, ?_⟩
    · intro e' he; cases he; rfl
    · intro _ ht; cases ht

theorem DeleteDNSRecords_empty_commits_witness :
    ((DeleteDNSRecords (sampleDevice sampleSnapshot) ["x", "y", "z"] ["y", "x"] []).run []).2 =
        [⟨⟨"get_all", ["dhcp"]⟩, .ok ""⟩, ⟨⟨"commit", ["dhcp"]⟩, .ok ""⟩] ∧
    ((DeleteDNSRecords (sampleDevice sampleSnapshot) ["x", "y", "z"] ["y", "x"] []).run []).1
      = .ok () :=
  ⟨(DeleteDNSRecords_empty_commits (sampleDevice sampleSnapshot) ["x", "y", "z"] ["y", "x"] ""
      sampleSnapshot rfl rfl).1,
   (DeleteDNSRecords_empty_commits (sampleDevice sampleSnapshot) ["x", "y", "z"] ["y", "x"] ""
      sampleSnapshot rfl rfl).2.2 "" rfl⟩

/-! ## UpdateDNSRecords when every wanted record has its entry -/

theorem updateAct_block (d : Device) (hok : ∀ hist c, ∃ t, d.lucirpc hist c = .ok t)
    (cfg : String) (r : DNSRecord) (hv : ValidRecord r) (hist : List UciEvent) :
    ∃ b : Block, b.cfg = cfg ∧ b.record = r ∧
      (updateAct d cfg r).run hist = (.ok (), hist ++ b.events) := by
  obtain ⟨t₁, h₁⟩ := hok hist ⟨"delete", ["dhcp", cfg]⟩
  unfold updateAct
  rw [run_bind_ok (run_uci_ok h₁)]
  rcases hv with ⟨ht, hn, hi⟩ | ⟨ht, hn, hi⟩
  · rw [if_pos ht, run_addA d r "" _ (Or.inr ht) hn hi]
    simp only [replay, Step.call, Step.handle]
    obtain ⟨t₂, h₂⟩ := hok (hist ++ [⟨⟨"delete", ["dhcp", cfg]⟩, .ok t₁⟩]) ⟨"add", ["dhcp", "domain"]⟩
    rw [h₂]
    simp only []
    obtain ⟨t₃, h₃⟩ := hok (hist ++ [⟨⟨"delete", ["dhcp", cfg]⟩, .ok t₁⟩] ++
      [⟨⟨"add", ["dhcp", "domain"]⟩, .ok t₂⟩]) ⟨"set", ["dhcp", t₂, "name", r.Name]⟩
    rw [h₃]
    simp only []
    obtain ⟨t₄, h₄⟩ := hok (hist ++ [⟨⟨"delete", ["dhcp", cfg]⟩, .ok t₁⟩] ++
      [⟨⟨"add", ["dhcp", "domain"]⟩, .ok t₂⟩] ++
      [⟨⟨"set", ["dhcp", t₂, "name", r.Name]⟩, .ok t₃⟩]) ⟨"set", ["dhcp", t₂, "ip", r.IP]⟩
    rw [h₄]
    refine ⟨⟨cfg, r, t₂, t₁, t₃, t₄⟩, rfl, rfl, ?_⟩
    simp [Block.events, ht, outcomeOf]
  · have hA : ¬ r.Typ = "A" := by rw [ht]; decide
    rw [if_neg hA, run_addCName d r "" _ (Or.inr ht) hn hi]
    simp only [replay, Step.call, Step.handle]
    obtain ⟨t₂, h₂⟩ := hok (hist ++ [⟨⟨"delete", ["dhcp", cfg]⟩, .ok t₁⟩]) ⟨"add", ["dhcp", "cname"]⟩
    rw [h₂]
    simp only []
    obtain ⟨t₃, h₃⟩ := hok (hist ++ [⟨⟨"delete", ["dhcp", cfg]⟩, .ok t₁⟩] ++
      [⟨⟨"add", ["dhcp", "cname"]⟩, .ok t₂⟩]) ⟨"set", ["dhcp", t₂, "cname", r.CName]⟩
    rw [h₃]
    simp only []
    obtain ⟨t₄, h₄⟩ := hok (hist ++ [⟨⟨"delete", ["dhcp", cfg]⟩, .ok t₁⟩] ++
      [⟨⟨"add", ["dhcp", "cname"]⟩, .ok t₂⟩] ++
      [⟨⟨"set", ["dhcp", t₂, "cname", r.CName]⟩, .ok t₃⟩]) ⟨"set", ["dhcp", t₂, "target", r.Target]⟩
    rw [h₄]
    refine ⟨⟨cfg, r, t₂, t₁, t₃, t₄⟩, rfl, rfl, ?_⟩
    simp [Block.events, hA, outcomeOf]

/-- First-match reconciliation on a device whose calls all succeed, with valid
records: a sequence of blocks, one per entry that has a match, in the order the
entries are visited. -/
theorem specOuter_blocks (d : Device) (hok : ∀ hist c, ∃ t, d.lucirpc hist c = .ok t)
    (cur : GoMap) (order : List String) (pending : List DNSRecord)
    (hone : SingleMatch cur order pending) (hvalid : ∀ r ∈ pending, ValidRecord r)
    (hist : List UciEvent) :
    ∃ blocks : List Block,
      (specOuter (updateAct d) cur order pending).run hist =
        (.ok (pending.filter (fun r => !matchedBy cur order r)), hist ++ traceOf blocks) ∧
      (blocks.map (·.cfg)).Sublist order ∧
      (∀ b ∈ blocks, ∃ c, cur b.cfg = some c ∧ Matches b.record c) ∧
      (blocks.map (·.record) ++ pending.filter (fun r => !matchedBy cur order r)).Perm pending := by
  induction order generalizing pending hist with
  | nil =>
    refine ⟨[], ?_, by simp, by simp, ?_⟩
    · simp [specOuter, matchedBy, traceOf]
    · simp [matchedBy]
  | cons cfg rest ih =>
    rw [run_specOuter_cons]
    cases hc : cur cfg with
    | none =>
      simp only []
      have hmb : ∀ r, matchedBy cur (cfg :: rest) r = matchedBy cur rest r := by
        intro r; rw [matchedBy_cons, hc]; rfl
      obtain ⟨blocks, h1, h2, h3, h4⟩ := ih pending hone.tail hvalid hist
      simp only [hmb]
      exact ⟨blocks, h1, h2.cons cfg, h3, h4⟩
    | some c =>
      simp only []
      have hmb : ∀ r, matchedBy cur (cfg :: rest) r
          = (decide (Matches r c) || matchedBy cur rest r) := by
        intro r; rw [matchedBy_cons, hc]
      have h1 := hone cfg (by simp) c hc
      rcases filter_le_one_split _ _ h1 with hnone | ⟨pre, r, post, e, hr, hpre, hpost⟩
      · have hfind : pending.find? (fun r => decide (Matches r c)) = none :=
          List.find?_eq_none.mpr (fun x hx => by rw [hnone x hx]; simp)
        rw [hfind]
        simp only []
        obtain ⟨blocks, g1, g2, g3, g4⟩ := ih pending hone.tail hvalid hist
        have hfilter : pending.filter (fun r => !matchedBy cur (cfg :: rest) r)
            = pending.filter (fun r => !matchedBy cur rest r) := by
          apply List.filter_congr
          intro x hx
          rw [hmb, hnone x hx]; rfl
        rw [hfilter]
        exact ⟨blocks, g1, g2.cons cfg, g3, g4⟩
      · obtain ⟨hfind, herase⟩ := find?_of_split _ pre post r hr hpre
        rw [e, hfind, herase]
        simp only []
        have hsub : (pre ++ post).Sublist pending := by
          rw [e]; exact List.Sublist.append_left (List.sublist_cons_self r post) pre
        have hrmem : r ∈ pending := by rw [e]; simp
        obtain ⟨b, hb1, hb2, hb3⟩ := updateAct_block d hok cfg r (hvalid r hrmem) hist
        obtain ⟨blocks, g1, g2, g3, g4⟩ := ih (pre ++ post) (SingleMatch.sublist hone.tail hsub)
          (fun x hx => hvalid x (hsub.subset hx)) (hist ++ b.events)
        have hfilter : (pre ++ r :: post).filter (fun r => !matchedBy cur (cfg :: rest) r)
            = (pre ++ post).filter (fun r => !matchedBy cur rest r) := by
          have hr' : (!matchedBy cur (cfg :: rest) r) = false := by rw [hmb, hr]; rfl
          have hp1 : ∀ x ∈ pre, (!matchedBy cur (cfg :: rest) x) = !matchedBy cur rest x := by
            intro x hx; rw [hmb, hpre x hx]; rfl
          have hp2 : ∀ x ∈ post, (!matchedBy cur (cfg :: rest) x) = !matchedBy cur rest x := by
            intro x hx; rw [hmb, hpost x hx]; rfl
          rw [List.filter_append, List.filter_cons, hr', List.filter_append,
            List.filter_congr hp1, List.filter_congr hp2]
          rfl
        rw [hfilter]
        refine ⟨b :: blocks, ?_, ?_, ?_, ?_⟩
        · rw [run_bind_ok hb3, g1]
          simp [traceOf, List.append_assoc]
        · simp only [List.map_cons, hb1]
          exact g2.cons₂ cfg
        · intro x hx
          rcases List.mem_cons.mp hx with hx | hx
          · subst hx
            rw [hb1, hb2]
            exact ⟨c, hc, by simpa using hr⟩
          · exact g3 x hx
        · simp only [List.map_cons, List.cons_append, hb2]
          exact (List.Perm.cons r g4).trans List.perm_middle.symm

/-- The current records `GetDNSRecords` returns are normalised: an entry is of
type A without cname or of type CNAME without name. -/
theorem getLoop_normalized (order : List String) (records : GoMap) (hnodup : order.Nodup)
    (hkeys : ∀ k, k ∈ order ↔ (records k).isSome) (cfg : String) (c : DNSRecord)
    (hc : getLoop order records cfg = some c) :
    (c.Typ = "A" ∧ c.CName = "") ∨ (c.Typ = "CNAME" ∧ c.Name = "") := by
  rw [getLoop_apply order hnodup] at hc
  by_cases hmem : cfg ∈ order
  · rw [if_pos hmem] at hc
    cases hrec : records cfg with
    | none => rw [hrec] at hc; cases hc
    | some r0 =>
      rw [hrec] at hc
      simp only [Option.some_bind, normalize] at hc
      split at hc
      · cases hc; left; exact ⟨rfl, rfl⟩
      · split at hc
        · cases hc; right; exact ⟨rfl, rfl⟩
        · cases hc
  · rw [if_neg hmem] at hc
    have := (hkeys cfg).mpr (by rw [hc]; rfl)
    exact absurd this hmem

theorem matches_iff_same_key (r c : DNSRecord) (hv : ValidRecord r)
    (hn : (c.Typ = "A" ∧ c.CName = "") ∨ (c.Typ = "CNAME" ∧ c.Name = "")) :
    Matches r c ↔ c.Typ = r.Typ ∧ identityKey c = identityKey r := by
  have hne : ("CNAME" : String) ≠ "A" := by decide
  unfold Matches identityKey
  rcases hv with ⟨ht, hname, _⟩ | ⟨ht, hname, _⟩ <;> rcases hn with ⟨hct, hcn⟩ | ⟨hct, hcn⟩
  · rw [ht, hct, if_pos rfl, if_pos rfl]
    constructor
    · rintro (⟨_, h⟩ | ⟨h, _⟩)
      · exact ⟨rfl, h.symm⟩
      · exact absurd h.symm hne
    · rintro ⟨_, h⟩; exact Or.inl ⟨rfl, h.symm⟩
  · rw [ht, hct]
    constructor
    · rintro (⟨_, h⟩ | ⟨h, _⟩)
      · rw [hcn] at h; exact absurd h hname
      · exact absurd h.symm hne
    · rintro ⟨h, _⟩; exact absurd h hne
  · rw [ht, hct]
    constructor
    · rintro (⟨h, _⟩ | ⟨_, h⟩)
      · exact absurd h hne
      · rw [hcn] at h; exact absurd h hname
    · rintro ⟨h, _⟩; exact absurd h.symm hne
  · rw [ht, hct, if_neg hne, if_neg hne]
    constructor
    · rintro (⟨h, _⟩ | ⟨_, h⟩)
      · exact absurd h hne
      · exact ⟨rfl, h.symm⟩
    · rintro ⟨_, h⟩; exact Or.inr ⟨rfl, h.symm⟩

theorem filter_le_one_of_pairwise (p : DNSRecord → Bool) (Q : DNSRecord → DNSRecord → Prop)
    (xs : List DNSRecord) (hpw : xs.Pairwise (fun a b => ¬ Q a b))
    (hQ : ∀ a ∈ xs, ∀ b ∈ xs, p a = true → p b = true → Q a b) :
    (xs.filter p).length ≤ 1 := by
  induction xs with
  | nil => simp
  | cons x rest ih =>
    obtain ⟨hx, hrest⟩ := List.pairwise_cons.mp hpw
    have ih' := ih hrest (fun a ha b hb => hQ a (by simp [ha]) b (by simp [hb]))
    cases hpx : p x with
    | false =>
      rw [List.filter_cons_of_neg (by rw [hpx]; simp)]
      exact ih'
    | true =>
      rw [List.filter_cons_of_pos hpx]
      have : rest.filter p = [] := by
        apply List.filter_eq_nil_iff.mpr
        intro b hb hpb
        exact hx b hb (hQ x (by simp) b (by simp [hb]) hpx hpb)
      rw [this]
      simp

/-- C6. Let the wanted records be valid, of type exactly "A" or "CNAME", with
pairwise distinct identity keys, each one matching exactly one current entry of
its type, and let every call succeed.  Then, whatever the order in which the
current entries are visited, `UpdateDNSRecords` issues `get_all`, then one block
per matched entry in the order of the visit (`delete` on the entry's handle,
`add`, and the two `set` calls carrying the wanted values on the handle `add`
returned), then one `commit` as its last call, and returns success.  Every
wanted record is consumed by exactly one block, and every entry that has a
wanted record gets exactly one block. -/
theorem UpdateDNSRecords_recreates_matched (d : Device) (order order' : List String)
    (xs : List DNSRecord) (s : String) (records : GoMap)
    (hok : ∀ hist c, ∃ t, d.lucirpc hist c = .ok t)
    (hreply : d.lucirpc [] ⟨"get_all", ["dhcp"]⟩ = .ok s)
    (hdec : d.unmarshal s = .ok records)
    (horder : order.Nodup) (hkeys : ∀ k, k ∈ order ↔ (records k).isSome)
    (horder' : order'.Nodup)
    (hkeys' : ∀ k, k ∈ order' ↔ (getLoop order records k).isSome)
    (hvalid : ∀ r ∈ xs, ValidRecord r)
    (hdistinct : xs.Pairwise (fun a b => ¬ (a.Typ = b.Typ ∧ identityKey a = identityKey b)))
    (hmatch : ∀ r ∈ xs, ∃! cfg, ∃ c, getLoop order records cfg = some c ∧
      c.Typ = r.Typ ∧ identityKey c = identityKey r) :
    ∃ (blocks : List Block) (t : String),
      (UpdateDNSRecords d order order' xs).run [] =
        (.ok (), [⟨⟨"get_all", ["dhcp"]⟩, .ok s⟩] ++ traceOf blocks ++
          [⟨⟨"commit", ["dhcp"]⟩, .ok t⟩]) ∧
      (blocks.map (·.record)).Perm xs ∧
      (blocks.map (·.cfg)).Sublist order' ∧ (blocks.map (·.cfg)).Nodup ∧
      (∀ b ∈ blocks, ∃ c, getLoop order records b.cfg = some c ∧
        c.Typ = b.record.Typ ∧ identityKey c = identityKey b.record) ∧
      (∀ cfg c, getLoop order records cfg = some c →
        (∃ r ∈ xs, c.Typ = r.Typ ∧ identityKey c = identityKey r) →
        cfg ∈ blocks.map (·.cfg)) := by
  have hget : (GetDNSRecords d order).run [] = _ := run_GetDNSRecords order hreply hdec
  have hnorm := getLoop_normalized order records horder hkeys
  have hsm : SingleMatch (getLoop order records) order' xs := by
    intro cfg _ c hc
    apply filter_le_one_of_pairwise _ _ xs hdistinct
    intro a ha b hb pa pb
    have ma := (matches_iff_same_key a c (hvalid a ha) (hnorm cfg c hc)).mp (by simpa using pa)
    have mb := (matches_iff_same_key b c (hvalid b hb) (hnorm cfg c hc)).mp (by simpa using pb)
    exact ⟨ma.1.symm.trans mb.1, ma.2.symm.trans mb.2⟩
  have hall : ∀ r ∈ xs, matchedBy (getLoop order records) order' r = true := by
    intro r hr
    obtain ⟨cfg, ⟨c, hc, hk⟩, _⟩ := hmatch r hr
    exact (matchedBy_iff_entry _ order' hkeys' r).mpr
      ⟨cfg, c, hc, (matches_iff_same_key r c (hvalid r hr) (hnorm cfg c hc)).mpr hk⟩
  have hfil : xs.filter (fun r => !matchedBy (getLoop order records) order' r) = [] := by
    apply List.filter_eq_nil_iff.mpr
    intro r hr
    rw [hall r hr]
    simp
  obtain ⟨hwf, hel⟩ := initial_slice xs
  have hagree := updateOuter_refines d (getLoop order records) order' ⟨xs, xs.length⟩ hwf
    (by rw [hel]; exact hsm) ([] ++ [⟨⟨"get_all", ["dhcp"]⟩, .ok s⟩])
  rw [hel] at hagree
  obtain ⟨blocks, g1, g2, g3, g4⟩ := specOuter_blocks d hok (getLoop order records) order' xs
    hsm hvalid ([] ++ [⟨⟨"get_all", ["dhcp"]⟩, .ok s⟩])
  rw [g1, hfil] at hagree
  rw [hfil, List.append_nil] at g4
  obtain ⟨a1, a2⟩ := hagree
  rcases hloop : (updateOuter d (getLoop order records) order' ⟨xs, xs.length⟩).run
      ([] ++ [⟨⟨"get_all", ["dhcp"]⟩, .ok s⟩]) with ⟨out, hist'⟩
  rw [hloop] at a1 a2
  simp only [] at a1 a2
  subst a1
  cases out with
  | err e => exact absurd a2 (by simp)
  | panic t => exact absurd a2 (by simp)
  | ok s' =>
    simp only [] at a2
    obtain ⟨hwf', hel'⟩ := a2
    have hlen : ¬ s'.len > 0 := by
      rw [← Slice.length_elems s' hwf', hel']
      simp
    obtain ⟨t, ht⟩ := hok ([] ++ [⟨⟨"get_all", ["dhcp"]⟩, .ok s⟩] ++ traceOf blocks)
      ⟨"commit", ["dhcp"]⟩
    refine ⟨blocks, t, ?_, g4, g2, g2.nodup horder', ?_, ?_⟩
    · rw [UpdateDNSRecords_eq, run_bind_ok hget, run_bind_ok hloop]
      unfold finish
      rw [if_neg hlen, run_bind_ok (run_uci_ok ht)]
      rfl
    · intro b hb
      obtain ⟨c, hc, hm⟩ := g3 b hb
      have hbx : b.record ∈ xs := g4.subset (List.mem_map_of_mem _ hb)
      exact ⟨c, hc, (matches_iff_same_key b.record c (hvalid _ hbx) (hnorm _ c hc)).mp hm⟩
    · rintro cfg c hc ⟨r, hr, hk⟩
      have hrb : r ∈ blocks.map (·.record) := g4.symm.subset hr
      obtain ⟨b, hb, hbr⟩ := List.mem_map.mp hrb
      obtain ⟨c', hc', hm'⟩ := g3 b hb
      rw [hbr] at hm'
      have hk' := (matches_iff_same_key r c' (hvalid r hr) (hnorm _ c' hc')).mp hm'
      obtain ⟨cfg₀, _, huniq⟩ := hmatch r hr
      have e1 : cfg = cfg₀ := huniq cfg ⟨c, hc, hk⟩
      have e2 : b.cfg = cfg₀ := huniq b.cfg ⟨c', hc', hk'⟩
      rw [e1, ← e2]
      exact List.mem_map_of_mem _ hb

theorem sampleDevice_ok (snapshot : GoMap) (hist : List UciEvent) (c : UciCall) :
    ∃ t, (sampleDevice snapshot).lucirpc hist c = .ok t := by
  unfold sampleDevice
  simp only []
  split
  · exact ⟨_, rfl⟩
  · exact ⟨_, rfl⟩

theorem sampleCurrent_unique (r : DNSRecord)
    (hr : r ∈ [(⟨"A", "2.2.2.2", "foobar", "", ""⟩ : DNSRecord),
      ⟨"CNAME", "", "", "foobar", "foo.bar.com"⟩]) :
    ∃! cfg, ∃ c, sampleCurrent cfg = some c ∧ c.Typ = r.Typ ∧
      identityKey c = identityKey r := by
  simp only [List.mem_cons, List.mem_singleton, List.not_mem_nil, or_false] at hr
  rcases hr with hr | hr <;> subst hr
  · refine ⟨"x", ⟨⟨"A", "1.1.1.1", "foobar", "", ""⟩, by decide, by decide, by decide⟩, ?_⟩
    rintro cfg ⟨c, hc, ht, _⟩
    rw [sampleCurrent_apply] at hc
    by_cases hx : cfg = "x"
    · exact hx
    · rw [if_neg hx] at hc
      by_cases hy : cfg = "y"
      · rw [if_pos hy] at hc
        cases hc
        exact absurd ht (by decide)
      · rw [if_neg hy] at hc; cases hc
  · refine ⟨"y", ⟨⟨"CNAME", "", "", "foobar", "bar.foo.com"⟩, by decide, by decide, by decide⟩, ?_⟩
    rintro cfg ⟨c, hc, ht, _⟩
    rw [sampleCurrent_apply] at hc
    by_cases hx : cfg = "x"
    · rw [if_pos hx] at hc
      cases hc
      exact absurd ht (by decide)
    · rw [if_neg hx] at hc
      by_cases hy : cfg = "y"
      · exact hy
      · rw [if_neg hy] at hc; cases hc

theorem UpdateDNSRecords_recreates_matched_witness :
    ∃ (blocks : List Block) (t : String),
      (UpdateDNSRecords (sampleDevice sampleSnapshot) ["x", "y", "z"] ["y", "x"]
          [⟨"A", "2.2.2.2", "foobar", "", ""⟩, ⟨"CNAME", "", "", "foobar", "foo.bar.com"⟩]).run [] =
        (.ok (), [⟨⟨"get_all", ["dhcp"]⟩, .ok ""⟩] ++ traceOf blocks ++
          [⟨⟨"commit", ["dhcp"]⟩, .ok t⟩]) ∧
      (blocks.map (·.record)).Perm
        [⟨"A", "2.2.2.2", "foobar", "", ""⟩, ⟨"CNAME", "", "", "foobar", "foo.bar.com"⟩] ∧
      (blocks.map (·.cfg)).Sublist ["y", "x"] ∧ (blocks.map (·.cfg)).Nodup ∧
      (∀ b ∈ blocks, ∃ c, getLoop ["x", "y", "z"] sampleSnapshot b.cfg = some c ∧
        c.Typ = b.record.Typ ∧ identityKey c = identityKey b.record) ∧
      (∀ cfg c, getLoop ["x", "y", "z"] sampleSnapshot cfg = some c →
        (∃ r ∈ [(⟨"A", "2.2.2.2", "foobar", "", ""⟩ : DNSRecord),
            ⟨"CNAME", "", "", "foobar", "foo.bar.com"⟩],
          c.Typ = r.Typ ∧ identityKey c = identityKey r) →
        cfg ∈ blocks.map (·.cfg)) :=
  UpdateDNSRecords_recreates_matched (sampleDevice sampleSnapshot) ["x", "y", "z"] ["y", "x"]
    [⟨"A", "2.2.2.2", "foobar", "", ""⟩, ⟨"CNAME", "", "", "foobar", "foo.bar.com"⟩] ""
    sampleSnapshot (sampleDevice_ok sampleSnapshot) rfl rfl (by decide) sampleSnapshot_keys
    (by decide)
    (fun k => by
      have := sampleCurrent_keys k
      simp only [List.mem_cons, List.mem_singleton, List.not_mem_nil, or_false] at this ⊢
      rw [or_comm]
      exact this)
    (by decide) (by decide) sampleCurrent_unique

/-- What the run of the witness above is, call by call: the entry `y` is visited
first. -/
theorem UpdateDNSRecords_sample_run :
    (UpdateDNSRecords (sampleDevice sampleSnapshot) ["x", "y", "z"] ["y", "x"]
        [⟨"A", "2.2.2.2", "foobar", "", ""⟩, ⟨"CNAME", "", "", "foobar", "foo.bar.com"⟩]).run [] =
      (.ok (),
        [⟨⟨"get_all", ["dhcp"]⟩, .ok ""⟩,
         ⟨⟨"delete", ["dhcp", "y"]⟩, .ok ""⟩,
         ⟨⟨"add", ["dhcp", "cname"]⟩, .ok "cfg2"⟩,
         ⟨⟨"set", ["dhcp", "cfg2", "cname", "foobar"]⟩, .ok ""⟩,
         ⟨⟨"set", ["dhcp", "cfg2", "target", "foo.bar.com"]⟩, .ok ""⟩,
         ⟨⟨"delete", ["dhcp", "x"]⟩, .ok ""⟩,
         ⟨⟨"add", ["dhcp", "domain"]⟩, .ok "cfg6"⟩,
         ⟨⟨"set", ["dhcp", "cfg6", "name", "foobar"]⟩, .ok ""⟩,
         ⟨⟨"set", ["dhcp", "cfg6", "ip", "2.2.2.2"]⟩, .ok ""⟩,
         ⟨⟨"commit", ["dhcp"]⟩, .ok ""⟩]) := by
  decide

/-! ## The in-loop removal without `break`, and matching on an empty key -/

/-- C8 (the code at the failing input). One current entry `x` named `foobar`;
the wanted list holds two records named `foobar` with another record between
them.  After the first removal the loop goes on over the shifted backing array,
meets the second `foobar` record and deletes and re-creates `x` a second time:
two `delete` calls for the one handle and two records consumed for the one
entry. -/
theorem UpdateDNSRecords_deletes_entry_twice :
    (UpdateDNSRecords (sampleDevice sampleSnapshot) ["x", "y", "z"] ["x", "y"]
        [⟨"A", "1.1.1.1", "foobar", "", ""⟩, ⟨"A", "2.2.2.2", "q", "", ""⟩,
         ⟨"A", "3.3.3.3", "foobar", "", ""⟩, ⟨"A", "4.4.4.4", "r", "", ""⟩]).run [] =
      (.err (.message "records not found: [\x7bA 2.2.2.2 q  \x7d \x7bA 4.4.4.4 r  \x7d]"),
        [⟨⟨"get_all", ["dhcp"]⟩, .ok ""⟩,
         ⟨⟨"delete", ["dhcp", "x"]⟩, .ok ""⟩,
         ⟨⟨"add", ["dhcp", "domain"]⟩, .ok "cfg2"⟩,
         ⟨⟨"set", ["dhcp", "cfg2", "name", "foobar"]⟩, .ok ""⟩,
         ⟨⟨"set", ["dhcp", "cfg2", "ip", "1.1.1.1"]⟩, .ok ""⟩,
         ⟨⟨"delete", ["dhcp", "x"]⟩, .ok ""⟩,
         ⟨⟨"add", ["dhcp", "domain"]⟩, .ok "cfg6"⟩,
         ⟨⟨"set", ["dhcp", "cfg6", "name", "foobar"]⟩, .ok ""⟩,
         ⟨⟨"set", ["dhcp", "cfg6", "ip", "3.3.3.3"]⟩, .ok ""⟩]) := by
  decide

/-- C9 (the code at the failing input). The wanted record is of type A and has
no name.  The current entry `y` is of type CNAME, so `GetDNSRecords` left its
name empty, and the rule `Type == "A" && Name == currentRecord.Name` matches:
`DeleteDNSRecords` deletes the CNAME entry `y` and commits. -/
theorem DeleteDNSRecords_deletes_other_type :
    (DeleteDNSRecords (sampleDevice sampleSnapshot) ["x", "y", "z"] ["x", "y"]
        [⟨"A", "", "", "", ""⟩]).run [] =
      (.ok (),
        [⟨⟨"get_all", ["dhcp"]⟩, .ok ""⟩,
         ⟨⟨"delete", ["dhcp", "y"]⟩, .ok ""⟩,
         ⟨⟨"commit", ["dhcp"]⟩, .ok ""⟩]) ∧
    sampleCurrent "y" = some ⟨"CNAME", "", "", "foobar", "bar.foo.com"⟩ := by
  decide

/-! ## The request URL -/

/-- C13. The URL `getUri` builds is address + path + "?auth=" + token when a
token is held and the method is not "login", and address + path otherwise; a
login request never carries the token, whatever token is held. -/
theorem getUri_carries_token_except_login (c : LuciRPC) (path method : String) :
    (c.token ≠ "" → method ≠ "login" →
      getUri c path method = c.addr ++ path ++ "?auth=" ++ c.token) ∧
    ((c.token = "" ∨ method = "login") → getUri c path method = c.addr ++ path) ∧
    getUri c path "login" = c.addr ++ path := by
  refine ⟨?_, ?_, ?_⟩
  · intro htok hm
    have h : method ≠ methodLogin ∧ c.token ≠ "" := ⟨hm, htok⟩
    simp only [getUri, if_pos h]
  · intro h
    have h' : ¬ (method ≠ methodLogin ∧ c.token ≠ "") := by
      rintro ⟨hm, htok⟩
      rcases h with h | h
      · exact htok h
      · exact hm h
    simp only [getUri, if_neg h']
  · exact getUri_login c path

theorem getUri_carries_token_except_login_witness :
    getUri staleClient uciPath "get" = "http://router/cgi-bin/luci/rpc/uci?auth=stale" ∧
    getUri staleClient authPath "login" = "http://router/cgi-bin/luci/rpc/auth" ∧
    getUri sampleClient uciPath "get" = "http://router/cgi-bin/luci/rpc/uci" :=
  ⟨(getUri_carries_token_except_login staleClient uciPath "get").1 (by decide) (by decide),
   (getUri_carries_token_except_login staleClient authPath "login").2.1 (Or.inr rfl),
   (getUri_carries_token_except_login sampleClient uciPath "get").2.1 (Or.inl rfl)⟩

/-! ## Classification of the status code -/

/-- C12 (as amended). For every status code `c` of a completed exchange, `call`
reports success exactly when `c ≤ 226` (and the body was read without error);
401 yields `ErrHttpUnauthorized`, 403 yields `ErrHttpForbidden`, and every other
code above 226 yields an error whose message is "http status code: <c>". -/
theorem call_classifies_status (t : Transport) (hist : List HttpEvent) (url : String)
    (payload : Payload) (c : Int) (body : String) (rerr : Option String)
    (hsend : t.send hist ⟨url, payload⟩ = .response c body rerr) :
    ((call t hist url payload).1.2 = none ↔ c ≤ 226 ∧ rerr = none) ∧
    (c ≤ 226 → (call t hist url payload).1 = (body, rerr.map .external)) ∧
    (c = 401 → (call t hist url payload).1 = (body, some .ErrHttpUnauthorized)) ∧
    (c = 403 → (call t hist url payload).1 = (body, some .ErrHttpForbidden)) ∧
    (226 < c → c ≠ 401 → c ≠ 403 →
      ∃ e, (call t hist url payload).1 = (body, some e) ∧
        e.Error = "http status code: " ++ toString c) := by
  unfold call
  simp only [hsend]
  by_cases hc : c > 226
  · simp only [if_pos hc]
    refine ⟨?_, ?_, ?_, ?_, ?_⟩
    · constructor
      · intro h; cases h
      · rintro ⟨h, _⟩; omega
    · intro h; omega
    · intro h; subst h; rfl
    · intro h; subst h; rfl
    · intro _ h1 h3
      refine ⟨_, rfl, ?_⟩
      simp only [httpError, if_neg h1, if_neg h3, Err.Error]
  · simp only [if_neg hc]
    refine ⟨?_, ?_, ?_, ?_, ?_⟩
    · constructor
      · intro h
        refine ⟨by omega, ?_⟩
        cases rerr with
        | none => rfl
        | some x => cases h
      · rintro ⟨_, h⟩; subst h; rfl
    · intro _; trivial
    · intro h; omega
    · intro h; omega
    · intro h; omega

theorem call_classifies_status_witness :
    (call (statusTransport 202) [] "http://router/cgi-bin/luci/rpc/auth"
        ⟨1, "login", ["admin", "password"]⟩).1 = ("\x7b\"result\":\"foobar\"\x7d", none) ∧
    ∃ e, (call (statusTransport 500) [] "http://router/cgi-bin/luci/rpc/auth"
        ⟨1, "login", ["admin", "password"]⟩).1 = ("\x7b\"result\":\"foobar\"\x7d", some e) ∧
      e.Error = "http status code: " ++ toString (500 : Int) :=
  ⟨(call_classifies_status (statusTransport 202) [] "http://router/cgi-bin/luci/rpc/auth"
      ⟨1, "login", ["admin", "password"]⟩ 202 _ none rfl).2.1 (by decide),
   (call_classifies_status (statusTransport 500) [] "http://router/cgi-bin/luci/rpc/auth"
      ⟨1, "login", ["admin", "password"]⟩ 500 _ none rfl).2.2.2.2 (by decide) (by decide)
      (by decide)⟩

/-- C12 (counterexample to the claim as stated). The status code 199 lies
outside 200..226, yet `call` returns no error and `rpc` returns the result: the
only test is `StatusCode > 226`. -/
theorem call_accepts_status_below_200 :
    (call (statusTransport 199) [] "http://router/cgi-bin/luci/rpc/uci"
        ⟨1, "get", ["network.lan.ipaddr"]⟩).1 = ("\x7b\"result\":\"foobar\"\x7d", none) ∧
    (rpc (statusTransport 199) sampleClient [] uciPath "get" ["network.lan.ipaddr"]).1
      = .ok "foobar" := by
  decide

/-! ## SetDNSRecords: which type tags are turned away -/

theorem setLoop_extends (d : Device) (records : List DNSRecord) (hist : List UciEvent) :
    ∃ evs, ((setLoop d records).run hist).2 = hist ++ evs := by
  induction records generalizing hist with
  | nil => exact ⟨[], by simp [setLoop]⟩
  | cons r rest ih =>
    cases hrej : rejection r with
    | some e => exact ⟨[], by rw [setLoop_cons_rejected d r rest e hist hrej]; simp⟩
    | none =>
      obtain ⟨s1, s2, s3, _, _, _, hstep⟩ := setLoop_cons_accepted d r rest hrej
      rw [hstep "" hist]
      obtain ⟨evs, e1, _⟩ := replay_events d [s1, s2, s3] "" hist
      rcases hrep : replay d [s1, s2, s3] "" hist with ⟨res, hist₁⟩
      rw [hrep] at e1
      simp only [] at e1
      subst e1
      cases res with
      | some e => exact ⟨evs, rfl⟩
      | none =>
        obtain ⟨evs', h⟩ := ih (hist ++ evs)
        exact ⟨evs ++ evs', by simp only []; rw [h, List.append_assoc]⟩

theorem SetDNSRecords_extends (d : Device) (records : List DNSRecord) (hist : List UciEvent) :
    ∃ evs, ((SetDNSRecords d records).run hist).2 = hist ++ evs := by
  rw [run_SetDNSRecords]
  obtain ⟨evs, h⟩ := setLoop_extends d records hist
  rcases hrun : (setLoop d records).run hist with ⟨out, hist'⟩
  rw [hrun] at h
  simp only [] at h
  subst h
  cases out with
  | ok u => exact ⟨evs ++ [⟨⟨"commit", ["dhcp"]⟩, d.lucirpc (hist ++ evs) ⟨"commit", ["dhcp"]⟩⟩],
      by simp⟩
  | err e => exact ⟨evs, rfl⟩
  | panic t => exact ⟨evs, rfl⟩

/-- A record that passes the checks: the first call issued for it is its `add`. -/
theorem setLoop_accepted_first_call (d : Device) (r : DNSRecord) (rest : List DNSRecord)
    (hacc : rejection r = none) (hist : List UciEvent) :
    ∃ kind reply evs, (kind = "domain" ∨ kind = "cname") ∧
      ((setLoop d (r :: rest)).run hist).2 = hist ++ ⟨⟨"add", ["dhcp", kind]⟩, reply⟩ :: evs := by
  obtain ⟨s1, s2, s3, c1, _, _, hstep⟩ := setLoop_cons_accepted d r rest hacc
  have hkind : ∃ kind, (kind = "domain" ∨ kind = "cname") ∧
      Step.call "" s1 = ⟨"add", ["dhcp", kind]⟩ := by
    rcases c1 "" with h | h
    · exact ⟨"domain", Or.inl rfl, h⟩
    · exact ⟨"cname", Or.inr rfl, h⟩
  obtain ⟨kind, hk, hcall⟩ := hkind
  rw [hstep "" hist]
  unfold replay
  rw [hcall]
  cases d.lucirpc hist ⟨"add", ["dhcp", kind]⟩ with
  | error e => exact ⟨kind, .error e, [], hk, rfl⟩
  | ok cfg =>
    simp only []
    obtain ⟨evs, e1, _⟩ := replay_events d [s2, s3] (s1.handle cfg "")
      (hist ++ [⟨⟨"add", ["dhcp", kind]⟩, .ok cfg⟩])
    rcases hrep : replay d [s2, s3] (s1.handle cfg "")
      (hist ++ [⟨⟨"add", ["dhcp", kind]⟩, .ok cfg⟩]) with ⟨res, hist₁⟩
    rw [hrep] at e1
    simp only [] at e1
    subst e1
    cases res with
    | some e => exact ⟨kind, .ok cfg, evs, hk, by rw [hrep, List.append_assoc]; rfl⟩
    | none =>
      obtain ⟨evs', h⟩ := setLoop_extends d rest (hist ++ [⟨⟨"add", ["dhcp", kind]⟩, .ok cfg⟩] ++ evs)
      exact ⟨kind, .ok cfg, evs ++ evs', hk, by rw [hrep]; simp only []; rw [h]; simp⟩

theorem replay_add_first (d : Device) (kind : String) (more : List Step) (h : String)
    (hist : List UciEvent) :
    ∃ reply evs, (replay d (.add kind :: more) h hist).2 =
      hist ++ ⟨⟨"add", ["dhcp", kind]⟩, reply⟩ :: evs := by
  unfold replay
  simp only [Step.call]
  cases d.lucirpc hist ⟨"add", ["dhcp", kind]⟩ with
  | error e => exact ⟨.error e, [], rfl⟩
  | ok cfg =>
    simp only []
    obtain ⟨evs, e1, _⟩ := replay_events d more (Step.handle cfg h (.add kind))
      (hist ++ [⟨⟨"add", ["dhcp", kind]⟩, .ok cfg⟩])
    exact ⟨.ok cfg, evs, by rw [e1, List.append_assoc]; rfl⟩

/-- After its three calls, or after the first of them that failed, a record's
step goes on with the rest of the batch: the trace starts with the `add`. -/
theorem add_first_then_rest (d : Device) (kind : String) (more : List Step) (h : String)
    (rest : List DNSRecord) (hist : List UciEvent) :
    ∃ reply evs,
      (match (outcomeOf (replay d (.add kind :: more) h hist).1,
            (replay d (.add kind :: more) h hist).2) with
        | (.ok _, hist') => (setLoop d rest).run hist'
        | (.err e, hist') => (.err e, hist')
        | (.panic text, hist') => (.panic text, hist')).2 =
        hist ++ ⟨⟨"add", ["dhcp", kind]⟩, reply⟩ :: evs := by
  obtain ⟨reply, evs, h1⟩ := replay_add_first d kind more h hist
  rcases hrep : replay d (.add kind :: more) h hist with ⟨res, hist₁⟩
  rw [hrep] at h1
  simp only [] at h1
  subst h1
  cases res with
  | some e => exact ⟨reply, evs, rfl⟩
  | none =>
    obtain ⟨evs', h2⟩ := setLoop_extends d rest (hist ++ ⟨⟨"add", ["dhcp", kind]⟩, reply⟩ :: evs)
    refine ⟨reply, evs ++ evs', ?_⟩
    simp only [outcomeOf]
    rw [h2]
    simp

theorem setLoop_first_call_A (d : Device) (r : DNSRecord) (rest : List DNSRecord)
    (htyp : r.Typ = "a" ∨ r.Typ = "A") (hn : r.Name ≠ "") (hi : r.IP ≠ "")
    (hist : List UciEvent) :
    ∃ reply evs, ((setLoop d (r :: rest)).run hist).2 =
      hist ++ ⟨⟨"add", ["dhcp", "domain"]⟩, reply⟩ :: evs := by
  have hA : ToUpper r.Typ = "A" := by rcases htyp with h | h <;> rw [h] <;> decide
  rw [run_setLoop_cons, if_pos hA, run_addA d r "" hist htyp hn hi]
  exact add_first_then_rest d "domain" _ "" rest hist

theorem setLoop_first_call_CNAME (d : Device) (r : DNSRecord) (rest : List DNSRecord)
    (htyp : r.Typ = "cname" ∨ r.Typ = "CNAME") (hn : r.CName ≠ "") (hi : r.Target ≠ "")
    (hist : List UciEvent) :
    ∃ reply evs, ((setLoop d (r :: rest)).run hist).2 =
      hist ++ ⟨⟨"add", ["dhcp", "cname"]⟩, reply⟩ :: evs := by
  have hA : ¬ ToUpper r.Typ = "A" := by rcases htyp with h | h <;> rw [h] <;> decide
  have hC : ToUpper r.Typ = "CNAME" := by rcases htyp with h | h <;> rw [h] <;> decide
  rw [run_setLoop_cons, if_neg hA, if_pos hC, run_addCName d r "" hist htyp hn hi]
  exact add_first_then_rest d "cname" _ "" rest hist

/-- The trace of `SetDNSRecords` extends the trace of its `range` loop. -/
theorem SetDNSRecords_trace_of_setLoop (d : Device) (records : List DNSRecord)
    (hist : List UciEvent) (ev : UciEvent) (evs : List UciEvent)
    (h : ((setLoop d records).run hist).2 = hist ++ ev :: evs) :
    ∃ evs', ((SetDNSRecords d records).run hist).2 = hist ++ ev :: evs' := by
  rw [run_SetDNSRecords]
  rcases hrun : (setLoop d records).run hist with ⟨out, hist'⟩
  rw [hrun] at h
  simp only [] at h
  subst h
  cases out with
  | ok u => exact ⟨evs ++ [⟨⟨"commit", ["dhcp"]⟩,
      d.lucirpc (hist ++ ev :: evs) ⟨"commit", ["dhcp"]⟩⟩], by simp⟩
  | err e => exact ⟨evs, rfl⟩
  | panic t => exact ⟨evs, rfl⟩

theorem SetDNSRecords_after_applied (d : Device) (pre rest : List DNSRecord)
    (hist hist' : List UciEvent) (hpre : (setLoop d pre).run hist = (.ok (), hist')) :
    (SetDNSRecords d (pre ++ rest)).run hist = (SetDNSRecords d rest).run hist' := by
  rw [run_SetDNSRecords, run_SetDNSRecords, setLoop_append, hpre]

theorem SetDNSRecords_cons_rejected (d : Device) (r : DNSRecord) (rest : List DNSRecord)
    (e : Err) (hist : List UciEvent) (hrej : rejection r = some e) :
    (SetDNSRecords d (r :: rest)).run hist = (.err e, hist) := by
  rw [run_SetDNSRecords, setLoop_cons_rejected d r rest e hist hrej]

theorem rejection_of_other_tag (r : DNSRecord)
    (h : r.Typ ≠ "a" ∧ r.Typ ≠ "A" ∧ r.Typ ≠ "cname" ∧ r.Typ ≠ "CNAME") :
    rejection r = some (.message ("invalid record type: " ++ r.Typ)) := by
  have hA : r.Typ ≠ "a" ∧ r.Typ ≠ "A" := ⟨h.1, h.2.1⟩
  have hC : r.Typ ≠ "cname" ∧ r.Typ ≠ "CNAME" := ⟨h.2.2.1, h.2.2.2⟩
  unfold rejection
  by_cases h1 : ToUpper r.Typ = "A"
  · rw [if_pos h1, if_pos hA]
  · rw [if_neg h1]
    by_cases h2 : ToUpper r.Typ = "CNAME"
    · rw [if_pos h2, if_pos hC]
    · rw [if_neg h2]

theorem rejection_of_tag_A (r : DNSRecord) (htyp : r.Typ = "a" ∨ r.Typ = "A") :
    rejection r =
      if r.Name = "" then some (.message "name is required")
      else if r.IP = "" then some (.message "ip is required")
      else none := by
  have hA : ToUpper r.Typ = "A" := by rcases htyp with h | h <;> rw [h] <;> decide
  have h0 : ¬ (r.Typ ≠ "a" ∧ r.Typ ≠ "A") := by rcases htyp with h | h <;> simp [h]
  unfold rejection
  rw [if_pos hA, if_neg h0]

theorem rejection_of_tag_CNAME (r : DNSRecord) (htyp : r.Typ = "cname" ∨ r.Typ = "CNAME") :
    rejection r =
      if r.CName = "" then some (.message "cname is required")
      else if r.Target = "" then some (.message "target is required")
      else none := by
  have hA : ¬ ToUpper r.Typ = "A" := by rcases htyp with h | h <;> rw [h] <;> decide
  have hC : ToUpper r.Typ = "CNAME" := by rcases htyp with h | h <;> rw [h] <;> decide
  have h0 : ¬ (r.Typ ≠ "cname" ∧ r.Typ ≠ "CNAME") := by rcases htyp with h | h <;> simp [h]
  unfold rejection
  rw [if_neg hA, if_pos hC, if_neg h0]

theorem field_error_ne_invalid_type (r : DNSRecord)
    (htyp : r.Typ = "a" ∨ r.Typ = "A" ∨ r.Typ = "cname" ∨ r.Typ = "CNAME") :
    "name is required" ≠ "invalid record type: " ++ r.Typ ∧
    "ip is required" ≠ "invalid record type: " ++ r.Typ ∧
    "cname is required" ≠ "invalid record type: " ++ r.Typ ∧
    "target is required" ≠ "invalid record type: " ++ r.Typ := by
  rcases htyp with h | h | h | h <;> rw [h] <;> decide

/-- C11 (as amended). A record is turned away with the invalid-record-type error
exactly when its type tag is none of "a", "A", "cname" and "CNAME".  A record
tagged "a" or "A" proceeds to the field validation of `addA` (name, then ip) and
then to its `add`; a record tagged "cname" or "CNAME" proceeds to the field
validation of `addCName` (cname, then target) and then to its `add`.  The
records before it in the batch are assumed to have been applied. -/
theorem SetDNSRecords_invalid_type_iff (d : Device) (pre : List DNSRecord) (r : DNSRecord)
    (post : List DNSRecord) (hist hist' : List UciEvent)
    (hpre : (setLoop d pre).run hist = (.ok (), hist')) :
    ((SetDNSRecords d (pre ++ r :: post)).run hist =
        (.err (.message ("invalid record type: " ++ r.Typ)), hist') ↔
      (r.Typ ≠ "a" ∧ r.Typ ≠ "A" ∧ r.Typ ≠ "cname" ∧ r.Typ ≠ "CNAME")) ∧
    ((r.Typ = "a" ∨ r.Typ = "A") →
      (r.Name = "" → (SetDNSRecords d (pre ++ r :: post)).run hist =
        (.err (.message "name is required"), hist')) ∧
      (r.Name ≠ "" → r.IP = "" → (SetDNSRecords d (pre ++ r :: post)).run hist =
        (.err (.message "ip is required"), hist')) ∧
      (r.Name ≠ "" → r.IP ≠ "" → ∃ reply evs,
        ((SetDNSRecords d (pre ++ r :: post)).run hist).2 =
          hist' ++ ⟨⟨"add", ["dhcp", "domain"]⟩, reply⟩ :: evs)) ∧
    ((r.Typ = "cname" ∨ r.Typ = "CNAME") →
      (r.CName = "" → (SetDNSRecords d (pre ++ r :: post)).run hist =
        (.err (.message "cname is required"), hist')) ∧
      (r.CName ≠ "" → r.Target = "" → (SetDNSRecords d (pre ++ r :: post)).run hist =
        (.err (.message "target is required"), hist')) ∧
      (r.CName ≠ "" → r.Target ≠ "" → ∃ reply evs,
        ((SetDNSRecords d (pre ++ r :: post)).run hist).2 =
          hist' ++ ⟨⟨"add", ["dhcp", "cname"]⟩, reply⟩ :: evs)) := by
  rw [SetDNSRecords_after_applied d pre (r :: post) hist hist' hpre]
  have hA : (r.Typ = "a" ∨ r.Typ = "A") →
      (r.Name = "" → (SetDNSRecords d (r :: post)).run hist' =
        (.err (.message "name is required"), hist')) ∧
      (r.Name ≠ "" → r.IP = "" → (SetDNSRecords d (r :: post)).run hist' =
        (.err (.message "ip is required"), hist')) ∧
      (r.Name ≠ "" → r.IP ≠ "" → ∃ reply evs,
        ((SetDNSRecords d (r :: post)).run hist').2 =
          hist' ++ ⟨⟨"add", ["dhcp", "domain"]⟩, reply⟩ :: evs) := by
    intro htyp
    have hrej := rejection_of_tag_A r htyp
    refine ⟨?_, ?_, ?_⟩
    · intro hn
      rw [if_pos hn] at hrej
      exact SetDNSRecords_cons_rejected d r post _ hist' hrej
    · intro hn hi
      rw [if_neg hn, if_pos hi] at hrej
      exact SetDNSRecords_cons_rejected d r post _ hist' hrej
    · intro hn hi
      obtain ⟨reply, evs, h⟩ := setLoop_first_call_A d r post htyp hn hi hist'
      obtain ⟨evs', h'⟩ := SetDNSRecords_trace_of_setLoop d (r :: post) hist' _ evs h
      exact ⟨reply, evs', h'⟩
  have hC : (r.Typ = "cname" ∨ r.Typ = "CNAME") →
      (r.CName = "" → (SetDNSRecords d (r :: post)).run hist' =
        (.err (.message "cname is required"), hist')) ∧
      (r.CName ≠ "" → r.Target = "" → (SetDNSRecords d (r :: post)).run hist' =
        (.err (.message "target is required"), hist')) ∧
      (r.CName ≠ "" → r.Target ≠ "" → ∃ reply evs,
        ((SetDNSRecords d (r :: post)).run hist').2 =
          hist' ++ ⟨⟨"add", ["dhcp", "cname"]⟩, reply⟩ :: evs) := by
    intro htyp
    have hrej := rejection_of_tag_CNAME r htyp
    refine ⟨?_, ?_, ?_⟩
    · intro hn
      rw [if_pos hn] at hrej
      exact SetDNSRecords_cons_rejected d r post _ hist' hrej
    · intro hn hi
      rw [if_neg hn, if_pos hi] at hrej
      exact SetDNSRecords_cons_rejected d r post _ hist' hrej
    · intro hn hi
      obtain ⟨reply, evs, h⟩ := setLoop_first_call_CNAME d r post htyp hn hi hist'
      obtain ⟨evs', h'⟩ := SetDNSRecords_trace_of_setLoop d (r :: post) hist' _ evs h
      exact ⟨reply, evs', h'⟩
  have hgrow : ∀ (ev : UciEvent) (evs : List UciEvent), hist' ++ ev :: evs ≠ hist' := by
    intro ev evs h
    have := congrArg List.length h
    simp at this
  refine ⟨⟨?_, ?_⟩, hA, hC⟩
  · intro hrun
    by_contra hcon
    have htag : r.Typ = "a" ∨ r.Typ = "A" ∨ r.Typ = "cname" ∨ r.Typ = "CNAME" := by
      by_contra hno
      exact hcon ⟨fun h => hno (Or.inl h), fun h => hno (Or.inr (Or.inl h)),
        fun h => hno (Or.inr (Or.inr (Or.inl h))), fun h => hno (Or.inr (Or.inr (Or.inr h)))⟩
    obtain ⟨n1, n2, n3, n4⟩ := field_error_ne_invalid_type r htag
    have hcases : (r.Typ = "a" ∨ r.Typ = "A") ∨ (r.Typ = "cname" ∨ r.Typ = "CNAME") := by
      rcases htag with h | h | h | h
      · exact Or.inl (Or.inl h)
      · exact Or.inl (Or.inr h)
      · exact Or.inr (Or.inl h)
      · exact Or.inr (Or.inr h)
    rcases hcases with htyp | htyp
    · obtain ⟨f1, f2, f3⟩ := hA htyp
      by_cases hn : r.Name = ""
      · rw [f1 hn] at hrun
        simp only [Prod.mk.injEq, Outcome.err.injEq, Err.message.injEq, and_true] at hrun
        exact n1 hrun
      · by_cases hi : r.IP = ""
        · rw [f2 hn hi] at hrun
          simp only [Prod.mk.injEq, Outcome.err.injEq, Err.message.injEq, and_true] at hrun
          exact n2 hrun
        · obtain ⟨reply, evs, h⟩ := f3 hn hi
          rw [hrun] at h
          exact hgrow _ _ h.symm
    · obtain ⟨f1, f2, f3⟩ := hC htyp
      by_cases hn : r.CName = ""
      · rw [f1 hn] at hrun
        simp only [Prod.mk.injEq, Outcome.err.injEq, Err.message.injEq, and_true] at hrun
        exact n3 hrun
      · by_cases hi : r.Target = ""
        · rw [f2 hn hi] at hrun
          simp only [Prod.mk.injEq, Outcome.err.injEq, Err.message.injEq, and_true] at hrun
          exact n4 hrun
        · obtain ⟨reply, evs, h⟩ := f3 hn hi
          rw [hrun] at h
          exact hgrow _ _ h.symm
  · intro hother
    exact SetDNSRecords_cons_rejected d r post _ hist' (rejection_of_other_tag r hother)

theorem SetDNSRecords_invalid_type_iff_witness :
    (SetDNSRecords (sampleDevice sampleSnapshot)
        ([⟨"A", "1.1.1.1", "foo.bar.com", "", ""⟩] ++ ⟨"TXT", "", "", "", ""⟩ :: [])).run []
      = (.err (.message "invalid record type: TXT"),
          [⟨⟨"add", ["dhcp", "domain"]⟩, .ok "cfg0"⟩,
           ⟨⟨"set", ["dhcp", "cfg0", "name", "foo.bar.com"]⟩, .ok ""⟩,
           ⟨⟨"set", ["dhcp", "cfg0", "ip", "1.1.1.1"]⟩, .ok ""⟩]) :=
  (SetDNSRecords_invalid_type_iff (sampleDevice sampleSnapshot)
    [⟨"A", "1.1.1.1", "foo.bar.com", "", ""⟩] ⟨"TXT", "", "", "", ""⟩ [] [] _
    (by decide)).1.mpr (by decide)

/-- C11 (counterexample to the claim as stated). The tag "Cname" equals "CNAME"
under case-insensitive comparison, and passes the `switch` on
`strings.ToUpper`, but `addCName` accepts only "cname" and "CNAME": the record
is turned away with the invalid-record-type error before its fields are
looked at. -/
theorem SetDNSRecords_rejects_mixed_case_tag :
    ToUpper "Cname" = "CNAME" ∧
    (SetDNSRecords (sampleDevice sampleSnapshot)
        [⟨"Cname", "", "", "foo.bar.com", "bar.foo.com"⟩]).run []
      = (.err (.message "invalid record type: Cname"), []) := by
  decide

/-! ## The in-loop removal can slice out of range -/

/-- C14 (the code at the failing input). One current entry `x` named `foobar`
and two wanted records named `foobar`.  After the first removal the slice has
length 1, but the `range` loop still visits index 1 of the backing array, where
the second record is read again; it matches, `x` is deleted a second time, and
`records[index+1:]` with `index+1 = 2` exceeds the length 1: both operations
fault with a run-time panic. -/
theorem reconcile_faults_on_double_match :
    (DeleteDNSRecords (sampleDevice sampleSnapshot) ["x", "y", "z"] ["x", "y"]
        [⟨"A", "1.1.1.1", "foobar", "", ""⟩, ⟨"A", "2.2.2.2", "foobar", "", ""⟩]).run [] =
      (.panic "slice bounds out of range",
        [⟨⟨"get_all", ["dhcp"]⟩, .ok ""⟩,
         ⟨⟨"delete", ["dhcp", "x"]⟩, .ok ""⟩,
         ⟨⟨"delete", ["dhcp", "x"]⟩, .ok ""⟩]) ∧
    ((UpdateDNSRecords (sampleDevice sampleSnapshot) ["x", "y", "z"] ["x", "y"]
        [⟨"A", "1.1.1.1", "foobar", "", ""⟩, ⟨"A", "2.2.2.2", "foobar", "", ""⟩]).run []).1 =
      .panic "slice bounds out of range" ∧
    removeAt ⟨[⟨"A", "2.2.2.2", "foobar", "", ""⟩, ⟨"A", "2.2.2.2", "foobar", "", ""⟩], 1⟩ 1
      = none := by
  decide

/-! ## Records that are not found, by type and identity key -/

/-- For a wanted record whose identity key is not empty, the rule the loops
apply singles out the normalised entries of the record's type and key. -/
theorem matches_iff_sameEntry (r c : DNSRecord)
    (hk : (r.Typ = "A" → r.Name ≠ "") ∧ (r.Typ = "CNAME" → r.CName ≠ ""))
    (hn : (c.Typ = "A" ∧ c.CName = "") ∨ (c.Typ = "CNAME" ∧ c.Name = "")) :
    Matches r c ↔ SameEntry r c := by
  have hne : ("CNAME" : String) ≠ "A" := by decide
  unfold Matches SameEntry identityKey
  constructor
  · rintro (⟨ht, hname⟩ | ⟨ht, hname⟩)
    · have hnz := hk.1 ht
      rcases hn with ⟨hct, _⟩ | ⟨_, hcn⟩
      · rw [ht, hct, if_pos rfl, if_pos rfl]; exact ⟨rfl, hname.symm⟩
      · rw [hcn] at hname; exact absurd hname hnz
    · have hnz := hk.2 ht
      rcases hn with ⟨_, hcn⟩ | ⟨hct, _⟩
      · rw [hcn] at hname; exact absurd hname hnz
      · rw [ht, hct, if_neg hne, if_neg hne]; exact ⟨rfl, hname.symm⟩
  · rintro ⟨ht, hkey⟩
    rcases hn with ⟨hct, _⟩ | ⟨hct, _⟩
    · have hrt : r.Typ = "A" := by rw [← ht, hct]
      rw [hct, hrt, if_pos rfl, if_pos rfl] at hkey
      exact Or.inl ⟨hrt, hkey.symm⟩
    · have hrt : r.Typ = "CNAME" := by rw [← ht, hct]
      rw [hct, hrt, if_neg hne, if_neg hne] at hkey
      exact Or.inr ⟨hrt, hkey.symm⟩

theorem hasEntry_iff (cur : GoMap) (order : List String) (r : DNSRecord) :
    hasEntry cur order r = true ↔ ∃ cfg ∈ order, ∃ c, cur cfg = some c ∧ SameEntry r c := by
  unfold hasEntry
  rw [List.any_eq_true]
  constructor
  · rintro ⟨cfg, hcfg, h⟩
    cases hc : cur cfg with
    | none => rw [hc] at h; cases h
    | some c => rw [hc] at h; exact ⟨cfg, hcfg, c, hc, by simpa using h⟩
  · rintro ⟨cfg, hcfg, c, hc, hm⟩
    exact ⟨cfg, hcfg, by rw [hc]; simpa using hm⟩

theorem hasEntry_eq_matchedBy (cur : GoMap) (order : List String) (r : DNSRecord)
    (h : ∀ cfg c, cur cfg = some c → (Matches r c ↔ SameEntry r c)) :
    hasEntry cur order r = matchedBy cur order r := by
  rw [Bool.eq_iff_iff, hasEntry_iff, matchedBy_iff]
  constructor
  · rintro ⟨cfg, hcfg, c, hc, hm⟩; exact ⟨cfg, hcfg, c, hc, (h cfg c hc).mpr hm⟩
  · rintro ⟨cfg, hcfg, c, hc, hm⟩; exact ⟨cfg, hcfg, c, hc, (h cfg c hc).mp hm⟩

/-- C7 (as amended). Let the wanted records of type A have a name and those of
type CNAME a cname, and let no current entry be the entry (same type, same
identity key) of more than one wanted record.  If some wanted record has no
current entry of its type and identity key and no call fails, then, whatever
the order in which the current entries are visited, `DeleteDNSRecords` fails
with "records not found: <list>", the list being exactly the wanted records
that have no current entry of their type and identity key, in input order, and
issues no commit; the same holds for `UpdateDNSRecords` provided every wanted
record that has such an entry is valid. -/
theorem reconcile_reports_missing (d : Device) (order order' : List String)
    (xs : List DNSRecord) (s : String) (records : GoMap)
    (hreply : d.lucirpc [] ⟨"get_all", ["dhcp"]⟩ = .ok s)
    (hdec : d.unmarshal s = .ok records)
    (horder : order.Nodup) (hkeys : ∀ k, k ∈ order ↔ (records k).isSome)
    (hkeys' : ∀ k, k ∈ order' ↔ (getLoop order records k).isSome)
    (hkey : ∀ r ∈ xs, (r.Typ = "A" → r.Name ≠ "") ∧ (r.Typ = "CNAME" → r.CName ≠ ""))
    (hone : ∀ cfg c, getLoop order records cfg = some c →
      (xs.filter (fun r => decide (SameEntry r c))).length ≤ 1)
    (hsome : ∃ r ∈ xs, ∀ cfg c, getLoop order records cfg = some c → ¬ SameEntry r c) :
    (∀ r, r ∈ xs.filter (fun r => !hasEntry (getLoop order records) order' r) ↔
      r ∈ xs ∧ ∀ cfg c, getLoop order records cfg = some c → ¬ SameEntry r c) ∧
    ((∀ ev ∈ ((DeleteDNSRecords d order order' xs).run []).2, ∃ t, ev.reply = .ok t) →
      ((DeleteDNSRecords d order order' xs).run []).1 =
          .err (.message ("records not found: " ++
            fmtRecords (xs.filter (fun r => !hasEntry (getLoop order records) order' r)))) ∧
        ∀ ev ∈ ((DeleteDNSRecords d order order' xs).run []).2, ev.call.method ≠ "commit") ∧
    ((∀ r ∈ xs, (∃ cfg c, getLoop order records cfg = some c ∧ SameEntry r c) →
        ValidRecord r) →
      (∀ ev ∈ ((UpdateDNSRecords d order order' xs).run []).2, ∃ t, ev.reply = .ok t) →
      ((UpdateDNSRecords d order order' xs).run []).1 =
          .err (.message ("records not found: " ++
            fmtRecords (xs.filter (fun r => !hasEntry (getLoop order records) order' r)))) ∧
        ∀ ev ∈ ((UpdateDNSRecords d order order' xs).run []).2, ev.call.method ≠ "commit") := by
  have hget : (GetDNSRecords d order).run [] = _ := run_GetDNSRecords order hreply hdec
  have hnorm := getLoop_normalized order records horder hkeys
  have hM : ∀ r ∈ xs, ∀ cfg c, getLoop order records cfg = some c →
      (Matches r c ↔ SameEntry r c) :=
    fun r hr cfg c hc => matches_iff_sameEntry r c (hkey r hr) (hnorm cfg c hc)
  have hfilter : xs.filter (fun r => !matchedBy (getLoop order records) order' r) =
      xs.filter (fun r => !hasEntry (getLoop order records) order' r) := by
    apply List.filter_congr
    intro r hr
    rw [hasEntry_eq_matchedBy _ order' r (hM r hr)]
  have hone' : ∀ cfg c, getLoop order records cfg = some c →
      (xs.filter (fun r => decide (Matches r c))).length ≤ 1 := by
    intro cfg c hc
    have hcongr : xs.filter (fun r => decide (Matches r c)) =
        xs.filter (fun r => decide (SameEntry r c)) := by
      apply List.filter_congr
      intro r hr
      exact decide_eq_decide.mpr (hM r hr cfg c hc)
    rw [hcongr]
    exact hone cfg c hc
  have hsome' : ∃ r ∈ xs, ∀ cfg c, getLoop order records cfg = some c → ¬ Matches r c := by
    obtain ⟨r, hr, h⟩ := hsome
    exact ⟨r, hr, fun cfg c hc hm => h cfg c hc ((hM r hr cfg c hc).mp hm)⟩
  obtain ⟨h1, h2, h3⟩ := reconcile_not_found_by_rule d order order' xs (getLoop order records) _
    hget hkeys' hone' hsome'
  rw [hfilter] at h1 h2 h3
  refine ⟨?_, h2, ?_⟩
  · intro r
    rw [h1 r]
    constructor
    · rintro ⟨hr, h⟩
      exact ⟨hr, fun cfg c hc hm => h cfg c hc ((hM r hr cfg c hc).mpr hm)⟩
    · rintro ⟨hr, h⟩
      exact ⟨hr, fun cfg c hc hm => h cfg c hc ((hM r hr cfg c hc).mp hm)⟩
  · intro hvalid
    apply h3
    rintro r hr ⟨cfg, c, hc, hm⟩
    exact hvalid r hr ⟨cfg, c, hc, (hM r hr cfg c hc).mp hm⟩

theorem reconcile_reports_missing_witness :
    ([(⟨"A", "2.2.2.2", "foobar", "", ""⟩ : DNSRecord),
        ⟨"CNAME", "", "", "whatever", "3.3.3.3"⟩].filter
          (fun r => !hasEntry sampleCurrent ["x", "y"] r)
      = [⟨"CNAME", "", "", "whatever", "3.3.3.3"⟩]) ∧
    (((DeleteDNSRecords (sampleDevice sampleSnapshot) ["x", "y", "z"] ["x", "y"]
        [⟨"A", "2.2.2.2", "foobar", "", ""⟩, ⟨"CNAME", "", "", "whatever", "3.3.3.3"⟩]).run []).1
      = .err (.message "records not found: [\x7bCNAME   whatever 3.3.3.3\x7d]") ∧
      ∀ ev ∈ ((DeleteDNSRecords (sampleDevice sampleSnapshot) ["x", "y", "z"] ["x", "y"]
        [⟨"A", "2.2.2.2", "foobar", "", ""⟩, ⟨"CNAME", "", "", "whatever", "3.3.3.3"⟩]).run []).2,
        ev.call.method ≠ "commit") ∧
    (((UpdateDNSRecords (sampleDevice sampleSnapshot) ["x", "y", "z"] ["x", "y"]
        [⟨"A", "2.2.2.2", "foobar", "", ""⟩, ⟨"CNAME", "", "", "whatever", "3.3.3.3"⟩]).run []).1
      = .err (.message "records not found: [\x7bCNAME   whatever 3.3.3.3\x7d]") ∧
      ∀ ev ∈ ((UpdateDNSRecords (sampleDevice sampleSnapshot) ["x", "y", "z"] ["x", "y"]
        [⟨"A", "2.2.2.2", "foobar", "", ""⟩, ⟨"CNAME", "", "", "whatever", "3.3.3.3"⟩]).run []).2,
        ev.call.method ≠ "commit") := by
  have h := reconcile_reports_missing (sampleDevice sampleSnapshot) ["x", "y", "z"] ["x", "y"]
    [⟨"A", "2.2.2.2", "foobar", "", ""⟩, ⟨"CNAME", "", "", "whatever", "3.3.3.3"⟩]
    "" sampleSnapshot rfl rfl (by decide) sampleSnapshot_keys sampleCurrent_keys
    (fun r hr => by
      simp only [List.mem_cons, List.mem_singleton, List.not_mem_nil, or_false] at hr
      rcases hr with hr | hr <;> subst hr <;> decide)
    (fun cfg c hc => by
      rcases sampleCurrent_entry cfg c hc with h | h <;> subst h <;> decide)
    ⟨⟨"CNAME", "", "", "whatever", "3.3.3.3"⟩, by simp, fun cfg c hc => by
      rcases sampleCurrent_entry cfg c hc with h | h <;> subst h <;> decide⟩
  have hd : ((DeleteDNSRecords (sampleDevice sampleSnapshot) ["x", "y", "z"] ["x", "y"]
      [⟨"A", "2.2.2.2", "foobar", "", ""⟩, ⟨"CNAME", "", "", "whatever", "3.3.3.3"⟩]).run []).2
      = [⟨⟨"get_all", ["dhcp"]⟩, .ok ""⟩, ⟨⟨"delete", ["dhcp", "x"]⟩, .ok ""⟩] := by
    decide
  have hu : ((UpdateDNSRecords (sampleDevice sampleSnapshot) ["x", "y", "z"] ["x", "y"]
      [⟨"A", "2.2.2.2", "foobar", "", ""⟩, ⟨"CNAME", "", "", "whatever", "3.3.3.3"⟩]).run []).2
      = [⟨⟨"get_all", ["dhcp"]⟩, .ok ""⟩, ⟨⟨"delete", ["dhcp", "x"]⟩, .ok ""⟩,
          ⟨⟨"add", ["dhcp", "domain"]⟩, .ok "cfg2"⟩,
          ⟨⟨"set", ["dhcp", "cfg2", "name", "foobar"]⟩, .ok ""⟩,
          ⟨⟨"set", ["dhcp", "cfg2", "ip", "2.2.2.2"]⟩, .ok ""⟩] := by
    decide
  refine ⟨by decide, ?_, ?_⟩
  · refine h.2.1 ?_
    intro ev hev
    rw [hd] at hev
    simp only [List.mem_cons, List.mem_singleton, List.not_mem_nil, or_false] at hev
    rcases hev with hev | hev <;> subst hev <;> exact ⟨_, rfl⟩
  · refine h.2.2 ?_ ?_
    · intro r hr _
      simp only [List.mem_cons, List.mem_singleton, List.not_mem_nil, or_false] at hr
      rcases hr with hr | hr <;> subst hr <;> decide
    · intro ev hev
      rw [hu] at hev
      simp only [List.mem_cons, List.mem_singleton, List.not_mem_nil, or_false] at hev
      rcases hev with hev | hev | hev | hev | hev <;> subst hev <;> exact ⟨_, rfl⟩

end OpenWrt
